import Mathlib

/-
  Verification development for the obstacle-chess engine.

  Shallow embedding of src/common.py, src/piece.py, src/move.py,
  src/board.py and src/game.py.  Python lists are Lean lists; Python
  integers are Lean Int; Python in-place mutation is explicit state
  passing (functions that mutate self return the updated board);
  Python exceptions are an explicit error constructor (PyErr).
-/

set_option maxRecDepth 4000
set_option maxHeartbeats 1600000

namespace OC

/-- Python runtime exceptions that the embedded code can raise. -/
inductive PyErr where
  | indexError
  | attributeError
  | valueError
deriving DecidableEq, Repr

/-- Computation that may raise a Python exception. -/
inductive Py (a : Type) where
  | ok (v : a)
  | error (e : PyErr)
deriving DecidableEq, Repr

instance : Monad Py where
  pure := Py.ok
  bind := fun x f => match x with | .ok v => f v | .error e => .error e

/-- Resolve a Python list index (negative indices wrap once; out of range is None). -/
def pyIndex (n : Nat) (i : Int) : Option Nat :=
  if 0 ≤ i then
    (if i < (n : Int) then some i.toNat else none)
  else
    (let j : Int := (n : Int) + i
     if 0 ≤ j then some j.toNat else none)

/-- Python list read `l[i]` (IndexError when out of range). -/
def pyGet (l : List a) (i : Int) : Py a :=
  match pyIndex l.length i with
  | some k =>
    match l.get? k with
    | some v => .ok v
    | none => .error .indexError
  | none => .error .indexError

/-- Python list write `l[i] = v` (IndexError when out of range). -/
def pySet (l : List a) (i : Int) (v : a) : Py (List a) :=
  match pyIndex l.length i with
  | some k => .ok (l.set k v)
  | none => .error .indexError

/-- Decimal digits of a natural number, most significant first (for str()). -/
def natDigits (n : Nat) : List Char :=
  let rec go (fuel : Nat) (n : Nat) (acc : List Char) : List Char :=
    match fuel with
    | 0 => acc
    | fuel + 1 =>
      let d := Char.ofNat (48 + n % 10)
      if n < 10 then d :: acc else go fuel (n / 10) (d :: acc)
  go (n + 1) n []

/-- Python str() of an integer. -/
def intToStr (i : Int) : String :=
  if i < 0 then String.mk ('-' :: natDigits (-i).toNat) else String.mk (natDigits i.toNat)

/-- Python int() on a token: optional sign then decimal digits with
underscores allowed strictly between digits (ValueError otherwise). -/
def pyIntDigits : List Char → Bool
  | [] => false
  | [c] => c.isDigit
  | c :: c2 :: rest =>
    if c.isDigit then pyIntDigits (c2 :: rest)
    else if c = '_' then c2.isDigit && pyIntDigits (c2 :: rest)
    else false

def digitsVal (l : List Char) : Nat :=
  l.foldl (fun acc c => if c.isDigit then acc * 10 + (c.toNat - 48) else acc) 0

def pyInt (s : String) : Py Int :=
  match s.data with
  | '-' :: rest => if pyIntDigits rest && rest.headD '0' ≠ '_' then .ok (-(digitsVal rest : Int)) else .error .valueError
  | '+' :: rest => if pyIntDigits rest && rest.headD '0' ≠ '_' then .ok (digitsVal rest : Int) else .error .valueError
  | l => if pyIntDigits l && l.headD '0' ≠ '_' then .ok (digitsVal l : Int) else .error .valueError

/-- Python str.split() with no argument: split on whitespace runs, dropping empties. -/
def splitWsGo (cs : List Char) (cur : List Char) (acc : List String) : List String :=
  match cs with
  | [] => (if cur.isEmpty then acc else acc ++ [String.mk cur.reverse])
  | c :: rest =>
    if c = ' ' ∨ c = '\t' ∨ c = '\n' then
      (if cur.isEmpty then splitWsGo rest [] acc
       else splitWsGo rest [] (acc ++ [String.mk cur.reverse]))
    else splitWsGo rest (c :: cur) acc

def splitWs (s : String) : List String := splitWsGo s.data [] []

/-! common.py: Position, Player, Wall, TrapdoorState -/

/-- common.py Position: integer pair. -/
structure Position where
  x : Int
  y : Int
deriving DecidableEq, Repr

def P (x y : Int) : Position := ⟨x, y⟩

instance : Add Position := ⟨fun p q => ⟨p.x + q.x, p.y + q.y⟩⟩
instance : Sub Position := ⟨fun p q => ⟨p.x - q.x, p.y - q.y⟩⟩

/-- Position.norm: componentwise sign (x//abs(x) on nonzero). -/
def Position.norm (p : Position) : Position := ⟨p.x.sign, p.y.sign⟩

/-- Position.canonical: algebraic notation (chr(x+97), str(8-y)). -/
def Position.canonical (p : Position) : String :=
  String.mk [Char.ofNat (p.x + 97).toNat] ++ intToStr (8 - p.y)

/-- Position.from_str on a 2-character algebraic token. -/
def Position.from_str (s : String) : Position :=
  match s.data with
  | c1 :: c2 :: _ => ⟨(c1.toNat : Int) - 97, 8 - ((c2.toNat : Int) - 48)⟩
  | _ => ⟨0, 0⟩

/-- common.py Player enum (WHITE = -1, BLACK = 1). -/
inductive Player where
  | WHITE
  | BLACK
deriving DecidableEq, Repr

def Player.value : Player → Int
  | .WHITE => -1
  | .BLACK => 1

def Player.opponent : Player → Player
  | .WHITE => .BLACK
  | .BLACK => .WHITE

def Player.canonical : Player → String
  | .WHITE => "w"
  | .BLACK => "b"

/-- common.py Wall bitflag, one Bool per direction. -/
structure Walls where
  north : Bool
  south : Bool
  east : Bool
  west : Bool
deriving DecidableEq, Repr

def Walls.none0 : Walls := ⟨false, false, false, false⟩

/-- Truthiness of the flag value (nonzero bits). -/
def Walls.isAny (w : Walls) : Bool := w.north || w.south || w.east || w.west

def Walls.addNorth (w : Walls) : Walls := { w with north := true }
def Walls.addSouth (w : Walls) : Walls := { w with south := true }
def Walls.addEast (w : Walls) : Walls := { w with east := true }
def Walls.addWest (w : Walls) : Walls := { w with west := true }

/-- common.py TrapdoorState. -/
inductive TrapdoorState where
  | NONE
  | HIDDEN
  | OPEN
deriving DecidableEq, Repr

/-! piece.py -/

inductive PieceKind where
  | pawn
  | knight
  | bishop
  | rook
  | queen
  | king
deriving DecidableEq, Repr

structure Piece where
  kind : PieceKind
  owner : Player
deriving DecidableEq, Repr

/-- Piece.canonical: algebraic letter, uppercase for White. -/
def Piece.canonical (p : Piece) : String :=
  match p.kind, p.owner with
  | .pawn, .WHITE => "P"
  | .pawn, .BLACK => "p"
  | .knight, .WHITE => "N"
  | .knight, .BLACK => "n"
  | .bishop, .WHITE => "B"
  | .bishop, .BLACK => "b"
  | .rook, .WHITE => "R"
  | .rook, .BLACK => "r"
  | .queen, .WHITE => "Q"
  | .queen, .BLACK => "q"
  | .king, .WHITE => "K"
  | .king, .BLACK => "k"

/-- Piece.from_str: letter to piece, case selects the owner. -/
def Piece.from_str (c : Char) : Option Piece :=
  let player : Player := if c.isUpper then .WHITE else .BLACK
  if c = 'p' ∨ c = 'P' then some ⟨.pawn, player⟩
  else if c = 'n' ∨ c = 'N' then some ⟨.knight, player⟩
  else if c = 'b' ∨ c = 'B' then some ⟨.bishop, player⟩
  else if c = 'r' ∨ c = 'R' then some ⟨.rook, player⟩
  else if c = 'q' ∨ c = 'Q' then some ⟨.queen, player⟩
  else if c = 'k' ∨ c = 'K' then some ⟨.king, player⟩
  else none

/-- Knight.offsets, in source order. -/
def knightOffsets : List Position :=
  [P 2 1, P 2 (-1), P (-2) 1, P (-2) (-1), P 1 2, P 1 (-2), P (-1) 2, P (-1) (-2)]

/-! board.py: BoardNode, BoardState, Board -/

/-- board.py BoardNode: piece, mine flag, trapdoor state, wall flags. -/
structure BoardNode where
  contents : Option Piece
  mined : Bool
  trapdoor : TrapdoorState
  walls : Walls
deriving DecidableEq, Repr

/-- Default BoardNode value used where the source guards every access
with on_board and would otherwise raise IndexError. -/
def junkNode : BoardNode := ⟨none, false, .NONE, .none0⟩

/-- BoardNode.canonical: tile character prefixed by wall modifiers. -/
def BoardNode.canonical (n : BoardNode) : String :=
  let base :=
    match n.contents with
    | some p => p.canonical
    | none =>
      if n.mined then
        (if n.trapdoor = .HIDDEN then "X"
         else if n.trapdoor = .NONE then "M"
         else "")
      else if n.trapdoor = .HIDDEN then "D"
      else if n.trapdoor = .OPEN then "O"
      else "."
  let base := if n.walls.south then "_" ++ base else base
  if n.walls.west then "|" ++ base else base

/-- BoardNode.from_str on the tile character (walls handled separately). -/
def BoardNode.from_str (c : Char) : Option BoardNode :=
  if c = '.' then some ⟨none, false, .NONE, .none0⟩
  else if c = 'D' then some ⟨none, false, .HIDDEN, .none0⟩
  else if c = 'O' then some ⟨none, false, .OPEN, .none0⟩
  else if c = 'M' then some ⟨none, true, .NONE, .none0⟩
  else if c = 'X' then some ⟨none, true, .HIDDEN, .none0⟩
  else
    match Piece.from_str c with
    | some p => some ⟨some p, false, .NONE, .none0⟩
    | none => none

/-- board.py BoardState: player, wall reserves, castling rights,
en-passant target, halfmove clock. -/
structure BoardState where
  player : Player
  whiteWalls : Int
  blackWalls : Int
  whiteKingCastle : Bool
  whiteQueenCastle : Bool
  blackKingCastle : Bool
  blackQueenCastle : Bool
  enpassant : Option Position
  clock : Int
deriving DecidableEq, Repr

def BoardState.wallsOf (s : BoardState) : Player → Int
  | .WHITE => s.whiteWalls
  | .BLACK => s.blackWalls

def BoardState.kingCastle (s : BoardState) : Player → Bool
  | .WHITE => s.whiteKingCastle
  | .BLACK => s.blackKingCastle

def BoardState.queenCastle (s : BoardState) : Player → Bool
  | .WHITE => s.whiteQueenCastle
  | .BLACK => s.blackQueenCastle

/-- Clear both castling rights of one player (king moved). -/
def BoardState.clearCastling (s : BoardState) : Player → BoardState
  | .WHITE => { s with whiteKingCastle := false, whiteQueenCastle := false }
  | .BLACK => { s with blackKingCastle := false, blackQueenCastle := false }

def BoardState.clearQueenCastle (s : BoardState) : Player → BoardState
  | .WHITE => { s with whiteQueenCastle := false }
  | .BLACK => { s with blackQueenCastle := false }

def BoardState.clearKingCastle (s : BoardState) : Player → BoardState
  | .WHITE => { s with whiteKingCastle := false }
  | .BLACK => { s with blackKingCastle := false }

/-- BoardState.canonical: the status line. -/
def BoardState.canonical (s : BoardState) : String :=
  String.intercalate " "
    [ s.player.canonical,
      intToStr s.whiteWalls,
      intToStr s.blackWalls,
      (if s.whiteKingCastle then "+" else "-"),
      (if s.whiteQueenCastle then "+" else "-"),
      (if s.blackKingCastle then "+" else "-"),
      (if s.blackQueenCastle then "+" else "-"),
      (match s.enpassant with | some p => p.canonical | none => "-"),
      intToStr s.clock ]

/-- BoardState.standard_state(). -/
def BoardState.standard_state : BoardState :=
  ⟨.WHITE, 3, 3, true, true, true, true, none, 0⟩

/-- Obstacle placement counters (board.initial_moves dict).  The
source stores a dict shared by reference between a board and its
copies; sharing effects are made explicit in apply_move below. -/
structure InitialMoves where
  total : Int
  whiteMines : Int
  whiteTrapdoors : Int
  blackMines : Int
  blackTrapdoors : Int
deriving DecidableEq, Repr

def InitialMoves.mines (im : InitialMoves) : Player → Int
  | .WHITE => im.whiteMines
  | .BLACK => im.blackMines

def InitialMoves.trapdoors (im : InitialMoves) : Player → Int
  | .WHITE => im.whiteTrapdoors
  | .BLACK => im.blackTrapdoors

def InitialMoves.decMine (im : InitialMoves) : Player → InitialMoves
  | .WHITE => { im with whiteMines := im.whiteMines - 1 }
  | .BLACK => { im with blackMines := im.blackMines - 1 }

def InitialMoves.decTrapdoor (im : InitialMoves) : Player → InitialMoves
  | .WHITE => { im with whiteTrapdoors := im.whiteTrapdoors - 1 }
  | .BLACK => { im with blackTrapdoors := im.blackTrapdoors - 1 }

/-- initial_moves dict as built by from_strs (_init is a Python bool
used as the int 1 or 0). -/
def InitialMoves.fromInit (init : Bool) : InitialMoves :=
  let v : Int := if init then 1 else 0
  ⟨4, v, v, v, v⟩

/-- The zeroed dict installed by validate_move once normal play starts. -/
def InitialMoves.zero : InitialMoves := ⟨0, 0, 0, 0, 0⟩

/-- board.py Board.  nodes is indexed nodes[y][x]
(self.nodes[pos.file][pos.rank] in the source, where file = y and
rank = x). -/
structure Board where
  nodes : List (List BoardNode)
  state : BoardState
  initial_moves : InitialMoves
  turn : Int
  mine_detonated : Bool
deriving DecidableEq, Repr

/-- Board.on_board. -/
def Board.on_board (p : Position) : Bool :=
  decide (0 ≤ p.x) && decide (p.x < 8) && decide (0 ≤ p.y) && decide (p.y < 8)

/-- Total read of the node at a position.  Every movement-logic access
in the source is guarded by Board.on_board; where the position is out
of range (Python would raise IndexError) this returns the inert
junkNode. -/
def Board.nodeAt (b : Board) (p : Position) : BoardNode :=
  match pyGet b.nodes p.y with
  | .ok row =>
    match pyGet row p.x with
    | .ok n => n
    | .error _ => junkNode
  | .error _ => junkNode

/-- Total write of the node at a position (no-op when out of range;
guarded by on_board at every call site in the source). -/
def Board.setNode (b : Board) (p : Position) (f : BoardNode → BoardNode) : Board :=
  match pyIndex b.nodes.length p.y with
  | some yk =>
    let row := b.nodes.getD yk []
    match pyIndex row.length p.x with
    | some xk => { b with nodes := b.nodes.set yk (row.set xk (f (row.getD xk junkNode))) }
    | none => b
  | none => b

def Board.setContents (b : Board) (p : Position) (c : Option Piece) : Board :=
  b.setNode p (fun n => { n with contents := c })

/-- Canonical row strings of the board (Board.canonical without the
trailing status line; Board.__eq__ compares exactly these). -/
def Board.canonicalRows (b : Board) : List String :=
  b.nodes.map (fun row => String.join (row.map BoardNode.canonical))

/-- Board.canonical split in lines (rows followed by the status line). -/
def Board.canonicalLines (b : Board) : List String :=
  b.canonicalRows ++ [b.state.canonical]

/-- Board.canonical as one string. -/
def Board.canonical (b : Board) : String :=
  String.intercalate "\n" b.canonicalLines

/-- Board.__eq__: compares only the board rows, not the status line. -/
def Board.beq (b1 b2 : Board) : Bool :=
  b1.canonicalRows = b2.canonicalRows

/-! normalise_walls: in-place pass over nodes[y][x] in row-major
order, using raw Python list indexing (negative wraps, overflow is an
IndexError). -/

/-- Add one wall flag to nodes[yi][xi] with Python index semantics. -/
def addFlag (b : Board) (yi xi : Int) (f : Walls → Walls) : Py Board := do
  let row ← pyGet b.nodes yi
  let node ← pyGet row xi
  let row2 ← pySet row xi { node with walls := f node.walls }
  let nodes2 ← pySet b.nodes yi row2
  pure { b with nodes := nodes2 }

/-- Read the wall flags of nodes[y][x] (fresh read; the source reads
the mutable attribute of the aliased node object at each clause). -/
def readWalls (b : Board) (y x : Nat) : Py Walls := do
  let row ← pyGet b.nodes (y : Int)
  let node ← pyGet row (x : Int)
  pure node.walls

/-- One iteration of the normalise_walls loop at cell (y, x): the four
clauses, each mirroring a flag onto the adjacent node. -/
def normStep (b : Board) (y x : Nat) : Py Board :=
  readWalls b y x >>= fun w1 =>
  (if w1.west then addFlag b (y : Int) ((x : Int) - 1) Walls.addEast else pure b) >>= fun b1 =>
  readWalls b1 y x >>= fun w2 =>
  (if w2.south then addFlag b1 ((y : Int) - 1) (x : Int) Walls.addNorth else pure b1) >>= fun b2 =>
  readWalls b2 y x >>= fun w3 =>
  (if w3.north then addFlag b2 ((y : Int) + 1) (x : Int) Walls.addSouth else pure b2) >>= fun b3 =>
  readWalls b3 y x >>= fun w4 =>
  (if w4.east then addFlag b3 (y : Int) ((x : Int) + 1) Walls.addWest else pure b3)

/-- The last two clauses (north and east) of one normalise_walls
iteration, split off so the pass can be evaluated in two stages. -/
def normStep34 (b : Board) (y x : Nat) : Py Board :=
  readWalls b y x >>= fun w3 =>
  (if w3.north then addFlag b ((y : Int) + 1) (x : Int) Walls.addSouth else pure b) >>= fun b3 =>
  readWalls b3 y x >>= fun w4 =>
  (if w4.east then addFlag b3 (y : Int) ((x : Int) + 1) Walls.addWest else pure b3)

def normaliseGo (b : Board) : List (Nat × Nat) → Py Board
  | [] => pure b
  | (y, x) :: rest => do
    let b2 ← normStep b y x
    normaliseGo b2 rest

/-- The enumerate(self.nodes) / enumerate(row) index pairs, fixed at
entry (the lists are never structurally modified during the pass). -/
def cellsOf (b : Board) : List (Nat × Nat) :=
  (List.range b.nodes.length).flatMap
    (fun y => (List.range ((b.nodes.getD y []).length)).map (fun x => (y, x)))

/-- Board.normalise_walls. -/
def Board.normalise_walls (b : Board) : Py Board :=
  normaliseGo b (cellsOf b)

/-- Board construction (__init__ runs normalise_walls). -/
def initBoard (nodes : List (List BoardNode)) (state : BoardState)
    (im : InitialMoves) (turn : Int) : Py Board :=
  Board.normalise_walls ⟨nodes, state, im, turn, false⟩

/-- Board.copy: deep-copies nodes and state but passes initial_moves
by reference (the aliasing is applied explicitly in apply_move);
constructing the copy re-runs normalise_walls and resets
mine_detonated. -/
def Board.copy (b : Board) : Py Board :=
  initBoard b.nodes b.state b.initial_moves b.turn

/-! move.py: the Move class hierarchy as a tagged type.

SemiPromotion is imported by board.py from move.py but its definition
is absent from src/.  Modelled from the spec (section 4.4, pawn
generation and the promotion flow) and its call sites: a Move subclass
marking a pawn move that may promote, constructed with
(player, origin, destination) and applied by apply_move like an
ordinary Move (it is not a Promotion: Promotion instances require a
fourth constructor argument the call sites do not pass). -/

inductive MoveKind where
  | move
  | semiPromotion
  | nullMove
  | placeWall
  | placeMine
  | placeTrapdoor
  | promotion (target : PieceKind)
  | kingCastle
  | queenCastle
deriving DecidableEq, Repr

/-- move.py Move (and subclasses): player, origin, destination plus
the class tag.  PlaceWall carries no wall attribute: no code path
assigns one, so reading move.wall raises AttributeError. -/
structure Move where
  kind : MoveKind
  player : Player
  origin : Position
  destination : Position
deriving DecidableEq, Repr

/-- Move.__eq__: kind-blind, compares player, origin and destination
only. -/
def Move.eq (a b : Move) : Bool :=
  a.player = b.player && a.origin = b.origin && a.destination = b.destination

def mkMove (p : Player) (o d : Position) : Move := ⟨.move, p, o, d⟩
def mkSemiPromotion (p : Player) (o d : Position) : Move := ⟨.semiPromotion, p, o, d⟩
def mkPlaceMine (p : Player) (o : Position) : Move := ⟨.placeMine, p, o, o⟩
def mkPlaceTrapdoor (p : Player) (o : Position) : Move := ⟨.placeTrapdoor, p, o, o⟩
def mkPlaceWall (p : Player) (o d : Position) : Move := ⟨.placeWall, p, o, d⟩
def mkNullMove : Move := ⟨.nullMove, .WHITE, P 0 0, P 0 0⟩
def mkPromotion (p : Player) (o d : Position) (t : PieceKind) : Move := ⟨.promotion t, p, o, d⟩

/-- Castle.__init__: the king origin fixed per player. -/
def castleOrigin : Player → Position
  | .WHITE => P 4 7
  | .BLACK => P 4 0

/-- int(3.6 - 3.5 * player.value): 7 for White, 0 for Black. -/
def castleRank : Player → Int
  | .WHITE => 7
  | .BLACK => 0

def mkKingCastle (p : Player) : Move := ⟨.kingCastle, p, castleOrigin p, ⟨6, castleRank p⟩⟩
def mkQueenCastle (p : Player) : Move := ⟨.queenCastle, p, castleOrigin p, ⟨2, castleRank p⟩⟩

/-- KingCastle.rook_move / QueenCastle.rook_move (note the source
sends the queen-side rook to file 2, the same square as the king). -/
def rookMove (m : Move) : Move :=
  match m.kind with
  | .kingCastle => mkMove m.player ⟨7, m.origin.y⟩ ⟨5, m.origin.y⟩
  | _ => mkMove m.player ⟨0, m.origin.y⟩ ⟨2, m.origin.y⟩

/-- Wall.get_wall_direction restricted to what PlaceWall.canonical
needs: the flag on the origin blocking motion toward the destination
(SOUTH for y2 > y1, NORTH for y2 < y1, EAST/WEST for x motion). -/
inductive WallDir where
  | north
  | south
  | east
  | west
  | nonOrtho
deriving DecidableEq, Repr

def get_wall_direction (o d : Position) : WallDir :=
  if o.x ≠ d.x then (if d.x > o.x then .east else .west)
  else if o.y ≠ d.y then (if d.y > o.y then .south else .north)
  else .nonOrtho

/-- Move.canonical per class; PlaceWall.canonical raises ValueError
unless the origin-destination pair is a south or west edge. -/
def Move.canonical (m : Move) : Py String :=
  match m.kind with
  | .move => .ok (m.origin.canonical ++ "-" ++ m.destination.canonical)
  | .semiPromotion => .ok (m.origin.canonical ++ "-" ++ m.destination.canonical)
  | .nullMove => .ok "..."
  | .placeMine => .ok ("M" ++ m.origin.canonical)
  | .placeTrapdoor => .ok ("D" ++ m.origin.canonical)
  | .kingCastle => .ok "0-0"
  | .queenCastle => .ok "0-0-0"
  | .promotion t => .ok (m.origin.canonical ++ "-" ++ m.destination.canonical ++ "=" ++ (Piece.canonical ⟨t, m.player⟩))
  | .placeWall =>
    match get_wall_direction m.origin m.destination with
    | .south => .ok ("_" ++ m.origin.canonical)
    | .west => .ok ("|" ++ m.origin.canonical)
    | _ => .error .valueError

def illegalMoveMsg (s : String) : String := "illegal move " ++ s
def illegalBoardMsg (s : String) : String := "illegal board at " ++ s
def illegalStatusMsg : String := "illegal board at status line"

/-! Geometry: get_line, get_run, get_neighbours, wall_blocked. -/

/-- Board.get_line: positions from the origin (inclusive) along a
direction while on the board.  The fuel bounds the while loop; 100
covers every terminating run (a nonzero direction leaves the board
within 8 steps; the source diverges for a zero direction, which no
call site passes). -/
def get_lineGo (fuel : Nat) (pos dir : Position) : List Position :=
  match fuel with
  | 0 => []
  | fuel + 1 =>
    if Board.on_board pos then pos :: get_lineGo fuel (pos + dir) dir else []

def Board.get_line (_b : Board) (origin direction : Position) : List Position :=
  get_lineGo 100 origin direction

/-- Board.wall_blocked. -/
def Board.wall_blocked (b : Board) (position direction : Position) : Bool :=
  let from_node := b.nodeAt position
  let to_pos := position + direction
  if !Board.on_board to_pos then true
  else if direction.y = 0 then
    (direction.x > 0 && from_node.walls.east) || (direction.x < 0 && from_node.walls.west)
  else if direction.x = 0 then
    (direction.y > 0 && from_node.walls.north) || (direction.y < 0 && from_node.walls.south)
  else
    -- diagonal movement: the two corner configurations
    let hori_alt : Position := ⟨to_pos.x, position.y⟩
    let vert_alt : Position := ⟨position.x, to_pos.y⟩
    -- motion = (horizontal wall, vertical wall) of the step
    let motionH : Walls → Bool := if direction.y < 0 then Walls.south else Walls.north
    let motionV : Walls → Bool := if direction.x > 0 then Walls.east else Walls.west
    let invH : Walls → Bool := if direction.y < 0 then Walls.north else Walls.south
    let invV : Walls → Bool := if direction.x > 0 then Walls.west else Walls.east
    let to_node := b.nodeAt to_pos
    (motionH from_node.walls && motionV from_node.walls) ||
    (motionH from_node.walls && motionH (b.nodeAt hori_alt).walls) ||
    (motionV from_node.walls && motionV (b.nodeAt vert_alt).walls) ||
    (invH to_node.walls && invV to_node.walls)

/-- Board.get_run: prefix of a position list up to and including the
first position whose outgoing edge (in the list direction) is
wall-blocked. -/
def get_runGo (b : Board) (delta : Position) : List Position → List Position
  | [] => []
  | pos :: rest =>
    if b.wall_blocked pos delta then [pos] else pos :: get_runGo b delta rest

def Board.get_run (b : Board) (positions : List Position) : List Position :=
  if positions.length < 2 then positions
  else
    match positions with
    | p0 :: p1 :: _ => get_runGo b ((p1 - p0).norm) positions
    | _ => positions

/-- Board.get_neighbours, in source order, board-clipped. -/
def Board.get_neighbours (_b : Board) (p : Position) : List Position :=
  ([ ⟨p.x + 1, p.y⟩, ⟨p.x - 1, p.y⟩, ⟨p.x, p.y + 1⟩, ⟨p.x, p.y - 1⟩,
     ⟨p.x + 1, p.y + 1⟩, ⟨p.x - 1, p.y - 1⟩, ⟨p.x + 1, p.y - 1⟩,
     ⟨p.x - 1, p.y + 1⟩ ] : List Position).filter Board.on_board

/-! Attack detection. -/

/-- The inner _get_attacker of being_attacked_at: first occupied
position beyond the head of the run; an attacker only if it is an
enemy piece of one of the expected kinds. -/
def get_attacker (b : Board) (attacking_player : Player) (kinds : List PieceKind) :
    List Position → List Position
  | [] => []
  | pos :: rest =>
    match (b.nodeAt pos).contents with
    | none => get_attacker b attacking_player kinds rest
    | some opp =>
      if opp.owner = attacking_player ∧ kinds.contains opp.kind then [pos] else []

/-- Board.being_attacked_at: all positions of attacking_player pieces
attacking the given position (kings and pawns from neighbouring tiles,
sliders along wall-truncated runs, knights by jump table). -/
def Board.being_attacked_at (b : Board) (position : Position) (attacking_player : Player) :
    List Position :=
  let neighbourAttackers :=
    (b.get_neighbours position).flatMap (fun neighbour =>
      match (b.nodeAt neighbour).contents with
      | none => []
      | some target =>
        (if target.kind = .king ∧ target.owner = attacking_player then [neighbour] else []) ++
        (if target.kind = .pawn ∧ target.owner = attacking_player then
          (let delta := neighbour - position
           if target.owner.value * delta.y = -1 ∧ (delta.x = 1 ∨ delta.x = -1)
           then [neighbour] else [])
         else []))
  let straightDirs : List Position := [P 1 0, P (-1) 0, P 0 1, P 0 (-1)]
  let straightAttackers :=
    straightDirs.flatMap (fun d =>
      get_attacker b attacking_player [.queen, .rook]
        ((b.get_run (b.get_line position d)).drop 1))
  let diagDirs : List Position := [P 1 1, P (-1) (-1), P 1 (-1), P (-1) 1]
  let diagAttackers :=
    diagDirs.flatMap (fun d =>
      get_attacker b attacking_player [.queen, .bishop]
        ((b.get_run (b.get_line position d)).drop 1))
  let knightAttackers :=
    (knightOffsets.map (fun off => position + off)).filter Board.on_board |>.filter
      (fun bend =>
        match (b.nodeAt bend).contents with
        | some t => t.kind = .knight && t.owner = attacking_player
        | none => false)
  neighbourAttackers ++ straightAttackers ++ diagAttackers ++ knightAttackers

/-- Board.get_kings_pos for one player: position of the last King of
that owner in scan order (iterating rows then columns, as the dict
write in the source keeps the last one per owner). -/
def Board.king_pos (b : Board) (pl : Player) : Option Position :=
  b.nodes.enum.foldl
    (fun acc (rowPair : Nat × List BoardNode) =>
      rowPair.2.enum.foldl
        (fun acc2 (nodePair : Nat × BoardNode) =>
          match nodePair.2.contents with
          | some piece =>
            if piece.kind = .king ∧ piece.owner = pl
            then some ⟨(nodePair.1 : Int), (rowPair.1 : Int)⟩
            else acc2
          | none => acc2)
        acc)
    none

/-- Board.in_check(player): the player has a king on the board and it
is attacked by the opponent. -/
def Board.in_check (b : Board) (player : Player) : Bool :=
  match b.king_pos player with
  | some kp => !(b.being_attacked_at kp player.opponent).isEmpty
  | none => false

/-! State transition: detonate_mine, move_piece, _castle, apply_move. -/

/-- Board.detonate_mine: clear the mined tile and its mine flag, clear
every neighbour whose edge from the mine is not wall-blocked, reset
the halfmove clock. -/
def Board.detonate_mine (b : Board) (pos : Position) : Board :=
  let b := b.setNode pos (fun n => { n with contents := none, mined := false })
  let b :=
    (b.get_neighbours pos).foldl
      (fun acc neighbour =>
        if !acc.wall_blocked pos ((neighbour - pos).norm)
        then acc.setContents neighbour none
        else acc)
      b
  { b with state := { b.state with clock := 0 } }

/-! Board.move_piece, split into its source paragraphs (capture
clock reset; pawn / king / rook bookkeeping; relocation; mine and
trapdoor hazards), applied in source order. -/

/-- move_piece capture branch: a nonempty destination resets the
halfmove clock. -/
def Board.mpCapture (b : Board) (m : Move) : Board :=
  if (b.nodeAt m.destination).contents ≠ none
  then { b with state := { b.state with clock := 0 } }
  else b

/-- move_piece bookkeeping on the moving piece: pawn clock reset and
en-passant handling, castling-right clearing for king and rook
moves. -/
def Board.mpBookkeeping (b : Board) (m : Move) : Board :=
  let origin := m.origin
  let dest := m.destination
  match (b.nodeAt origin).contents with
  | some pc =>
    if pc.kind = PieceKind.pawn then
      let b2 : Board := { b with state := { b.state with clock := 0 } }
      if (origin.y - dest.y = 2 ∨ origin.y - dest.y = -2) then
        { b2 with state := { b2.state with
            enpassant := some ⟨origin.x, Int.fdiv (origin.y + dest.y) 2⟩ } }
      else
        match b2.state.enpassant with
        | some ep =>
          if dest = ep then
            -- en-passant capture: clear the pawn behind the destination
            b2.setContents ⟨dest.x, origin.y⟩ none
          else { b2 with state := { b2.state with enpassant := none } }
        | none => { b2 with state := { b2.state with enpassant := none } }
    else
      let b2 : Board := { b with state := { b.state with enpassant := none } }
      if pc.kind = PieceKind.king then
        { b2 with state := b2.state.clearCastling pc.owner }
      else if pc.kind = PieceKind.rook then
        (if origin.x = 0 then { b2 with state := b2.state.clearQueenCastle pc.owner }
         else if origin.x = 7 then { b2 with state := b2.state.clearKingCastle pc.owner }
         else b2)
      else b2
  | none => { b with state := { b.state with enpassant := none } }

/-- move_piece relocation: destination receives the origin piece, the
origin is cleared. -/
def Board.mpRelocate (b : Board) (m : Move) : Board :=
  (b.setContents m.destination (b.nodeAt m.origin).contents).setContents m.origin none

/-- move_piece mine hazard: a mine under the destination resets the
clock, detonates and marks the board. -/
def Board.mpMine (b : Board) (m : Move) : Board :=
  if (b.nodeAt m.destination).mined then
    { (({ b with state := { b.state with clock := 0 } }).detonate_mine m.destination) with
        mine_detonated := true }
  else b

/-- move_piece trapdoor hazard: a trapdoor under the destination
resets the clock, opens if hidden, and swallows the piece (dest_node
is an alias in the source, so the check reads the current node
state). -/
def Board.mpTrapdoor (b : Board) (m : Move) : Board :=
  if (b.nodeAt m.destination).trapdoor ≠ TrapdoorState.NONE then
    (if (b.nodeAt m.destination).trapdoor = TrapdoorState.HIDDEN
     then ({ b with state := { b.state with clock := 0 } }).setNode m.destination
            (fun n => { n with trapdoor := .OPEN })
     else { b with state := { b.state with clock := 0 } }).setContents m.destination none
  else b

/-- move_piece hazards: mine detonation then trapdoor opening. -/
def Board.mpHazards (b : Board) (m : Move) : Board :=
  (b.mpMine m).mpTrapdoor m

/-- Board.move_piece. -/
def Board.move_piece (b : Board) (m : Move) : Board :=
  (((b.mpCapture m).mpBookkeeping m).mpRelocate m).mpHazards m

/-- Board._castle: relocate king and rook without validation. -/
def Board.castleApply (b : Board) (m : Move) : Board :=
  let rm := rookMove m
  let king_piece := (b.nodeAt m.origin).contents
  let b := b.setContents m.origin none
  let rook_piece := (b.nodeAt rm.origin).contents
  let b := b.setContents rm.origin none
  let b := b.setContents m.destination king_piece
  b.setContents rm.destination rook_piece

/-- Outcome of Board.apply_move.  The source wraps the new board in
Success and never returns Failure; crash is a raised exception.  The
selfAfter component is the input board after the call: copy() shares
the initial_moves dict with the clone, so decrements of the clone
counters write through to the input board. -/
inductive AOut where
  | aok (new_board selfAfter : Board)
  | acrash (e : PyErr) (selfAfter : Board)
deriving DecidableEq, Repr

/-- The common epilogue of apply_move: alternate the player and
increment the move counter. -/
def Board.flipAndCount (nb : Board) : Board :=
  let nb2 := { nb with state := { nb.state with player := nb.state.player.opponent } }
  { nb2 with turn := nb2.turn + 1 }

/-- Board.apply_move.  The selfAfter component reflects that the
initial_moves dict is shared between the input and the clone: after
the call the input board sees the (possibly decremented) dict of the
new board. -/
def Board.apply_move (b : Board) (m : Move) : AOut :=
  match b.copy with
  | .error e => .acrash e b
  | .ok nb0 =>
    let nb := { nb0 with state := { nb0.state with clock := nb0.state.clock + 1 } }
    match m.kind with
    | .placeWall =>
      -- new_board.state.walls[move.player] -= 1 happens first, then
      -- reading move.wall raises AttributeError: PlaceWall instances
      -- carry no wall attribute.
      .acrash .attributeError b
    | _ =>
      let nb :=
        match m.kind with
        | .placeMine =>
          let nb := nb.setNode m.origin (fun n => { n with mined := true })
          let nb := { nb with state := { nb.state with clock := 0 } }
          let im := { (nb.initial_moves.decMine m.player) with
                        total := nb.initial_moves.total - 1 }
          { nb with initial_moves := im }
        | .placeTrapdoor =>
          let nb := nb.setNode m.origin (fun n => { n with trapdoor := .HIDDEN })
          let nb := { nb with state := { nb.state with clock := 0 } }
          let im := { (nb.initial_moves.decTrapdoor m.player) with
                        total := nb.initial_moves.total - 1 }
          { nb with initial_moves := im }
        | .nullMove =>
          { nb with initial_moves :=
              { nb.initial_moves with total := nb.initial_moves.total - 1 } }
        | .kingCastle => nb.castleApply m
        | .queenCastle => nb.castleApply m
        | .promotion target =>
          (nb.move_piece m).setContents m.destination (some ⟨target, m.player⟩)
        | _ => nb.move_piece m
      let fin := nb.flipAndCount
      .aok fin { b with initial_moves := fin.initial_moves }

/-! Move generation: Board.get_moves. -/

/-- helper get_potentials of get_moves: walk each full line, stopping
at walls, own pieces (excluded) and enemy pieces (included). -/
def potentialsPairs (b : Board) (player : Player) : List Position → List Position
  | posA :: posB :: rest =>
    if !b.wall_blocked posA (posB - posA) then
      match (b.nodeAt posB).contents with
      | some target =>
        if target.owner = player then [] else [posB]
      | none => posB :: potentialsPairs b player (posB :: rest)
    else []
  | _ => []

def get_potentials (b : Board) (player : Player) (pos : Position)
    (directions : List Position) : List Position :=
  directions.flatMap (fun d => potentialsPairs b player (b.get_line pos d))

/-- int(3.6 + 2.5 * player.value): the rank from which a forward pawn
move promotes (1 for White, 6 for Black). -/
def promoRank : Player → Int
  | .WHITE => 1
  | .BLACK => 6

/-- int(3.6 - 2.5 * player.value): the pawn double-step start rank. -/
def pawnStartRank : Player → Int
  | .WHITE => 6
  | .BLACK => 1

/-- Pawn candidate moves. -/
def pawnCandidates (b : Board) (player : Player) (position : Position) : List Move :=
  let movetype : Player → Position → Position → Move :=
    if position.y = promoRank player then mkSemiPromotion else mkMove
  let front := position + P 0 player.value
  let forward :=
    if Board.on_board front ∧ (b.nodeAt front).contents = none ∧
        !b.wall_blocked position (front - position) then
      let dfront := position + P 0 (player.value * 2)
      [movetype player position front] ++
      (if Board.on_board dfront ∧ (b.nodeAt dfront).contents = none ∧
          position.y = pawnStartRank player ∧ !b.wall_blocked front (dfront - front)
       then [mkMove player position dfront] else [])
    else []
  let diag :=
    ([P (-1) 0, P 1 0]).flatMap (fun x_off =>
      let target := front + x_off
      if Board.on_board target ∧ !b.wall_blocked position (target - position) then
        match (b.nodeAt target).contents with
        | some opp => if opp.owner ≠ player then [movetype player position target] else []
        | none => []
      else [])
  let ep :=
    match b.state.enpassant with
    | some epTarget =>
      if epTarget.y = front.y then
        ([P (-1) 0, P 1 0]).flatMap (fun x_off =>
          let target := front + x_off
          if Board.on_board target ∧ target = epTarget ∧
              ((b.nodeAt target).contents = none ∨
               (b.nodeAt target).contents.all (fun opp => opp.owner ≠ player))
          then [mkMove player position target] else [])
      else []
    | none => []
  forward ++ diag ++ ep

/-- King-branch pre-filter: pop (only) the first candidate whose
destination is attacked, evaluated with the king lifted off the
board (enumerate / pop(i) / break in the source). -/
def popFirstAttacked (popped : Board) (opponent : Player) : List Move → List Move
  | [] => []
  | m :: rest =>
    if !(popped.being_attacked_at m.destination opponent).isEmpty
    then rest
    else m :: popFirstAttacked popped opponent rest

/-- Castling path condition: all path squares that pass the generator
filter (on the board, not wall-blocked from the king square, not
attacked) must be empty.  Squares failing the filter are skipped, not
rejected. -/
def castlePathOk (b : Board) (player : Player) (position : Position)
    (path : List Position) : Bool :=
  path.all (fun pos =>
    if Board.on_board pos ∧ !b.wall_blocked position (pos - position) ∧
        (b.being_attacked_at pos player.opponent).isEmpty
    then (b.nodeAt pos).contents = none
    else true)

/-- King candidate moves including castling. -/
def kingCandidates (b : Board) (player : Player) (position : Position) : List Move :=
  let base :=
    (b.get_neighbours position).flatMap (fun neighbour =>
      let targetOk : Bool :=
        match (b.nodeAt neighbour).contents with
        | some target => target.owner ≠ player
        | none => true
      if targetOk && !b.wall_blocked position (neighbour - position)
      then [mkMove player position neighbour] else [])
  let popped := b.setContents position none
  let base := popFirstAttacked popped player.opponent base
  let withKingSide :=
    if b.state.kingCastle player ∧
        castlePathOk b player position [position + P 1 0, position + P 2 0]
    then base ++ [mkKingCastle player] else base
  if b.state.queenCastle player ∧
      castlePathOk b player position
        [position + P (-1) 0, position + P (-2) 0, position + P (-3) 0]
  then withKingSide ++ [mkQueenCastle player] else withKingSide

/-- All candidate moves before the simulate-and-filter step. -/
def genCandidates (b : Board) (position : Position) : List Move :=
  match (b.nodeAt position).contents with
  | none => []
  | some actor =>
    let player := actor.owner
    match actor.kind with
    | .pawn => pawnCandidates b player position
    | .knight =>
      knightOffsets.flatMap (fun offset =>
        let pot_pos := position + offset
        if Board.on_board pot_pos then
          match (b.nodeAt pot_pos).contents with
          | some opp => if opp.owner ≠ player then [mkMove player position pot_pos] else []
          | none => [mkMove player position pot_pos]
        else [])
    | .bishop =>
      (get_potentials b player position
        [P (-1) (-1), P (-1) 1, P 1 (-1), P 1 1]).map (mkMove player position)
    | .rook =>
      (get_potentials b player position
        [P (-1) 0, P 0 (-1), P 0 1, P 1 0]).map (mkMove player position)
    | .queen =>
      (get_potentials b player position
        [P (-1) (-1), P (-1) 0, P (-1) 1, P 0 (-1), P 0 1, P 1 (-1), P 1 0, P 1 1]).map
        (mkMove player position)
    | .king => kingCandidates b player position

/-- list.remove with Move.__eq__: drop the first equal element.  The
source raises ValueError when no element matches; at the call site an
equal element is always present (see the c3 development), so the
absent case (returning the list unchanged) is unreachable. -/
def removeFirstEq (l : List Move) (m : Move) : List Move :=
  match l with
  | [] => []
  | a :: rest => if Move.eq m a then rest else a :: removeFirstEq rest m

/-- The simulate-and-filter loop of get_moves: provisionally apply
each candidate of the snapshot and remove it from the result when the
mover would be left in check.  apply_move never returns Failure (the
removal branch for a Failure result is dead code); an exception from
apply_move propagates. -/
def simulateGo (b : Board) (player : Player) : List Move → List Move → Py (List Move)
  | [], acc => pure acc
  | m :: rest, acc =>
    match b.apply_move m with
    | .acrash e _ => .error e
    | .aok dummy _ =>
      if dummy.in_check player
      then simulateGo b player rest (removeFirstEq acc m)
      else simulateGo b player rest acc

/-- Board.get_moves (strict = False as at every call site relevant to
the claims). -/
def Board.get_moves (b : Board) (position : Position) : Py (List Move) :=
  match (b.nodeAt position).contents with
  | none => pure []
  | some actor =>
    let potentials := genCandidates b position
    simulateGo b actor.owner potentials potentials

/-- A candidate is safe when every successful provisional application
leaves the mover out of check (the property the simulate-and-filter
step of get_moves is meant to establish). -/
def simSafe (b : Board) (player : Player) (m : Move) : Prop :=
  ∀ dummy sa, b.apply_move m = AOut.aok dummy sa → dummy.in_check player = false

/-! Validation: Board.validate_move. -/

/-- Outcome of Board.validate_move.  failureMove is the
Failure(move) branch (the payload is the move object, not a string);
crash is a raised exception.  The second component returned by
validate_move is the board after the call (the else branch overwrites
self.initial_moves before any further check). -/
inductive VResult where
  | success (m : Move)
  | failureMsg (s : String)
  | failureMove (m : Move)
  | crash (e : PyErr)
deriving DecidableEq, Repr

/-- Board.validate_move. -/
def Board.validate_move (b : Board) (m : Move) : VResult × Board :=
  let coordOk : Int → Bool := fun v => decide (0 ≤ v) && decide (v ≤ 7)
  if !(coordOk m.origin.x && coordOk m.origin.y &&
       coordOk m.destination.x && coordOk m.destination.y) then
    match m.canonical with
    | .ok s => (.failureMsg (illegalMoveMsg s), b)
    | .error e => (.crash e, b)
  else
    match m.kind with
    | .placeMine =>
      if b.initial_moves.mines m.player ≤ 0 then
        match m.canonical with
        | .ok s => (.failureMsg (illegalMoveMsg s), b)
        | .error e => (.crash e, b)
      else if !(m.origin.y = 3 ∨ m.origin.y = 4) then
        match m.canonical with
        | .ok s => (.failureMsg (illegalMoveMsg s), b)
        | .error e => (.crash e, b)
      else (.success m, b)
    | .placeTrapdoor =>
      if b.initial_moves.trapdoors m.player ≤ 0 then
        match m.canonical with
        | .ok s => (.failureMsg (illegalMoveMsg s), b)
        | .error e => (.crash e, b)
      else if !(m.origin.y = 2 ∨ m.origin.y = 3 ∨ m.origin.y = 4 ∨ m.origin.y = 5) then
        match m.canonical with
        | .ok s => (.failureMsg (illegalMoveMsg s), b)
        | .error e => (.crash e, b)
      else (.success m, b)
    | .nullMove =>
      if b.initial_moves.trapdoors m.player ≤ 0 ∧ b.initial_moves.mines m.player ≤ 0 then
        match m.canonical with
        | .ok s => (.failureMsg (illegalMoveMsg s), b)
        | .error e => (.crash e, b)
      else (.success m, b)
    | other =>
      if b.initial_moves.total.emod 2 ≠ 0 then
        match m.canonical with
        | .ok s => (.failureMsg (illegalMoveMsg s), b)
        | .error e => (.crash e, b)
      else
        -- the else branch zeroes self.initial_moves in place
        let b2 := { b with initial_moves := .zero }
        match other with
        | .placeWall =>
          -- back, front = Wall.coords_to_walls(...) is computed and
          -- discarded; reading move.wall then raises AttributeError.
          (.crash .attributeError, b2)
        | _ =>
          match b2.get_moves m.origin with
          | .error e => (.crash e, b2)
          | .ok moves =>
            if !(moves.any (fun cand => Move.eq m cand))
            then (.failureMove m, b2)
            else (.success m, b2)

/-! Board.stalemate. -/

/-- The scan cells of the stalemate loop as (position, node) pairs in
row-major order; the position handed to get_moves is P(x, y). -/
def scanCells (b : Board) : List (Position × BoardNode) :=
  b.nodes.enum.flatMap (fun rowPair =>
    rowPair.2.enum.map (fun nodePair =>
      (⟨(nodePair.1 : Int), (rowPair.1 : Int)⟩, nodePair.2)))

def stalemateGo (b : Board) : List (Position × BoardNode) → List Player → Py (Option Player)
  | [], players =>
    match players with
    | [] => .error .indexError  -- players[0] on an empty list; unreachable
    | p :: _ => pure (some p)
  | (pos, node) :: rest, players =>
    match node.contents with
    | none => stalemateGo b rest players
    | some piece =>
      if players.contains piece.owner then
        match b.get_moves pos with
        | .error e => .error e
        | .ok moves =>
          if moves.length > 0 then
            (if (players.erase piece.owner).isEmpty then pure none
             else stalemateGo b rest (players.erase piece.owner))
          else stalemateGo b rest players
      else stalemateGo b rest players

/-- Board.stalemate: the first player (White preferred) all of whose
pieces have empty move sets; None when both players have a move. -/
def Board.stalemate (b : Board) : Py (Option Player) :=
  stalemateGo b (scanCells b) [.WHITE, .BLACK]

/-! game.py: history and threefold repetition. -/

/-- Game state as far as the claims need it: the live board and the
history stack of (prior board, applied move) entries in push order. -/
structure Game where
  board : Board
  history : List (Board × Move)
deriving DecidableEq, Repr

def threefoldGo (current : Board) : List Board → Nat → Bool
  | [], _ => false
  | b :: rest, positions =>
    let positions2 := if current.beq b then positions + 1 else positions
    if 3 ≤ positions2 then true else threefoldGo current rest positions2

/-- Game.threefold_repetition: only checked when the history holds
more than 3 entries; counts the prior boards equal (by Board.__eq__,
status line ignored) to the current one and fires at 3 matches. -/
def Game.threefold_repetition (g : Game) : Bool :=
  if 3 < g.history.length then threefoldGo g.board (g.history.map Prod.fst) 0
  else false

/-! Parsing: BoardState.from_str and Board.from_strs. -/

/-- Result monad of common.py restricted to string payloads (the
Failure(move) case of validate_move is covered by VResult). -/
inductive Result (a : Type) where
  | success (v : a)
  | failure (reason : String)
deriving DecidableEq, Repr

def digit03 (c : Char) : Bool := c = '0' ∨ c = '1' ∨ c = '2' ∨ c = '3'
def plusMinus (c : Char) : Bool := c = '+' ∨ c = '-'

/-- Tail of the status regex: `(-|[a-g][1-8]) ([1-9]\d*|0)` (re.match:
prefix match, trailing characters unconstrained; the number group
matches greedily, so it only pins the first character to a digit). -/
def statusReTail : List Char → Bool
  | '-' :: ' ' :: n :: _ => n.isDigit
  | a :: r :: ' ' :: n :: _ =>
    ('a' ≤ a ∧ a ≤ 'g') ∧ ('1' ≤ r ∧ r ≤ '8') ∧ n.isDigit
  | _ => false

/-- The status-line regex of BoardState.from_str:
`(w|b) ([0-3] ){2}((\+|-) ){4}(-|[a-g][1-8]) ([1-9]\d*|0)`. -/
def statusReMatch : List Char → Bool
  | c0 :: ' ' :: d1 :: ' ' :: d2 :: ' ' :: p1 :: ' ' :: p2 :: ' ' :: p3 :: ' ' :: p4 :: ' ' :: rest =>
    (c0 = 'w' ∨ c0 = 'b') ∧ digit03 d1 ∧ digit03 d2 ∧
    plusMinus p1 ∧ plusMinus p2 ∧ plusMinus p3 ∧ plusMinus p4 ∧ statusReTail rest
  | _ => false

/-- BoardState.from_str. -/
def BoardState.from_str (s : String) : Py (Result BoardState) :=
  if !statusReMatch s.data then pure (.failure illegalStatusMsg)
  else do
    let blocks := splitWs s
    let b0 ← pyGet blocks 0
    let player : Player := if b0 = "w" then .WHITE else .BLACK
    let b1 ← pyGet blocks 1
    let b2 ← pyGet blocks 2
    let whiteWalls ← pyInt b1
    let blackWalls ← pyInt b2
    let c1 ← pyGet blocks 3
    let c2 ← pyGet blocks 4
    let c3 ← pyGet blocks 5
    let c4 ← pyGet blocks 6
    let epBlock ← pyGet blocks 7
    let enpassant : Option Position :=
      if epBlock = "-" then none else some (Position.from_str epBlock)
    let clockBlock ← pyGet blocks 8
    let clock ← pyInt clockBlock
    pure (.success
      ⟨player, whiteWalls, blackWalls,
       c1 = "+", c2 = "+", c3 = "+", c4 = "+", enpassant, clock⟩)

/-- Board._board_list_transform for one line: split into tokens of
(tile character, accumulated modifier prefix), with a trailing dummy
character absorbing trailing modifiers. -/
def rowTokensGo : List Char → List Char → List (Char × List Char)
  | [], _ => []
  | c :: rest, mods =>
    if c = '|' ∨ c = '_' then rowTokensGo rest (mods ++ [c])
    else (c, mods) :: rowTokensGo rest []

def rowTokens (line : String) : List (Char × List Char) :=
  rowTokensGo (line.data ++ ['#']) []

/-- Board._apply_node_modifiers: sets each flag before validating the
edge, failing on a west wall in column 0, a south wall in row 7, or an
unknown modifier. -/
def applyNodeModifiers (pos : Position) (node : BoardNode) : List Char → Option BoardNode
  | [] => some node
  | c :: rest =>
    if c = '|' then
      (if pos.x = 0 then none
       else applyNodeModifiers pos { node with walls := node.walls.addWest } rest)
    else if c = '_' then
      (if pos.y = 7 then none
       else applyNodeModifiers pos { node with walls := node.walls.addSouth } rest)
    else none

/-- The from_strs row loop over the tokens of one line. -/
def parseRowGo (y : Int) (rowLen : Int) :
    List (Char × List Char) → Int → List BoardNode → Result (List BoardNode)
  | [], _, acc => .success acc
  | (c, mods) :: rest, x, acc =>
    if c = '#' then
      (if x ≠ 8 then
        .failure (illegalBoardMsg (Position.canonical ⟨min x rowLen, y⟩))
      else if mods.length > 0 then
        .failure (illegalBoardMsg (Position.canonical ⟨7, y⟩))
      else parseRowGo y rowLen rest (x + 1) acc)
    else if x > 7 then
      .failure (illegalBoardMsg (Position.canonical ⟨7, y⟩))
    else
      match BoardNode.from_str c with
      | none => .failure (illegalBoardMsg (Position.canonical ⟨x, y⟩))
      | some node =>
        if mods.length > 2 ∨ (mods.length = 2 ∧ mods.get? 0 = mods.get? 1) then
          .failure (illegalBoardMsg (Position.canonical ⟨x, y⟩))
        else
          match applyNodeModifiers ⟨x, y⟩ node mods with
          | none => .failure (illegalBoardMsg (Position.canonical ⟨x, y⟩))
          | some node2 => parseRowGo y rowLen rest (x + 1) (acc ++ [node2])

def parseRowsGo (y : Nat) : List String → Result (List (List BoardNode))
  | [] => .success []
  | line :: rest =>
    match parseRowGo (y : Int) ((rowTokens line).length : Int) (rowTokens line) 0 [] with
    | .failure r => .failure r
    | .success row =>
      match parseRowsGo (y + 1) rest with
      | .failure r => .failure r
      | .success rows => .success (row :: rows)

def parseRows (lines : List String) : Result (List (List BoardNode)) :=
  parseRowsGo 0 lines

/-- The standard board text (Board.standard_board_str). -/
def stdStrs : List String :=
  [ "rnbqkbnr",
    "pppppppp",
    "........",
    "........",
    "........",
    "........",
    "PPPPPPPP",
    "RNBQKBNR",
    "w 3 3 + + + + - 0" ]

/-- Board.from_strs without the standard-layout shortcut. -/
def fromStrsMain (init : Bool) (strings : List String) : Py (Result Board) :=
  match parseRows (strings.take 8) with
  | .failure r => pure (.failure r)
  | .success rows =>
    match strings.get? 8 with
    | none => .error .indexError  -- strings[8] on a short list
    | some statusLine => do
      match ← BoardState.from_str statusLine with
      | .failure r => pure (.failure r)
      | .success state =>
        if strings.length > 9 then pure (.failure illegalStatusMsg)
        else do
          let board ← initBoard rows state (InitialMoves.fromInit init) 1
          pure (.success board)

/-- Board.from_strs: the public entry point first compares against the
standard layout (the lzip-padded all() equality is list equality) and
reparses it with _init = True. -/
def Board.from_strs (strings : List String) : Py (Result Board) :=
  if strings = stdStrs then fromStrsMain true stdStrs
  else fromStrsMain false strings

/-- Board.standard_board(). -/
def standardBoardR : Py (Result Board) := fromStrsMain true stdStrs

/-- The standard Board value (the parse succeeds; see stdB_spec). -/
def stdB : Board :=
  match standardBoardR with
  | .ok (.success b) => b
  | _ => ⟨[], BoardState.standard_state, InitialMoves.fromInit true, 1, false⟩

/-! Decidable statement of the wall-mirroring invariant.  The edge a
flag refers to follows the movement semantics of the source
(wall_blocked and Wall.blocking): a SOUTH flag on tile T lies on the
edge toward (x, y-1) and pairs with that neighbour NORTH flag, a WEST
flag lies on the edge toward (x-1, y) and pairs with that neighbour
EAST flag, and conversely for NORTH/EAST. -/
def wallsMirroredB (b : Board) : Bool :=
  (List.range 8).all (fun y => (List.range 8).all (fun x =>
    let w := (b.nodeAt ⟨(x : Int), (y : Int)⟩).walls
    (!w.west || (decide (1 ≤ x) && (b.nodeAt ⟨(x : Int) - 1, (y : Int)⟩).walls.east)) &&
    (!w.east || (decide (x ≤ 6) && (b.nodeAt ⟨(x : Int) + 1, (y : Int)⟩).walls.west)) &&
    (!w.south || (decide (1 ≤ y) && (b.nodeAt ⟨(x : Int), (y : Int) - 1⟩).walls.north)) &&
    (!w.north || (decide (y ≤ 6) && (b.nodeAt ⟨(x : Int), (y : Int) + 1⟩).walls.south))))

/-! Concrete fixtures for the claims. -/

/-- Fixture for C4: white king e1, white rook h1, white may castle
king-side; the black rook on f8 attacks f1 (the square the king
passes through) but neither e1 nor g1. -/
def castleStrs : List String :=
  [ "k....r..",
    "........",
    "........",
    "........",
    "........",
    "........",
    "........",
    "....K..R",
    "w 3 3 + - - - - 0" ]

def castleB : Board :=
  match Board.from_strs castleStrs with | .ok (.success b) => b | _ => stdB

/-- Fixture for C5: white king a1 checkmated by the black queen b2
defended by the black king b3 (fools-mate-like corner mate). -/
def mateStrs : List String :=
  [ "........",
    "........",
    "........",
    "........",
    "........",
    ".k......",
    ".q......",
    "K.......",
    "w 3 3 - - - - - 0" ]

def mateB : Board :=
  match Board.from_strs mateStrs with | .ok (.success b) => b | _ => stdB

/-- Fixture for C1/C7: the standard board after White places a mine on
d5 (position (3,3), a legal placement). -/
def mineMove : Move := mkPlaceMine .WHITE (P 3 3)

def c7b : Board :=
  match stdB.apply_move mineMove with | .aok nb _ => nb | _ => stdB

/-- The input board as apply_move leaves it (the shared initial_moves
dict has been decremented through the alias). -/
def c1sa : Board :=
  match stdB.apply_move mineMove with | .aok _ sa => sa | _ => stdB

/-- Fixture for C8: the wall placement parsed from the text |b2
(west edge of b2: origin b2, destination a2). -/
def pwMove : Move := mkPlaceWall .WHITE (P 1 6) (P 0 6)

/-- Fixture for C9: a board text whose third row puts both a south and
a west wall on c6 with the modifiers in the order south-then-west;
the serializer always emits west-then-south. -/
def modStrs : List String :=
  [ "........",
    "........",
    ".._|......",
    "........",
    "........",
    "........",
    "........",
    "........",
    "w 3 3 + + + + - 0" ]

def modB : Board :=
  match Board.from_strs modStrs with | .ok (.success b) => b | _ => stdB

/-- Fixture for C9: a section-6 board text whose en-passant square is
on file h, which the status-line regex ([a-g][1-8]) rejects. -/
def h3Strs : List String :=
  [ "rnbqkbnr",
    "pppppppp",
    "........",
    "........",
    "........",
    "........",
    "PPPPPPPP",
    "RNBQKBNR",
    "w 3 3 + + + + h3 0" ]

/-- Fixtures for C6: two one-king boards with different layouts. -/
def rowsA : List String :=
  [ "k.......",
    "........",
    "........",
    "........",
    "........",
    "........",
    "........",
    "K.......",
    "w 3 3 - - - - - 0" ]

def rowsB : List String :=
  [ "k.......",
    "........",
    "........",
    "........",
    "........",
    "........",
    "........",
    ".K......",
    "b 3 3 - - - - - 0" ]

def bA : Board :=
  match Board.from_strs rowsA with | .ok (.success b) => b | _ => stdB

def bB : Board :=
  match Board.from_strs rowsB with | .ok (.success b) => b | _ => stdB

/-- A game whose current layout has occurred 3 times in total: the
current board equals exactly 2 of the 4 prior boards. -/
def gThird : Game := ⟨bA, [(bA, mkNullMove), (bB, mkNullMove), (bA, mkNullMove), (bB, mkNullMove)]⟩

/-- A game whose current layout has occurred 4 times in total (3 prior
matches). -/
def gFourth : Game := ⟨bA, [(bA, mkNullMove), (bB, mkNullMove), (bA, mkNullMove), (bA, mkNullMove)]⟩

/-! Infrastructure for reasoning about normalise_walls: pointwise
accessors on the node grid and the expected result of the pass. -/

/-- The node at row y, column x of a grid (junkNode when out of
range, matching Python only where every use is in range). -/
def nodeD (ns : List (List BoardNode)) (y x : Nat) : BoardNode :=
  (ns.getD y []).getD x junkNode

def wAt (ns : List (List BoardNode)) (y x : Nat) : Bool := (nodeD ns y x).walls.west
def sAt (ns : List (List BoardNode)) (y x : Nat) : Bool := (nodeD ns y x).walls.south
def nAt (ns : List (List BoardNode)) (y x : Nat) : Bool := (nodeD ns y x).walls.north
def eAt (ns : List (List BoardNode)) (y x : Nat) : Bool := (nodeD ns y x).walls.east

/-- An 8 x 8 grid. -/
def rows8 (ns : List (List BoardNode)) : Prop :=
  ns.length = 8 ∧ ∀ r ∈ ns, r.length = 8

/-- Only authoritative south/west flags are present (the state of a
grid produced by the parser, before normalisation). -/
def onlySW (ns : List (List BoardNode)) : Prop :=
  ∀ y x : Nat, nAt ns y x = false ∧ eAt ns y x = false

/-- Tile classes the parser can produce (and the only ones whose
canonical form is a nonempty tile character): a piece carries no
hazard state, and an empty tile is never both mined and an open
trapdoor. -/
def tileOk (nd : BoardNode) : Prop :=
  match nd.contents with
  | some _ => nd.mined = false ∧ nd.trapdoor = TrapdoorState.NONE
  | none => ¬(nd.mined = true ∧ nd.trapdoor = TrapdoorState.OPEN)

/-- State of a freshly parsed node in row y, column x: no derived
(north/east) flag, no west flag in column 0 and no south flag in row
7 (the parser rejects those), and a representable tile. -/
def freshWalls (y : Int) (x : Nat) (nd : BoardNode) : Prop :=
  nd.walls.north = false ∧ nd.walls.east = false ∧
  (x = 0 → nd.walls.west = false) ∧ (y = 7 → nd.walls.south = false) ∧ tileOk nd

/-- The authoritative projection of a node: what reparsing its
canonical form reconstructs (derived north/east flags dropped). -/
def swNode (nd : BoardNode) : BoardNode :=
  ⟨nd.contents, nd.mined, nd.trapdoor, ⟨false, nd.walls.south, false, nd.walls.west⟩⟩

/-- The tile character of BoardNode.canonical (before wall prefixes). -/
def tileStr (n : BoardNode) : String :=
  match n.contents with
  | some p => p.canonical
  | none =>
    if n.mined then
      (if n.trapdoor = .HIDDEN then "X"
       else if n.trapdoor = .NONE then "M"
       else "")
    else if n.trapdoor = .HIDDEN then "D"
    else if n.trapdoor = .OPEN then "O"
    else "."

/-- Field ranges BoardState.from_str can produce: wall reserves read
through the [0-3] groups, an en-passant square from [a-g][1-8], and a
nonnegative clock. -/
def stateOk (s : BoardState) : Prop :=
  (0 ≤ s.whiteWalls ∧ s.whiteWalls ≤ 3) ∧ (0 ≤ s.blackWalls ∧ s.blackWalls ≤ 3) ∧
  (∀ p, s.enpassant = some p → 0 ≤ p.x ∧ p.x ≤ 6 ∧ 0 ≤ p.y ∧ p.y ≤ 7) ∧
  0 ≤ s.clock

/-- No south flag in row 7 (the parser rejects the modifier there). -/
def noS7 (ns : List (List BoardNode)) : Prop := ∀ x : Nat, sAt ns 7 x = false

/-- Every tile of the grid is representable. -/
def tilesOk (ns : List (List BoardNode)) : Prop := ∀ y x : Nat, tileOk (nodeD ns y x)

/-- No west wall in column 0 (the parser rejects them). -/
def noBadW (ns : List (List BoardNode)) : Prop := ∀ y : Nat, wAt ns y 0 = false

/-- No south wall in row 0 (such a grid makes normalise_walls wrap to
row 7 and later raise IndexError; see normalise_srow0_crash). -/
def noBadS (ns : List (List BoardNode)) : Prop := ∀ x : Nat, sAt ns 0 x = false

/-- The value of cell (y, x) after the first k iterations of the
normalise_walls pass over a grid with only south/west flags and no
west wall in column 0: east mirrors a processed west neighbour, north
mirrors a processed south flag below in index order; the row-0 wrap
term records the Python nodes[-1] write from a south flag in row 0. -/
def expectNode (ns : List (List BoardNode)) (k y x : Nat) : BoardNode :=
  let n := nodeD ns y x
  { n with walls := { n.walls with
      east := n.walls.east || (wAt ns y (x + 1) && decide (8 * y + x + 1 < k)),
      north := n.walls.north ||
        (sAt ns (y + 1) x && decide (8 * y + x + 8 < k)) ||
        (decide (y = 7) && sAt ns 0 x && decide (x < k)) } }

def expectNodes (ns : List (List BoardNode)) (k : Nat) : List (List BoardNode) :=
  (List.range 8).map (fun y => (List.range 8).map (fun x => expectNode ns k y x))

/-- The 64 row-major cell indices of an 8 x 8 grid. -/
def cells64 : List (Nat × Nat) :=
  (List.range 64).map (fun k => (k / 8, k % 8))

/-- Pure form of a successful addFlag at resolved indices. -/
def setW (ns : List (List BoardNode)) (y x : Nat) (f : Walls → Walls) :
    List (List BoardNode) :=
  ns.set y ((ns.getD y []).set x
    (let n := nodeD ns y x
     { n with walls := f n.walls }))

/-! Theorems. -/

/-- Claim C4 (code bug): on castleB the white king-side castle is
accepted by validate_move although the path square f1 = (5,7) is
attacked by the black rook on f8: the attacked-square condition sits
in the filter of the generator expression inside all(...), so an
attacked path square is skipped instead of rejecting the castle. -/
theorem c4_castle_through_check :
    Board.from_strs castleStrs = .ok (.success castleB) ∧
    castleB.state.whiteKingCastle = true ∧
    (castleB.nodeAt (P 5 7)).contents = none ∧
    (castleB.nodeAt (P 6 7)).contents = none ∧
    castleB.being_attacked_at (P 5 7) .BLACK = [P 5 0] ∧
    (castleB.validate_move (mkKingCastle .WHITE)).1 = .success (mkKingCastle .WHITE) := by
  decide

/-- Claim C8 (code bug): validate_move and apply_move on a PlaceWall
move (here |b2 on the standard board) raise AttributeError instead of
returning a Result: PlaceWall instances have no wall attribute but
both functions read move.wall. -/
theorem c8_placewall_crash :
    (stdB.validate_move pwMove).1 = .crash .attributeError ∧
    stdB.apply_move pwMove = .acrash .attributeError stdB := by
  decide

/-- Claim C6 (code bug): with the current layout equal to exactly two
prior boards (three occurrences in total, history length 4 > 3),
threefold_repetition returns false; it first returns true at three
prior matches (the fourth occurrence). -/
theorem c6_fourth_occurrence :
    gThird.board = bA ∧
    gThird.history.length = 4 ∧
    (gThird.history.map Prod.fst).countP (fun x => bA.beq x) = 2 ∧
    gThird.threefold_repetition = false ∧
    (gFourth.history.map Prod.fst).countP (fun x => bA.beq x) = 3 ∧
    gFourth.threefold_repetition = true := by
  decide

/-- Claim C1 counterexample: applying the PlaceMine move Md5 to the
standard board changes the input board: the initial_moves dict is
shared with the clone, so the white mine counter of the input drops
from 1 to 0 (its tiles and BoardState are untouched). -/
theorem c1_counterexample :
    stdB.apply_move mineMove = .aok c7b c1sa ∧
    stdB.initial_moves.whiteMines = 1 ∧
    c1sa.initial_moves.whiteMines = 0 ∧
    c1sa.initial_moves ≠ stdB.initial_moves := by
  decide

/-- Claim C7 counterexample: after White mines d5, the tile (3,3) is
already mined and Black still has a positive mine counter, yet
validate_move accepts a second PlaceMine on the same tile: the
source never checks for an existing mine or trapdoor. -/
theorem c7_counterexample :
    (c7b.nodeAt (P 3 3)).mined = true ∧
    c7b.initial_moves.blackMines = 1 ∧
    (c7b.validate_move (mkPlaceMine .BLACK (P 3 3))).1 =
      .success (mkPlaceMine .BLACK (P 3 3)) := by
  decide

/-- Claim C5 counterexample: on the mate fixture, stalemate returns
WHITE although White is in check (the function never consults
in_check), contradicting the claim that a player is returned only
when neither player is in check. -/
theorem c5_counterexample :
    mateB.stalemate = .ok (some .WHITE) ∧
    mateB.in_check .WHITE = true := by
  decide

/-- Claim C10 (confirmed): Move equality ignores the kind tag: two
moves of arbitrary kinds are equal exactly when player, origin and
destination agree (so a PlaceMine equals a PlaceTrapdoor on the same
square); and the membership test of validate_move resolves under this
kind-blind equality: on the standard board a Promotion move e2-e3=Q
is validated as a success purely because a plain pawn Move with the
same endpoints is in the generated list. -/
theorem c10_kind_blind_eq :
    (∀ a b : Move, Move.eq a b = true ↔
      (a.player = b.player ∧ a.origin = b.origin ∧ a.destination = b.destination)) ∧
    (∀ (k1 k2 : MoveKind) (p : Player) (o d : Position),
      Move.eq ⟨k1, p, o, d⟩ ⟨k2, p, o, d⟩ = true) ∧
    (∀ (p : Player) (o : Position), Move.eq (mkPlaceMine p o) (mkPlaceTrapdoor p o) = true) ∧
    (stdB.validate_move (mkPromotion .WHITE (P 4 6) (P 4 5) .queen)).1 =
      .success (mkPromotion .WHITE (P 4 6) (P 4 5) .queen) := by
  refine ⟨?_, ?_, ?_, by decide⟩
  · intro a b
    simp [Move.eq, and_assoc]
  · intro k1 k2 p o d
    simp [Move.eq]
  · intro p o
    simp [Move.eq, mkPlaceMine, mkPlaceTrapdoor]

/-- Claim C7 amended: validate_move accepts a PlaceMine exactly when
the target is on the board, the player mine counter is positive and
the target row index is 3 or 4, and accepts a PlaceTrapdoor exactly
when the counter is positive and the row index is between 2 and 5;
anything else yields the IllegalMove failure.  Whether the target
tile already holds a mine or trapdoor is never consulted. -/
lemma validate_placeMine_eq (b : Board) (p : Player) (o : Position) :
    b.validate_move (mkPlaceMine p o) =
      ((if (0 ≤ o.x ∧ o.x ≤ 7 ∧ 0 ≤ o.y ∧ o.y ≤ 7) then
          (if 0 < b.initial_moves.mines p ∧ (o.y = 3 ∨ o.y = 4)
           then VResult.success (mkPlaceMine p o)
           else VResult.failureMsg (illegalMoveMsg ("M" ++ o.canonical)))
        else VResult.failureMsg (illegalMoveMsg ("M" ++ o.canonical))), b) := by
  have hm : (mkPlaceMine p o).canonical = .ok ("M" ++ o.canonical) := rfl
  unfold Board.validate_move
  simp only [mkPlaceMine] at hm ⊢
  simp only [hm]
  by_cases hx0 : 0 ≤ o.x <;> by_cases hx7 : o.x ≤ 7 <;>
    by_cases hy0 : 0 ≤ o.y <;> by_cases hy7 : o.y ≤ 7 <;>
    by_cases hmc : b.initial_moves.mines p ≤ 0 <;>
    by_cases h3 : o.y = 3 <;> by_cases h4 : o.y = 4 <;>
    simp_all <;> (try split_ifs) <;> first | rfl | omega | simp_all

lemma validate_placeTrapdoor_eq (b : Board) (p : Player) (o : Position) :
    b.validate_move (mkPlaceTrapdoor p o) =
      ((if (0 ≤ o.x ∧ o.x ≤ 7 ∧ 0 ≤ o.y ∧ o.y ≤ 7) then
          (if 0 < b.initial_moves.trapdoors p ∧ (o.y = 2 ∨ o.y = 3 ∨ o.y = 4 ∨ o.y = 5)
           then VResult.success (mkPlaceTrapdoor p o)
           else VResult.failureMsg (illegalMoveMsg ("D" ++ o.canonical)))
        else VResult.failureMsg (illegalMoveMsg ("D" ++ o.canonical))), b) := by
  have ht : (mkPlaceTrapdoor p o).canonical = .ok ("D" ++ o.canonical) := rfl
  unfold Board.validate_move
  simp only [mkPlaceTrapdoor] at ht ⊢
  simp only [ht]
  by_cases hx0 : 0 ≤ o.x <;> by_cases hx7 : o.x ≤ 7 <;>
    by_cases hy0 : 0 ≤ o.y <;> by_cases hy7 : o.y ≤ 7 <;>
    by_cases htc : b.initial_moves.trapdoors p ≤ 0 <;>
    by_cases h2 : o.y = 2 <;> by_cases h3 : o.y = 3 <;>
    by_cases h4 : o.y = 4 <;> by_cases h5 : o.y = 5 <;>
    simp_all <;> (try split_ifs) <;> first | rfl | omega | simp_all

theorem c7_amended (b : Board) (p : Player) (o : Position) :
    ((b.validate_move (mkPlaceMine p o)).1 = .success (mkPlaceMine p o) ↔
      ((0 ≤ o.x ∧ o.x ≤ 7 ∧ 0 ≤ o.y ∧ o.y ≤ 7) ∧
       0 < b.initial_moves.mines p ∧ (o.y = 3 ∨ o.y = 4))) ∧
    ((b.validate_move (mkPlaceMine p o)).1 ≠ .success (mkPlaceMine p o) →
      (b.validate_move (mkPlaceMine p o)).1 =
        .failureMsg (illegalMoveMsg ("M" ++ o.canonical))) ∧
    ((b.validate_move (mkPlaceTrapdoor p o)).1 = .success (mkPlaceTrapdoor p o) ↔
      ((0 ≤ o.x ∧ o.x ≤ 7 ∧ 0 ≤ o.y ∧ o.y ≤ 7) ∧
       0 < b.initial_moves.trapdoors p ∧
       (o.y = 2 ∨ o.y = 3 ∨ o.y = 4 ∨ o.y = 5))) ∧
    ((b.validate_move (mkPlaceTrapdoor p o)).1 ≠ .success (mkPlaceTrapdoor p o) →
      (b.validate_move (mkPlaceTrapdoor p o)).1 =
        .failureMsg (illegalMoveMsg ("D" ++ o.canonical))) := by
  rw [validate_placeMine_eq, validate_placeTrapdoor_eq]
  refine ⟨?_, ?_, ?_, ?_⟩ <;> split_ifs <;> simp_all <;> tauto

/-- Witness for c7_amended at concrete inputs: Md5 on the standard
board validates, a trapdoor on a8 is rejected. -/
theorem c7_amended_witness :
    (stdB.validate_move (mkPlaceMine .WHITE (P 3 3))).1 =
      .success (mkPlaceMine .WHITE (P 3 3)) ∧
    (stdB.validate_move (mkPlaceTrapdoor .WHITE (P 0 0))).1 =
      .failureMsg (illegalMoveMsg ("D" ++ (P 0 0).canonical)) :=
  ⟨(c7_amended stdB .WHITE (P 3 3)).1.mpr (by decide),
   (c7_amended stdB .WHITE (P 0 0)).2.2.2 (by decide)⟩

/-! Preservation lemmas: none of the board operations used by
apply_move touch the initial_moves dict except the explicit
decrements. -/

@[simp] lemma setNode_im (b : Board) (p : Position) (f : BoardNode → BoardNode) :
    (b.setNode p f).initial_moves = b.initial_moves := by
  unfold Board.setNode
  split
  · dsimp only
    split <;> rfl
  · rfl

@[simp] lemma setContents_im (b : Board) (p : Position) (c : Option Piece) :
    (b.setContents p c).initial_moves = b.initial_moves := by
  unfold Board.setContents
  simp

lemma foldl_im {α : Type} (f : Board → α → Board)
    (h : ∀ b a, (f b a).initial_moves = b.initial_moves) :
    ∀ (l : List α) (b : Board), (l.foldl f b).initial_moves = b.initial_moves := by
  intro l
  induction l with
  | nil => intro b; rfl
  | cons a rest ih => intro b; rw [List.foldl_cons, ih, h]

@[simp] lemma detonate_im (b : Board) (pos : Position) :
    (b.detonate_mine pos).initial_moves = b.initial_moves := by
  unfold Board.detonate_mine
  rw [foldl_im]
  · simp
  · intro b2 a
    split
    · simp
    · rfl

@[simp] lemma mpCapture_im (b : Board) (m : Move) :
    (b.mpCapture m).initial_moves = b.initial_moves := by
  unfold Board.mpCapture
  split <;> rfl

@[simp] lemma mpBookkeeping_im (b : Board) (m : Move) :
    (b.mpBookkeeping m).initial_moves = b.initial_moves := by
  unfold Board.mpBookkeeping
  dsimp only
  rcases (b.nodeAt m.origin).contents with _ | pc
  · rfl
  · repeat' split
    all_goals simp

@[simp] lemma mpRelocate_im (b : Board) (m : Move) :
    (b.mpRelocate m).initial_moves = b.initial_moves := by
  unfold Board.mpRelocate
  simp

@[simp] lemma mpMine_im (b : Board) (m : Move) :
    (b.mpMine m).initial_moves = b.initial_moves := by
  unfold Board.mpMine
  split <;> simp

@[simp] lemma mpTrapdoor_im (b : Board) (m : Move) :
    (b.mpTrapdoor m).initial_moves = b.initial_moves := by
  unfold Board.mpTrapdoor
  repeat' split
  all_goals simp

@[simp] lemma mpHazards_im (b : Board) (m : Move) :
    (b.mpHazards m).initial_moves = b.initial_moves := by
  unfold Board.mpHazards
  simp

@[simp] lemma move_piece_im (b : Board) (m : Move) :
    (b.move_piece m).initial_moves = b.initial_moves := by
  unfold Board.move_piece
  simp

@[simp] lemma castleApply_im (b : Board) (m : Move) :
    (b.castleApply m).initial_moves = b.initial_moves := by
  unfold Board.castleApply
  simp

@[simp] lemma flipAndCount_im (b : Board) :
    b.flipAndCount.initial_moves = b.initial_moves := rfl

lemma ok_bind {α β : Type} (a : α) (f : α → Py β) : (Py.ok a >>= f) = f a := rfl

lemma error_bind {α β : Type} (e : PyErr) (f : α → Py β) :
    ((Py.error e : Py α) >>= f) = .error e := rfl

lemma py_bind_ok {α β : Type} {x : Py α} {f : α → Py β} {v : β}
    (h : x >>= f = .ok v) : ∃ a, x = .ok a ∧ f a = .ok v := by
  cases x with
  | ok a => rw [ok_bind] at h; exact ⟨a, rfl, h⟩
  | error e => rw [error_bind] at h; cases h

lemma addFlag_im (b : Board) (y x : Int) (f : Walls → Walls) (b2 : Board) :
    addFlag b y x f = .ok b2 → b2.initial_moves = b.initial_moves := by
  unfold addFlag
  intro h
  obtain ⟨row, hrow, h⟩ := py_bind_ok h
  obtain ⟨node, hnode, h⟩ := py_bind_ok h
  obtain ⟨row2, hrow2, h⟩ := py_bind_ok h
  obtain ⟨nodes2, hnodes2, h⟩ := py_bind_ok h
  cases h
  rfl

lemma ite_addFlag_im {b b2 : Board} {c : Bool} {y x : Int} {f : Walls → Walls}
    (h : (if c then addFlag b y x f else pure b) = .ok b2) :
    b2.initial_moves = b.initial_moves := by
  split at h
  · exact addFlag_im _ _ _ _ _ h
  · cases h; rfl

lemma normStep_im (b : Board) (y x : Nat) (b2 : Board) :
    normStep b y x = .ok b2 → b2.initial_moves = b.initial_moves := by
  unfold normStep
  intro h
  obtain ⟨w1, hw1, h⟩ := py_bind_ok h
  obtain ⟨bb1, hb1, h⟩ := py_bind_ok h
  obtain ⟨w2, hw2, h⟩ := py_bind_ok h
  obtain ⟨bb2, hb2, h⟩ := py_bind_ok h
  obtain ⟨w3, hw3, h⟩ := py_bind_ok h
  obtain ⟨bb3, hb3, h⟩ := py_bind_ok h
  obtain ⟨w4, hw4, h⟩ := py_bind_ok h
  calc b2.initial_moves
      = bb3.initial_moves := ite_addFlag_im h
    _ = bb2.initial_moves := ite_addFlag_im hb3
    _ = bb1.initial_moves := ite_addFlag_im hb2
    _ = b.initial_moves := ite_addFlag_im hb1

lemma normaliseGo_im (cells : List (Nat × Nat)) :
    ∀ (b b2 : Board), normaliseGo b cells = .ok b2 → b2.initial_moves = b.initial_moves := by
  induction cells with
  | nil => intro b b2 h; cases h; rfl
  | cons c rest ih =>
    intro b b2 h
    unfold normaliseGo at h
    obtain ⟨bmid, hmid, h⟩ := py_bind_ok h
    rw [ih bmid b2 h, normStep_im b c.1 c.2 bmid hmid]

lemma copy_im (b b2 : Board) (h : b.copy = .ok b2) :
    b2.initial_moves = b.initial_moves := by
  unfold Board.copy initBoard Board.normalise_walls at h
  have h2 := normaliseGo_im _ _ _ h
  exact h2

/-- Claim C1 amended: apply_move leaves the input board tiles,
BoardState, turn counter and detonation flag unchanged, and leaves the
input board entirely unchanged except that, because copy() shares the
initial_moves dict between input and clone, a PlaceMine, PlaceTrapdoor
or NullMove application also decrements the input board obstacle
counters. -/
theorem c1_amended (b : Board) (m : Move) (nb sa : Board)
    (h : b.apply_move m = .aok nb sa) :
    sa.nodes = b.nodes ∧ sa.state = b.state ∧ sa.turn = b.turn ∧
    sa.mine_detonated = b.mine_detonated ∧
    (m.kind = .placeMine → sa.initial_moves =
       { (b.initial_moves.decMine m.player) with total := b.initial_moves.total - 1 }) ∧
    (m.kind = .placeTrapdoor → sa.initial_moves =
       { (b.initial_moves.decTrapdoor m.player) with total := b.initial_moves.total - 1 }) ∧
    (m.kind = .nullMove → sa.initial_moves =
       { b.initial_moves with total := b.initial_moves.total - 1 }) ∧
    ((m.kind ≠ .placeMine ∧ m.kind ≠ .placeTrapdoor ∧ m.kind ≠ .nullMove) → sa = b) := by
  unfold Board.apply_move at h
  cases hc : b.copy with
  | error e => rw [hc] at h; cases h
  | ok nb0 =>
    rw [hc] at h
    have him : nb0.initial_moves = b.initial_moves := copy_im b nb0 hc
    cases hk : m.kind <;> simp only [hk] at h <;> cases h <;>
      simp_all [InitialMoves.decMine, InitialMoves.decTrapdoor] <;>
      cases hp : m.player <;> simp_all [InitialMoves.decMine, InitialMoves.decTrapdoor]

/-- Witness for c1_amended at the Md5 placement on the standard
board. -/
theorem c1_amended_witness :
    stdB.apply_move mineMove = .aok c7b c1sa ∧
    c1sa.nodes = stdB.nodes ∧ c1sa.state = stdB.state ∧
    c1sa.initial_moves =
      { (stdB.initial_moves.decMine .WHITE) with total := stdB.initial_moves.total - 1 } :=
  ⟨by decide, (c1_amended stdB mineMove c7b c1sa (by decide)).1,
   (c1_amended stdB mineMove c7b c1sa (by decide)).2.1,
   (c1_amended stdB mineMove c7b c1sa (by decide)).2.2.2.2.1 rfl⟩

/-- Invariant of the stalemate scan loop: a returned player was in the
candidate list throughout, so every piece of that player examined by
the loop had an empty move list. -/
lemma stalemateGo_spec (b : Board) :
    ∀ (cells : List (Position × BoardNode)) (players : List Player) (p : Player),
      players.Nodup →
      stalemateGo b cells players = .ok (some p) →
      p ∈ players ∧
      ∀ pr ∈ cells, ∀ pc : Piece, pr.2.contents = some pc → pc.owner = p →
        b.get_moves pr.1 = .ok [] := by
  intro cells
  induction cells with
  | nil =>
    intro players p hnd h
    unfold stalemateGo at h
    match players, h with
    | q :: rest, h =>
      simp only [pure, Py.ok.injEq, Option.some.injEq] at h
      subst h
      exact ⟨List.mem_cons_self q rest, by intro pr hpr; cases hpr⟩
  | cons cell rest ih =>
    intro players p hnd h
    obtain ⟨pos, node⟩ := cell
    unfold stalemateGo at h
    rcases hcont : node.contents with _ | piece <;> simp only [hcont] at h
    · obtain ⟨hmem, hrest⟩ := ih players p hnd h
      refine ⟨hmem, ?_⟩
      intro pr hpr pc hpc howner
      rcases List.mem_cons.mp hpr with heq | hmemr
      · rw [heq] at hpc
        simp only [hcont] at hpc
        exact Option.noConfusion hpc
      · exact hrest pr hmemr pc hpc howner
    · by_cases hin : players.contains piece.owner = true
      · rw [if_pos hin] at h
        cases hmv : b.get_moves pos with
        | error e => rw [hmv] at h; cases h
        | ok moves =>
          rw [hmv] at h
          dsimp only at h
          by_cases hlen : moves.length > 0
          · rw [if_pos hlen] at h
            by_cases hempty : (players.erase piece.owner).isEmpty = true
            · rw [if_pos hempty] at h
              simp only [pure, Py.ok.injEq] at h
              cases h
            · rw [if_neg hempty] at h
              obtain ⟨hmem, hrest⟩ := ih _ p (hnd.erase piece.owner) h
              have hmem2 : p ∈ players := List.mem_of_mem_erase hmem
              refine ⟨hmem2, ?_⟩
              intro pr hpr pc hpc howner
              rcases List.mem_cons.mp hpr with heq | hmemr
              · exfalso
                rw [heq] at hpc; simp only [hcont, Option.some.injEq] at hpc
                subst hpc
                rw [howner] at hmem
                exact (hnd.not_mem_erase) hmem
              · exact hrest pr hmemr pc hpc howner
          · rw [if_neg hlen] at h
            obtain ⟨hmem, hrest⟩ := ih players p hnd h
            refine ⟨hmem, ?_⟩
            intro pr hpr pc hpc howner
            rcases List.mem_cons.mp hpr with heq | hmemr
            · rw [heq]
              show b.get_moves pos = .ok []
              rw [hmv]
              congr 1
              exact List.eq_nil_of_length_eq_zero (by omega)
            · exact hrest pr hmemr pc hpc howner
      · rw [if_neg hin] at h
        obtain ⟨hmem, hrest⟩ := ih players p hnd h
        refine ⟨hmem, ?_⟩
        intro pr hpr pc hpc howner
        rcases List.mem_cons.mp hpr with heq | hmemr
        · exfalso
          rw [heq] at hpc
          simp only [hcont, Option.some.injEq] at hpc
          subst hpc
          rw [howner] at hin
          exact hin (List.elem_eq_true_of_mem hmem)
        · exact hrest pr hmemr pc hpc howner

/-- Claim C5 amended: whenever stalemate returns a player (it may do
so even when that player is in check, see c5_counterexample), every
piece belonging to that player has an empty legal move list. -/
theorem c5_amended (b : Board) (p : Player)
    (h : b.stalemate = .ok (some p)) :
    ∀ pr ∈ scanCells b, ∀ pc : Piece, pr.2.contents = some pc → pc.owner = p →
      b.get_moves pr.1 = .ok [] :=
  (stalemateGo_spec b (scanCells b) [.WHITE, .BLACK] p (by decide) h).2

/-- Witness for c5_amended on the mate fixture: stalemate returns
WHITE, so the white king square must generate no move. -/
theorem c5_amended_witness :
    mateB.stalemate = .ok (some .WHITE) ∧ mateB.get_moves (P 0 7) = .ok [] :=
  ⟨by decide,
   c5_amended mateB .WHITE (by decide)
     (P 0 7, mateB.nodeAt (P 0 7)) (by decide)
     ⟨.king, .WHITE⟩ (by decide) rfl⟩


/-! Access lemmas for pyGet / pySet and the grid accessors. -/

lemma pyGet_nat {α : Type} (l : List α) (i : Nat) (h : i < l.length) :
    pyGet l (i : Int) = .ok l[i] := by
  unfold pyGet pyIndex
  rw [if_pos (by omega), if_pos (by exact_mod_cast h)]
  simp [List.getElem?_eq_getElem h]

lemma pyGet_neg_one {α : Type} (l : List α) (h : 0 < l.length) :
    pyGet l (-1) = .ok l[l.length - 1] := by
  unfold pyGet pyIndex
  rw [if_neg (by omega), if_pos (by omega)]
  have hidx : ((l.length : Int) + -1).toNat = l.length - 1 := by omega
  rw [hidx]
  simp [List.getElem?_eq_getElem (by omega : l.length - 1 < l.length)]

lemma pyGet_hi {α : Type} (l : List α) (i : Int) (h : (l.length : Int) ≤ i) (h0 : 0 ≤ i) :
    pyGet l i = .error .indexError := by
  unfold pyGet pyIndex
  rw [if_pos h0, if_neg (by omega)]

lemma pySet_nat {α : Type} (l : List α) (i : Nat) (v : α) (h : i < l.length) :
    pySet l (i : Int) v = .ok (l.set i v) := by
  unfold pySet pyIndex
  rw [if_pos (by omega), if_pos (by exact_mod_cast h)]
  simp

lemma pySet_neg_one {α : Type} (l : List α) (v : α) (h : 0 < l.length) :
    pySet l (-1) v = .ok (l.set (l.length - 1) v) := by
  unfold pySet pyIndex
  rw [if_neg (by omega), if_pos (by omega)]
  have hidx : ((l.length : Int) + -1).toNat = l.length - 1 := by omega
  rw [hidx]
  try rfl

lemma pySet_hi {α : Type} (l : List α) (i : Int) (v : α) (h : (l.length : Int) ≤ i) (h0 : 0 ≤ i) :
    pySet l i v = .error .indexError := by
  unfold pySet pyIndex
  rw [if_pos h0, if_neg (by omega)]

lemma rows8_row {ns : List (List BoardNode)} (hr : rows8 ns) (y : Nat) (hy : y < 8) :
    (ns.getD y []).length = 8 := by
  obtain ⟨hlen, hall⟩ := hr
  have hylen : y < ns.length := by omega
  rw [List.getD_eq_getElem?_getD, List.getElem?_eq_getElem hylen]
  exact hall _ (List.getElem_mem _)

lemma nodeD_oob_row (ns : List (List BoardNode)) (y x : Nat)
    (h : ns.length ≤ y) : nodeD ns y x = junkNode := by
  unfold nodeD
  rw [List.getD_eq_default _ _ h]
  rfl

lemma nodeD_oob_col (ns : List (List BoardNode)) (y x : Nat)
    (h : (ns.getD y []).length ≤ x) : nodeD ns y x = junkNode := by
  unfold nodeD
  exact List.getD_eq_default _ _ h

/-- nodeD of setW at the target. -/
lemma nodeD_setW_self {ns : List (List BoardNode)} (hr : rows8 ns) (y x : Nat)
    (hy : y < 8) (hx : x < 8) (f : Walls → Walls) :
    nodeD (setW ns y x f) y x =
      { nodeD ns y x with walls := f (nodeD ns y x).walls } := by
  have hrow := rows8_row hr y hy
  obtain ⟨hlen, _⟩ := hr
  unfold setW nodeD
  simp only [List.getD_eq_getElem?_getD, List.getElem?_set]
  rw [if_pos trivial, if_pos (by omega)]
  simp only [Option.getD_some, List.getElem?_set]
  rw [if_pos trivial, if_pos (by rw [List.getD_eq_getElem?_getD] at hrow; omega)]
  simp only [Option.getD_some]

/-- nodeD of setW away from the target. -/
lemma nodeD_setW_other {ns : List (List BoardNode)} (y x y2 x2 : Nat)
    (h : ¬(y2 = y ∧ x2 = x)) (f : Walls → Walls) :
    nodeD (setW ns y x f) y2 x2 = nodeD ns y2 x2 := by
  unfold setW nodeD
  by_cases hy : y2 = y
  · subst hy
    have hx : x ≠ x2 := by tauto
    by_cases hylen : y2 < ns.length
    · simp only [List.getD_eq_getElem?_getD, List.getElem?_set]
      rw [if_pos trivial, if_pos (by omega)]
      simp only [Option.getD_some, List.getElem?_set]
      rw [if_neg hx]
    · simp only [List.getD_eq_getElem?_getD, List.getElem?_set]
      rw [if_pos trivial, if_neg hylen,
        List.getElem?_eq_none (Nat.le_of_not_lt hylen)]
  · simp only [List.getD_eq_getElem?_getD, List.getElem?_set]
    rw [if_neg (by omega)]

lemma setW_rows8 {ns : List (List BoardNode)} (hr : rows8 ns) (y x : Nat) (hy : y < 8)
    (f : Walls → Walls) : rows8 (setW ns y x f) := by
  have hrow := rows8_row hr y hy
  obtain ⟨hlen, hall⟩ := hr
  constructor
  · simp [setW, hlen]
  · intro r hrmem
    unfold setW at hrmem
    rcases List.mem_or_eq_of_mem_set hrmem with hmem | heq
    · exact hall r hmem
    · rw [heq, List.length_set]
      exact hrow

/-! expectNodes access. -/

lemma expectNodes_rows8 (ns : List (List BoardNode)) (k : Nat) :
    rows8 (expectNodes ns k) := by
  constructor
  · simp [expectNodes]
  · intro r hr
    unfold expectNodes at hr
    obtain ⟨y, hy, hry⟩ := List.mem_map.mp hr
    rw [← hry]
    simp

lemma nodeD_expect (ns : List (List BoardNode)) (k y x : Nat) (hy : y < 8) (hx : x < 8) :
    nodeD (expectNodes ns k) y x = expectNode ns k y x := by
  unfold nodeD expectNodes
  simp only [List.getD_eq_getElem?_getD, List.getElem?_map,
    List.getElem?_range hy, Option.map_some', Option.getD_some,
    List.getElem?_range hx]
/-! Evaluation lemmas for readWalls / addFlag on an 8 x 8 grid. -/

lemma getD_lt {α : Type} {l : List α} {i : Nat} (h : i < l.length) (d : α) :
    l.getD i d = l[i] := by
  rw [List.getD_eq_getElem?_getD, List.getElem?_eq_getElem h]
  rfl

lemma pyGet_last {α : Type} (l : List α) (d : α) (h : 0 < l.length) :
    pyGet l (-1) = .ok (l.getD (l.length - 1) d) := by
  rw [pyGet_neg_one l h, getD_lt (by omega) d]

lemma readWalls_eval (b : Board) (hr : rows8 b.nodes) (y x : Nat)
    (hy : y < 8) (hx : x < 8) :
    readWalls b y x = .ok (nodeD b.nodes y x).walls := by
  have hylen : y < b.nodes.length := by rw [hr.1]; exact hy
  have hge : b.nodes.getD y [] = b.nodes[y] := getD_lt hylen []
  have hxlen : x < (b.nodes[y]).length := by
    rw [← hge, rows8_row hr y hy]; exact hx
  unfold readWalls
  rw [pyGet_nat b.nodes y hylen, ok_bind, pyGet_nat _ x hxlen, ok_bind]
  unfold nodeD
  rw [hge, getD_lt hxlen junkNode]
  rfl

lemma addFlag_eval_nat (b : Board) (hr : rows8 b.nodes) (y x : Nat)
    (hy : y < 8) (hx : x < 8) (f : Walls → Walls) :
    addFlag b (y : Int) (x : Int) f = .ok { b with nodes := setW b.nodes y x f } := by
  have hylen : y < b.nodes.length := by rw [hr.1]; exact hy
  have hge : b.nodes.getD y [] = b.nodes[y] := getD_lt hylen []
  have hxlen : x < (b.nodes[y]).length := by
    rw [← hge, rows8_row hr y hy]; exact hx
  unfold addFlag
  rw [pyGet_nat b.nodes y hylen, ok_bind, pyGet_nat _ x hxlen, ok_bind,
    pySet_nat _ x _ hxlen, ok_bind, pySet_nat _ y _ hylen, ok_bind]
  unfold setW nodeD
  rw [hge, getD_lt hxlen junkNode]
  rfl

lemma addFlag_eval_neg (b : Board) (hr : rows8 b.nodes) (x : Nat)
    (hx : x < 8) (f : Walls → Walls) :
    addFlag b (-1) (x : Int) f = .ok { b with nodes := setW b.nodes 7 x f } := by
  have hlen0 : 0 < b.nodes.length := by rw [hr.1]; omega
  have h7 : b.nodes.length - 1 = 7 := by rw [hr.1]
  have hylen : 7 < b.nodes.length := by rw [hr.1]; omega
  have hge : b.nodes.getD 7 [] = b.nodes[7] := getD_lt hylen []
  have hxlen : x < (b.nodes[7]).length := by
    rw [← hge, rows8_row hr 7 (by omega)]; exact hx
  unfold addFlag
  rw [pyGet_last b.nodes [] hlen0, h7, ok_bind, hge,
    pyGet_nat _ x hxlen, ok_bind, pySet_nat _ x _ hxlen, ok_bind,
    pySet_neg_one _ _ hlen0, h7, ok_bind]
  unfold setW nodeD
  rw [hge, getD_lt hxlen junkNode]
  rfl

lemma addFlag_err8 (b : Board) (hr : rows8 b.nodes) (xi : Int) (f : Walls → Walls) :
    addFlag b (8 : Int) xi f = .error .indexError := by
  unfold addFlag
  rw [pyGet_hi b.nodes 8 (by simp [hr.1]) (by omega), error_bind]

/-! Out-of-range grid reads. -/

lemma nodeD_oob8 (ns : List (List BoardNode)) (hr : rows8 ns) (y x : Nat)
    (h : 8 ≤ y ∨ 8 ≤ x) : nodeD ns y x = junkNode := by
  rcases h with h | h
  · exact nodeD_oob_row ns y x (by rw [hr.1]; exact h)
  · rcases Nat.lt_or_ge y 8 with hy | hy
    · exact nodeD_oob_col ns y x (by rw [rows8_row hr y hy]; exact h)
    · exact nodeD_oob_row ns y x (by rw [hr.1]; exact hy)

lemma wAt_oob (ns : List (List BoardNode)) (hr : rows8 ns) (y x : Nat)
    (h : 8 ≤ y ∨ 8 ≤ x) : wAt ns y x = false := by
  unfold wAt
  rw [nodeD_oob8 ns hr y x h]
  rfl

lemma sAt_oob (ns : List (List BoardNode)) (hr : rows8 ns) (y x : Nat)
    (h : 8 ≤ y ∨ 8 ≤ x) : sAt ns y x = false := by
  unfold sAt
  rw [nodeD_oob8 ns hr y x h]
  rfl

/-! Extensionality helpers. -/

lemma wallsExt (a b : Walls) (hn : a.north = b.north) (hs : a.south = b.south)
    (he : a.east = b.east) (hw : a.west = b.west) : a = b := by
  cases a; cases b; simp_all

lemma nodeExt (a b : BoardNode) (h1 : a.contents = b.contents) (h2 : a.mined = b.mined)
    (h3 : a.trapdoor = b.trapdoor) (h4 : a.walls = b.walls) : a = b := by
  cases a; cases b; simp_all

lemma grid_ext {ms1 ms2 : List (List BoardNode)} (h1 : rows8 ms1) (h2 : rows8 ms2)
    (h : ∀ y x, y < 8 → x < 8 → nodeD ms1 y x = nodeD ms2 y x) : ms1 = ms2 := by
  apply List.ext_getElem (by rw [h1.1, h2.1])
  intro y hy1 hy2
  have hy : y < 8 := by rw [h1.1] at hy1; exact hy1
  have hl1 : ms1[y].length = 8 := h1.2 _ (List.getElem_mem _)
  have hl2 : ms2[y].length = 8 := h2.2 _ (List.getElem_mem _)
  apply List.ext_getElem (by rw [hl1, hl2])
  intro x hx1 hx2
  have hx : x < 8 := by rw [hl1] at hx1; exact hx1
  have hq := h y x hy hx
  unfold nodeD at hq
  rw [getD_lt hy1 [], getD_lt hx1 junkNode] at hq
  rw [getD_lt hy2 [], getD_lt hx2 junkNode] at hq
  exact hq

/-! Field projections of expectNode. -/

lemma expect_west (ns : List (List BoardNode)) (k y x : Nat) :
    (expectNode ns k y x).walls.west = wAt ns y x := rfl

lemma expect_south (ns : List (List BoardNode)) (k y x : Nat) :
    (expectNode ns k y x).walls.south = sAt ns y x := rfl

lemma expect_east (ns : List (List BoardNode)) (k y x : Nat) :
    (expectNode ns k y x).walls.east =
      ((nodeD ns y x).walls.east || (wAt ns y (x + 1) && decide (8 * y + x + 1 < k))) := rfl

lemma expect_north (ns : List (List BoardNode)) (k y x : Nat) :
    (expectNode ns k y x).walls.north =
      ((nodeD ns y x).walls.north ||
        (sAt ns (y + 1) x && decide (8 * y + x + 8 < k)) ||
        (decide (y = 7) && sAt ns 0 x && decide (x < k))) := rfl

lemma expect_contents (ns : List (List BoardNode)) (k y x : Nat) :
    (expectNode ns k y x).contents = (nodeD ns y x).contents := rfl

lemma expect_mined (ns : List (List BoardNode)) (k y x : Nat) :
    (expectNode ns k y x).mined = (nodeD ns y x).mined := rfl

lemma expect_trapdoor (ns : List (List BoardNode)) (k y x : Nat) :
    (expectNode ns k y x).trapdoor = (nodeD ns y x).trapdoor := rfl

/-! How one normalise iteration advances the expected grid. -/

lemma expect_walls_stable (ns : List (List BoardNode)) (k y x : Nat)
    (he : 8 * y + x + 1 = k → wAt ns y (x + 1) = false)
    (hn : 8 * y + x + 8 = k → sAt ns (y + 1) x = false)
    (hwr : y = 7 → x = k → sAt ns 0 x = false) :
    (expectNode ns (k + 1) y x).walls = (expectNode ns k y x).walls := by
  apply wallsExt
  · rw [expect_north, expect_north]
    congr 1
    · congr 1
      by_cases hbk : 8 * y + x + 8 = k
      · rw [hn hbk]
        simp
      · rw [decide_eq_decide.mpr (show 8 * y + x + 8 < k + 1 ↔ 8 * y + x + 8 < k by omega)]
    · by_cases hy7 : y = 7
      · rw [decide_eq_true hy7]
        by_cases hck : x = k
        · rw [hwr hy7 hck]
          simp
        · rw [decide_eq_decide.mpr (show x < k + 1 ↔ x < k by omega)]
      · rw [decide_eq_false hy7]
        simp
  · rw [expect_south, expect_south]
  · rw [expect_east, expect_east]
    congr 1
    by_cases hak : 8 * y + x + 1 = k
    · rw [he hak]
      simp
    · rw [decide_eq_decide.mpr (show 8 * y + x + 1 < k + 1 ↔ 8 * y + x + 1 < k by omega)]
  · rw [expect_west, expect_west]

lemma expect_stable (ns : List (List BoardNode)) (k y x : Nat)
    (he : 8 * y + x + 1 = k → wAt ns y (x + 1) = false)
    (hn : 8 * y + x + 8 = k → sAt ns (y + 1) x = false)
    (hwr : y = 7 → x = k → sAt ns 0 x = false) :
    expectNode ns (k + 1) y x = expectNode ns k y x := by
  apply nodeExt
  · rw [expect_contents, expect_contents]
  · rw [expect_mined, expect_mined]
  · rw [expect_trapdoor, expect_trapdoor]
  · exact expect_walls_stable ns k y x he hn hwr

lemma expect_bump_east (ns : List (List BoardNode)) (k y x : Nat)
    (hW : wAt ns y (x + 1) = true) (hk : 8 * y + x + 1 = k) :
    expectNode ns (k + 1) y x =
      { expectNode ns k y x with walls := (expectNode ns k y x).walls.addEast } := by
  apply nodeExt
  · rw [expect_contents]; rfl
  · rw [expect_mined]; rfl
  · rw [expect_trapdoor]; rfl
  · show (expectNode ns (k + 1) y x).walls = (expectNode ns k y x).walls.addEast
    apply wallsExt
    · show (expectNode ns (k + 1) y x).walls.north = (expectNode ns k y x).walls.north
      rw [expect_north, expect_north]
      congr 1
      · congr 1
        rw [decide_eq_false (show ¬8 * y + x + 8 < k + 1 by omega),
          decide_eq_false (show ¬8 * y + x + 8 < k by omega)]
      · by_cases hy7 : y = 7
        · rw [decide_eq_true (show x < k + 1 by omega), decide_eq_true (show x < k by omega)]
        · rw [decide_eq_false hy7]
          simp
    · show (expectNode ns (k + 1) y x).walls.south = (expectNode ns k y x).walls.south
      rw [expect_south, expect_south]
    · show (expectNode ns (k + 1) y x).walls.east = true
      rw [expect_east, hW, decide_eq_true (show 8 * y + x + 1 < k + 1 by omega)]
      simp
    · show (expectNode ns (k + 1) y x).walls.west = (expectNode ns k y x).walls.west
      rw [expect_west, expect_west]

lemma expect_bump_north (ns : List (List BoardNode)) (k y x : Nat)
    (hS : sAt ns (y + 1) x = true) (hk : 8 * y + x + 8 = k) :
    expectNode ns (k + 1) y x =
      { expectNode ns k y x with walls := (expectNode ns k y x).walls.addNorth } := by
  apply nodeExt
  · rw [expect_contents]; rfl
  · rw [expect_mined]; rfl
  · rw [expect_trapdoor]; rfl
  · show (expectNode ns (k + 1) y x).walls = (expectNode ns k y x).walls.addNorth
    apply wallsExt
    · show (expectNode ns (k + 1) y x).walls.north = true
      rw [expect_north, hS, decide_eq_true (show 8 * y + x + 8 < k + 1 by omega)]
      simp
    · show (expectNode ns (k + 1) y x).walls.south = (expectNode ns k y x).walls.south
      rw [expect_south, expect_south]
    · show (expectNode ns (k + 1) y x).walls.east = (expectNode ns k y x).walls.east
      rw [expect_east, expect_east,
        decide_eq_true (show 8 * y + x + 1 < k + 1 by omega),
        decide_eq_true (show 8 * y + x + 1 < k by omega)]
    · show (expectNode ns (k + 1) y x).walls.west = (expectNode ns k y x).walls.west
      rw [expect_west, expect_west]

lemma expect_bump_wrap (ns : List (List BoardNode)) (k y x : Nat)
    (hy7 : y = 7) (hS0 : sAt ns 0 x = true) (hk : x = k) :
    expectNode ns (k + 1) y x =
      { expectNode ns k y x with walls := (expectNode ns k y x).walls.addNorth } := by
  apply nodeExt
  · rw [expect_contents]; rfl
  · rw [expect_mined]; rfl
  · rw [expect_trapdoor]; rfl
  · show (expectNode ns (k + 1) y x).walls = (expectNode ns k y x).walls.addNorth
    apply wallsExt
    · show (expectNode ns (k + 1) y x).walls.north = true
      rw [expect_north, hS0, decide_eq_true hy7, decide_eq_true (show x < k + 1 by omega)]
      simp
    · show (expectNode ns (k + 1) y x).walls.south = (expectNode ns k y x).walls.south
      rw [expect_south, expect_south]
    · show (expectNode ns (k + 1) y x).walls.east = (expectNode ns k y x).walls.east
      rw [expect_east, expect_east,
        decide_eq_false (show ¬8 * y + x + 1 < k + 1 by omega),
        decide_eq_false (show ¬8 * y + x + 1 < k by omega)]
    · show (expectNode ns (k + 1) y x).walls.west = (expectNode ns k y x).walls.west
      rw [expect_west, expect_west]

lemma expectNodes_zero {ns : List (List BoardNode)} (hr : rows8 ns) :
    expectNodes ns 0 = ns := by
  apply grid_ext (expectNodes_rows8 ns 0) hr
  intro y x hy hx
  rw [nodeD_expect ns 0 y x hy hx]
  apply nodeExt
  · rw [expect_contents]
  · rw [expect_mined]
  · rw [expect_trapdoor]
  · apply wallsExt
    · rw [expect_north, decide_eq_false (show ¬8 * y + x + 8 < 0 by omega),
        decide_eq_false (show ¬x < 0 by omega)]
      simp
    · rfl
    · rw [expect_east, decide_eq_false (show ¬8 * y + x + 1 < 0 by omega)]
      simp
    · rfl
/-! One full normalise_walls iteration at cell (y, x), as a pure grid
transformation on the expected-prefix grid: the west mirror (if any)
followed by the south mirror (if any, wrapping to row 7 from row 0). -/

lemma stepGrid_expect (ns : List (List BoardNode)) (hr : rows8 ns)
    (hw : noBadW ns) (y x : Nat) (hy : y < 8) (hx : x < 8) :
    (if sAt ns y x = true then
       setW (if wAt ns y x = true then
               setW (expectNodes ns (8 * y + x)) y (x - 1) Walls.addEast
             else expectNodes ns (8 * y + x))
         (if y = 0 then 7 else y - 1) x Walls.addNorth
     else if wAt ns y x = true then
       setW (expectNodes ns (8 * y + x)) y (x - 1) Walls.addEast
     else expectNodes ns (8 * y + x)) = expectNodes ns (8 * y + x + 1) := by
  have hrE : rows8 (expectNodes ns (8 * y + x)) := expectNodes_rows8 ns (8 * y + x)
  by_cases hS : sAt ns y x = true
  · rw [if_pos hS]
    by_cases hW : wAt ns y x = true
    · rw [if_pos hW]
      have hx1 : 1 ≤ x := by
        rcases Nat.eq_zero_or_pos x with h0 | h0
        · rw [h0, hw y] at hW; cases hW
        · exact h0
      have hrE1 : rows8 (setW (expectNodes ns (8 * y + x)) y (x - 1) Walls.addEast) :=
        setW_rows8 hrE y (x - 1) hy _
      by_cases hy0 : y = 0
      · subst hy0
        rw [if_pos rfl]
        apply grid_ext (setW_rows8 hrE1 7 x (by omega) _) (expectNodes_rows8 _ _)
        intro y' x' hy' hx'
        rw [nodeD_expect ns (8 * 0 + x + 1) y' x' hy' hx']
        by_cases c2 : y' = 7 ∧ x' = x
        · obtain ⟨hq1, hq2⟩ := c2
          rw [hq1, hq2]
          rw [nodeD_setW_self hrE1 7 x (by omega) hx,
            nodeD_setW_other 0 (x - 1) 7 x (by omega) _,
            nodeD_expect ns (8 * 0 + x) 7 x (by omega) hx]
          exact (expect_bump_wrap ns (8 * 0 + x) 7 x rfl hS (by omega)).symm
        · by_cases c1 : y' = 0 ∧ x' = x - 1
          · obtain ⟨hq1, hq2⟩ := c1
            rw [hq1, hq2]
            rw [nodeD_setW_other 7 x 0 (x - 1) (by omega) _,
              nodeD_setW_self hrE 0 (x - 1) (by omega) (by omega),
              nodeD_expect ns (8 * 0 + x) 0 (x - 1) (by omega) (by omega)]
            have hWx : wAt ns 0 (x - 1 + 1) = true := by
              rw [show x - 1 + 1 = x by omega]; exact hW
            exact (expect_bump_east ns (8 * 0 + x) 0 (x - 1) hWx (by omega)).symm
          · rw [nodeD_setW_other 7 x y' x' (by tauto) _,
              nodeD_setW_other 0 (x - 1) y' x' (by tauto) _,
              nodeD_expect ns (8 * 0 + x) y' x' hy' hx']
            apply (expect_stable ns (8 * 0 + x) y' x' ?_ ?_ ?_).symm
            · intro hek
              by_cases hx7 : x' = 7
              · rw [hx7]; exact wAt_oob ns hr y' 8 (Or.inr (by omega))
              · exact absurd (show y' = 0 ∧ x' = x - 1 by omega) c1
            · intro hnk
              exact absurd hnk (by omega)
            · intro h7 hxk
              exact absurd (show y' = 7 ∧ x' = x by omega) c2
      · rw [if_neg hy0]
        apply grid_ext (setW_rows8 hrE1 (y - 1) x (by omega) _) (expectNodes_rows8 _ _)
        intro y' x' hy' hx'
        rw [nodeD_expect ns (8 * y + x + 1) y' x' hy' hx']
        by_cases c2 : y' = y - 1 ∧ x' = x
        · obtain ⟨hq1, hq2⟩ := c2
          rw [hq1, hq2]
          rw [nodeD_setW_self hrE1 (y - 1) x (by omega) hx,
            nodeD_setW_other y (x - 1) (y - 1) x (by omega) _,
            nodeD_expect ns (8 * y + x) (y - 1) x (by omega) hx]
          have hSx : sAt ns (y - 1 + 1) x = true := by
            rw [show y - 1 + 1 = y by omega]; exact hS
          exact (expect_bump_north ns (8 * y + x) (y - 1) x hSx (by omega)).symm
        · by_cases c1 : y' = y ∧ x' = x - 1
          · obtain ⟨hq1, hq2⟩ := c1
            rw [hq1, hq2]
            rw [nodeD_setW_other (y - 1) x y (x - 1) (by omega) _,
              nodeD_setW_self hrE y (x - 1) hy (by omega),
              nodeD_expect ns (8 * y + x) y (x - 1) hy (by omega)]
            have hWx : wAt ns y (x - 1 + 1) = true := by
              rw [show x - 1 + 1 = x by omega]; exact hW
            exact (expect_bump_east ns (8 * y + x) y (x - 1) hWx (by omega)).symm
          · rw [nodeD_setW_other (y - 1) x y' x' (by tauto) _,
              nodeD_setW_other y (x - 1) y' x' (by tauto) _,
              nodeD_expect ns (8 * y + x) y' x' hy' hx']
            apply (expect_stable ns (8 * y + x) y' x' ?_ ?_ ?_).symm
            · intro hek
              by_cases hx7 : x' = 7
              · rw [hx7]; exact wAt_oob ns hr y' 8 (Or.inr (by omega))
              · exact absurd (show y' = y ∧ x' = x - 1 by omega) c1
            · intro hnk
              by_cases hy'7 : y' = 7
              · exact absurd hnk (by omega)
              · exact absurd (show y' = y - 1 ∧ x' = x by omega) c2
            · intro h7 hxk
              exact absurd (show y = 0 by omega) hy0
    · rw [if_neg hW]
      have hWf : wAt ns y x = false := by
        revert hW; cases wAt ns y x <;> simp
      by_cases hy0 : y = 0
      · subst hy0
        rw [if_pos rfl]
        apply grid_ext (setW_rows8 hrE 7 x (by omega) _) (expectNodes_rows8 _ _)
        intro y' x' hy' hx'
        rw [nodeD_expect ns (8 * 0 + x + 1) y' x' hy' hx']
        by_cases c2 : y' = 7 ∧ x' = x
        · obtain ⟨hq1, hq2⟩ := c2
          rw [hq1, hq2]
          rw [nodeD_setW_self hrE 7 x (by omega) hx,
            nodeD_expect ns (8 * 0 + x) 7 x (by omega) hx]
          exact (expect_bump_wrap ns (8 * 0 + x) 7 x rfl hS (by omega)).symm
        · rw [nodeD_setW_other 7 x y' x' (by tauto) _,
            nodeD_expect ns (8 * 0 + x) y' x' hy' hx']
          apply (expect_stable ns (8 * 0 + x) y' x' ?_ ?_ ?_).symm
          · intro hek
            by_cases hx7 : x' = 7
            · rw [hx7]; exact wAt_oob ns hr y' 8 (Or.inr (by omega))
            · rw [show y' = 0 by omega, show x' + 1 = x by omega]
              exact hWf
          · intro hnk
            exact absurd hnk (by omega)
          · intro h7 hxk
            exact absurd (show y' = 7 ∧ x' = x by omega) c2
      · rw [if_neg hy0]
        apply grid_ext (setW_rows8 hrE (y - 1) x (by omega) _) (expectNodes_rows8 _ _)
        intro y' x' hy' hx'
        rw [nodeD_expect ns (8 * y + x + 1) y' x' hy' hx']
        by_cases c2 : y' = y - 1 ∧ x' = x
        · obtain ⟨hq1, hq2⟩ := c2
          rw [hq1, hq2]
          rw [nodeD_setW_self hrE (y - 1) x (by omega) hx,
            nodeD_expect ns (8 * y + x) (y - 1) x (by omega) hx]
          have hSx : sAt ns (y - 1 + 1) x = true := by
            rw [show y - 1 + 1 = y by omega]; exact hS
          exact (expect_bump_north ns (8 * y + x) (y - 1) x hSx (by omega)).symm
        · rw [nodeD_setW_other (y - 1) x y' x' (by tauto) _,
            nodeD_expect ns (8 * y + x) y' x' hy' hx']
          apply (expect_stable ns (8 * y + x) y' x' ?_ ?_ ?_).symm
          · intro hek
            by_cases hx7 : x' = 7
            · rw [hx7]; exact wAt_oob ns hr y' 8 (Or.inr (by omega))
            · rw [show y' = y by omega, show x' + 1 = x by omega]
              exact hWf
          · intro hnk
            by_cases hy'7 : y' = 7
            · exact absurd hnk (by omega)
            · exact absurd (show y' = y - 1 ∧ x' = x by omega) c2
          · intro h7 hxk
            exact absurd (show y = 0 by omega) hy0
  · rw [if_neg hS]
    have hSf : sAt ns y x = false := by
      revert hS; cases sAt ns y x <;> simp
    by_cases hW : wAt ns y x = true
    · rw [if_pos hW]
      have hx1 : 1 ≤ x := by
        rcases Nat.eq_zero_or_pos x with h0 | h0
        · rw [h0, hw y] at hW; cases hW
        · exact h0
      apply grid_ext (setW_rows8 hrE y (x - 1) hy _) (expectNodes_rows8 _ _)
      intro y' x' hy' hx'
      rw [nodeD_expect ns (8 * y + x + 1) y' x' hy' hx']
      by_cases c1 : y' = y ∧ x' = x - 1
      · obtain ⟨hq1, hq2⟩ := c1
        rw [hq1, hq2]
        rw [nodeD_setW_self hrE y (x - 1) hy (by omega),
          nodeD_expect ns (8 * y + x) y (x - 1) hy (by omega)]
        have hWx : wAt ns y (x - 1 + 1) = true := by
          rw [show x - 1 + 1 = x by omega]; exact hW
        exact (expect_bump_east ns (8 * y + x) y (x - 1) hWx (by omega)).symm
      · rw [nodeD_setW_other y (x - 1) y' x' (by tauto) _,
          nodeD_expect ns (8 * y + x) y' x' hy' hx']
        apply (expect_stable ns (8 * y + x) y' x' ?_ ?_ ?_).symm
        · intro hek
          by_cases hx7 : x' = 7
          · rw [hx7]; exact wAt_oob ns hr y' 8 (Or.inr (by omega))
          · exact absurd (show y' = y ∧ x' = x - 1 by omega) c1
        · intro hnk
          by_cases hy'7 : y' = 7
          · exact absurd hnk (by omega)
          · rw [show y' + 1 = y by omega, show x' = x by omega]
            exact hSf
        · intro h7 hxk
          rw [show x' = x by omega]
          rw [show (0 : Nat) = y by omega]
          exact hSf
    · rw [if_neg hW]
      have hWf : wAt ns y x = false := by
        revert hW; cases wAt ns y x <;> simp
      apply grid_ext hrE (expectNodes_rows8 _ _)
      intro y' x' hy' hx'
      rw [nodeD_expect ns (8 * y + x + 1) y' x' hy' hx',
        nodeD_expect ns (8 * y + x) y' x' hy' hx']
      apply (expect_stable ns (8 * y + x) y' x' ?_ ?_ ?_).symm
      · intro hek
        by_cases hx7 : x' = 7
        · rw [hx7]; exact wAt_oob ns hr y' 8 (Or.inr (by omega))
        · rw [show y' = y by omega, show x' + 1 = x by omega]
          exact hWf
      · intro hnk
        by_cases hy'7 : y' = 7
        · exact absurd hnk (by omega)
        · rw [show y' + 1 = y by omega, show x' = x by omega]
          exact hSf
      · intro h7 hxk
        rw [show x' = x by omega, show (0 : Nat) = y by omega]
        exact hSf
/-! Staged evaluation of one normalise_walls iteration. -/

lemma py_pure_bind {α β : Type} (a : α) (f : α → Py β) :
    ((pure a : Py α) >>= f) = f a := rfl

lemma normStep_eq_tail (b : Board) (y x : Nat) :
    normStep b y x =
      (readWalls b y x >>= fun w1 =>
       (if w1.west then addFlag b (y : Int) ((x : Int) - 1) Walls.addEast else pure b) >>=
         fun b1 =>
       readWalls b1 y x >>= fun w2 =>
       (if w2.south then addFlag b1 ((y : Int) - 1) (x : Int) Walls.addNorth else pure b1) >>=
         fun b2 =>
       normStep34 b2 y x) := rfl

lemma readWalls_lit (ms : List (List BoardNode)) (st : BoardState) (im : InitialMoves)
    (t : Int) (md : Bool) (hr : rows8 ms) (y x : Nat) (hy : y < 8) (hx : x < 8) :
    readWalls ⟨ms, st, im, t, md⟩ y x = .ok (nodeD ms y x).walls :=
  readWalls_eval ⟨ms, st, im, t, md⟩ hr y x hy hx

lemma addFlag_lit_nat (ms : List (List BoardNode)) (st : BoardState) (im : InitialMoves)
    (t : Int) (md : Bool) (hr : rows8 ms) (y x : Nat) (hy : y < 8) (hx : x < 8)
    (f : Walls → Walls) :
    addFlag ⟨ms, st, im, t, md⟩ (y : Int) (x : Int) f = .ok ⟨setW ms y x f, st, im, t, md⟩ :=
  addFlag_eval_nat ⟨ms, st, im, t, md⟩ hr y x hy hx f

lemma addFlag_lit_neg (ms : List (List BoardNode)) (st : BoardState) (im : InitialMoves)
    (t : Int) (md : Bool) (hr : rows8 ms) (x : Nat) (hx : x < 8) (f : Walls → Walls) :
    addFlag ⟨ms, st, im, t, md⟩ (-1) (x : Int) f = .ok ⟨setW ms 7 x f, st, im, t, md⟩ :=
  addFlag_eval_neg ⟨ms, st, im, t, md⟩ hr x hx f

lemma addFlag_lit_err8 (ms : List (List BoardNode)) (st : BoardState) (im : InitialMoves)
    (t : Int) (md : Bool) (hr : rows8 ms) (xi : Int) (f : Walls → Walls) :
    addFlag ⟨ms, st, im, t, md⟩ (8 : Int) xi f = .error .indexError :=
  addFlag_err8 ⟨ms, st, im, t, md⟩ hr xi f

/-- Clauses 3 and 4 are no-ops on the advanced expected grid unless
the processed cell sits in row 7 with a south flag below it in row 0
(the wrap artefact). -/
lemma normStep34_ok (ns : List (List BoardNode)) (st : BoardState) (im : InitialMoves)
    (t : Int) (md : Bool) (hr : rows8 ns) (hsw : onlySW ns)
    (y x : Nat) (hy : y < 8) (hx : x < 8) (h7 : y = 7 → sAt ns 0 x = false) :
    normStep34 ⟨expectNodes ns (8 * y + x + 1), st, im, t, md⟩ y x =
      .ok ⟨expectNodes ns (8 * y + x + 1), st, im, t, md⟩ := by
  have hrE : rows8 (expectNodes ns (8 * y + x + 1)) := expectNodes_rows8 _ _
  unfold normStep34
  rw [readWalls_lit _ st im t md hrE y x hy hx]
  simp only [ok_bind]
  rw [nodeD_expect ns (8 * y + x + 1) y x hy hx, expect_north,
    show (nodeD ns y x).walls.north = nAt ns y x from rfl, (hsw y x).1,
    decide_eq_false (show ¬8 * y + x + 8 < 8 * y + x + 1 by omega)]
  have hcond : (decide (y = 7) && sAt ns 0 x && decide (x < 8 * y + x + 1)) = false := by
    by_cases hy7 : y = 7
    · rw [h7 hy7]
      simp
    · rw [decide_eq_false hy7]
      simp
  rw [show ((false || (sAt ns (y + 1) x && false)) ||
      (decide (y = 7) && sAt ns 0 x && decide (x < 8 * y + x + 1))) =
      (decide (y = 7) && sAt ns 0 x && decide (x < 8 * y + x + 1)) by simp,
    hcond, if_neg Bool.false_ne_true]
  simp only [py_pure_bind]
  rw [readWalls_lit _ st im t md hrE y x hy hx]
  simp only [ok_bind]
  rw [nodeD_expect ns (8 * y + x + 1) y x hy hx, expect_east,
    show (nodeD ns y x).walls.east = eAt ns y x from rfl, (hsw y x).2,
    decide_eq_false (show ¬8 * y + x + 1 < 8 * y + x + 1 by omega)]
  rw [show ((false : Bool) || (wAt ns y (x + 1) && false)) = false by simp,
    if_neg Bool.false_ne_true]
  rfl

lemma normStep34_err (ns : List (List BoardNode)) (st : BoardState) (im : InitialMoves)
    (t : Int) (md : Bool) (hr : rows8 ns) (hsw : onlySW ns)
    (x : Nat) (hx : x < 8) (hS0 : sAt ns 0 x = true) :
    normStep34 ⟨expectNodes ns (8 * 7 + x + 1), st, im, t, md⟩ 7 x =
      .error .indexError := by
  have hrE : rows8 (expectNodes ns (8 * 7 + x + 1)) := expectNodes_rows8 _ _
  unfold normStep34
  rw [readWalls_lit _ st im t md hrE 7 x (by omega) hx]
  simp only [ok_bind]
  rw [nodeD_expect ns (8 * 7 + x + 1) 7 x (by omega) hx, expect_north,
    show (nodeD ns 7 x).walls.north = nAt ns 7 x from rfl, (hsw 7 x).1,
    decide_eq_false (show ¬8 * 7 + x + 8 < 8 * 7 + x + 1 by omega),
    hS0, decide_eq_true (show (7 : Nat) = 7 from rfl),
    decide_eq_true (show x < 8 * 7 + x + 1 by omega)]
  rw [show ((false || (sAt ns (7 + 1) x && false)) || (true && true && true)) = true by simp,
    if_pos rfl,
    show ((7 : Nat) : Int) + 1 = (8 : Int) by decide,
    addFlag_lit_err8 _ st im t md hrE _ _, error_bind]

/-- One iteration of the pass on the grid expected after k = 8y + x
prior iterations: a returned board carries the grid expected after
k + 1 iterations, and a return at a row-7 cell certifies there is no
south flag below it in row 0. -/
lemma normStep_expect (ns : List (List BoardNode)) (st : BoardState) (im : InitialMoves)
    (t : Int) (md : Bool) (hr : rows8 ns) (hsw : onlySW ns) (hw : noBadW ns)
    (y x : Nat) (hy : y < 8) (hx : x < 8) (r : Board)
    (h : normStep ⟨expectNodes ns (8 * y + x), st, im, t, md⟩ y x = .ok r) :
    r = ⟨expectNodes ns (8 * y + x + 1), st, im, t, md⟩ ∧
      (y = 7 → sAt ns 0 x = false) := by
  have hrE : rows8 (expectNodes ns (8 * y + x)) := expectNodes_rows8 _ _
  have hg := stepGrid_expect ns hr hw y x hy hx
  rw [normStep_eq_tail, readWalls_lit _ st im t md hrE y x hy hx] at h
  simp only [ok_bind] at h
  rw [nodeD_expect ns (8 * y + x) y x hy hx, expect_west] at h
  rcases (Bool.eq_false_or_eq_true (wAt ns y x)).symm with hW | hW
  · -- no west mirror
    have hWne : ¬wAt ns y x = true := by rw [hW]; exact Bool.false_ne_true
    rw [hW, if_neg Bool.false_ne_true] at h
    simp only [py_pure_bind] at h
    rw [readWalls_lit _ st im t md hrE y x hy hx] at h
    simp only [ok_bind] at h
    rw [nodeD_expect ns (8 * y + x) y x hy hx, expect_south] at h
    rw [if_neg hWne] at hg
    rcases (Bool.eq_false_or_eq_true (sAt ns y x)).symm with hS | hS
    · have hSne : ¬sAt ns y x = true := by rw [hS]; exact Bool.false_ne_true
      rw [hS, if_neg Bool.false_ne_true] at h
      simp only [py_pure_bind] at h
      rw [if_neg hSne] at hg
      rw [hg] at h
      by_cases hcr : y = 7 ∧ sAt ns 0 x = true
      · rw [hcr.1] at h
        rw [normStep34_err ns st im t md hr hsw x hx hcr.2] at h
        exact Py.noConfusion h
      · have h7 : y = 7 → sAt ns 0 x = false := by
          intro hy7
          rcases (Bool.eq_false_or_eq_true (sAt ns 0 x)).symm with h0 | h0
          · exact h0
          · exact absurd ⟨hy7, h0⟩ hcr
        rw [normStep34_ok ns st im t md hr hsw y x hy hx h7] at h
        exact ⟨(Py.ok.inj h).symm, h7⟩
    · rw [hS, if_pos rfl] at h
      rw [if_pos hS] at hg
      by_cases hy0 : y = 0
      · subst hy0
        rw [show ((0 : Nat) : Int) - 1 = (-1 : Int) by decide,
          addFlag_lit_neg _ st im t md hrE x hx _] at h
        simp only [ok_bind] at h
        rw [if_pos rfl] at hg
        rw [hg] at h
        have h7 : (0 : Nat) = 7 → sAt ns 0 x = false := by
          intro h07
          exact absurd h07 (by omega)
        rw [normStep34_ok ns st im t md hr hsw 0 x (by omega) hx h7] at h
        exact ⟨(Py.ok.inj h).symm, h7⟩
      · rw [show ((y : Nat) : Int) - 1 = ((y - 1 : Nat) : Int) by omega,
          addFlag_lit_nat _ st im t md hrE (y - 1) x (by omega) hx _] at h
        simp only [ok_bind] at h
        rw [if_neg hy0] at hg
        rw [hg] at h
        by_cases hcr : y = 7 ∧ sAt ns 0 x = true
        · rw [hcr.1] at h
          rw [normStep34_err ns st im t md hr hsw x hx hcr.2] at h
          exact Py.noConfusion h
        · have h7 : y = 7 → sAt ns 0 x = false := by
            intro hy7
            rcases (Bool.eq_false_or_eq_true (sAt ns 0 x)).symm with h0 | h0
            · exact h0
            · exact absurd ⟨hy7, h0⟩ hcr
          rw [normStep34_ok ns st im t md hr hsw y x hy hx h7] at h
          exact ⟨(Py.ok.inj h).symm, h7⟩
  · -- west mirror fires
    have hx1 : 1 ≤ x := by
      rcases Nat.eq_zero_or_pos x with h0 | h0
      · rw [h0, hw y] at hW; cases hW
      · exact h0
    have hrE1 : rows8 (setW (expectNodes ns (8 * y + x)) y (x - 1) Walls.addEast) :=
      setW_rows8 hrE y (x - 1) hy _
    rw [hW, if_pos rfl,
      show ((x : Nat) : Int) - 1 = ((x - 1 : Nat) : Int) by omega,
      addFlag_lit_nat _ st im t md hrE y (x - 1) hy (by omega) _] at h
    simp only [ok_bind] at h
    rw [readWalls_lit _ st im t md hrE1 y x hy hx] at h
    simp only [ok_bind] at h
    rw [nodeD_setW_other y (x - 1) y x (by omega) _,
      nodeD_expect ns (8 * y + x) y x hy hx, expect_south] at h
    rw [if_pos hW] at hg
    rcases (Bool.eq_false_or_eq_true (sAt ns y x)).symm with hS | hS
    · have hSne : ¬sAt ns y x = true := by rw [hS]; exact Bool.false_ne_true
      rw [hS, if_neg Bool.false_ne_true] at h
      simp only [py_pure_bind] at h
      rw [if_neg hSne] at hg
      rw [hg] at h
      by_cases hcr : y = 7 ∧ sAt ns 0 x = true
      · rw [hcr.1] at h
        rw [normStep34_err ns st im t md hr hsw x hx hcr.2] at h
        exact Py.noConfusion h
      · have h7 : y = 7 → sAt ns 0 x = false := by
          intro hy7
          rcases (Bool.eq_false_or_eq_true (sAt ns 0 x)).symm with h0 | h0
          · exact h0
          · exact absurd ⟨hy7, h0⟩ hcr
        rw [normStep34_ok ns st im t md hr hsw y x hy hx h7] at h
        exact ⟨(Py.ok.inj h).symm, h7⟩
    · rw [hS, if_pos rfl] at h
      rw [if_pos hS] at hg
      by_cases hy0 : y = 0
      · subst hy0
        rw [show ((0 : Nat) : Int) - 1 = (-1 : Int) by decide,
          addFlag_lit_neg _ st im t md hrE1 x hx _] at h
        simp only [ok_bind] at h
        rw [if_pos rfl] at hg
        rw [hg] at h
        have h7 : (0 : Nat) = 7 → sAt ns 0 x = false := by
          intro h07
          exact absurd h07 (by omega)
        rw [normStep34_ok ns st im t md hr hsw 0 x (by omega) hx h7] at h
        exact ⟨(Py.ok.inj h).symm, h7⟩
      · rw [show ((y : Nat) : Int) - 1 = ((y - 1 : Nat) : Int) by omega,
          addFlag_lit_nat _ st im t md hrE1 (y - 1) x (by omega) hx _] at h
        simp only [ok_bind] at h
        rw [if_neg hy0] at hg
        rw [hg] at h
        by_cases hcr : y = 7 ∧ sAt ns 0 x = true
        · rw [hcr.1] at h
          rw [normStep34_err ns st im t md hr hsw x hx hcr.2] at h
          exact Py.noConfusion h
        · have h7 : y = 7 → sAt ns 0 x = false := by
            intro hy7
            rcases (Bool.eq_false_or_eq_true (sAt ns 0 x)).symm with h0 | h0
            · exact h0
            · exact absurd ⟨hy7, h0⟩ hcr
          rw [normStep34_ok ns st im t md hr hsw y x hy hx h7] at h
          exact ⟨(Py.ok.inj h).symm, h7⟩
/-! The full normalise_walls pass. -/

lemma flatMap_congr {α β : Type} {l : List α} {f g : α → List β}
    (h : ∀ a ∈ l, f a = g a) : l.flatMap f = l.flatMap g := by
  induction l with
  | nil => rfl
  | cons a as ih =>
    simp only [List.flatMap_cons]
    rw [h a (by simp), ih (fun b hb => h b (by simp [hb]))]

lemma cellsOf_eq (b : Board) (hr : rows8 b.nodes) : cellsOf b = cells64 := by
  unfold cellsOf
  rw [hr.1]
  have h1 : ∀ y ∈ List.range 8,
      (List.range ((b.nodes.getD y []).length)).map (fun x => (y, x)) =
        (List.range 8).map (fun x => (y, x)) := by
    intro y hy
    rw [rows8_row hr y (List.mem_range.mp hy)]
  rw [flatMap_congr h1]
  decide

lemma cells64_eq : cells64 = (List.range' 0 64).map (fun j => (j / 8, j % 8)) := by
  rw [cells64, List.range_eq_range']

lemma normaliseGo_expect (ns : List (List BoardNode)) (st : BoardState) (im : InitialMoves)
    (t : Int) (md : Bool) (hr : rows8 ns) (hsw : onlySW ns) (hw : noBadW ns) :
    ∀ (n k : Nat), k + n = 64 → ∀ b',
      normaliseGo ⟨expectNodes ns k, st, im, t, md⟩
        ((List.range' k n).map (fun j => (j / 8, j % 8))) = .ok b' →
      b' = ⟨expectNodes ns 64, st, im, t, md⟩ ∧
        (∀ x, x < 8 → k ≤ 56 + x → sAt ns 0 x = false) := by
  intro n
  induction n with
  | zero =>
    intro k hk b' h
    have hk64 : k = 64 := by omega
    subst hk64
    rw [show List.range' 64 0 = ([] : List Nat) from rfl] at h
    simp only [List.map_nil, normaliseGo] at h
    refine ⟨(Py.ok.inj h).symm, ?_⟩
    intro x hx hk'
    exact absurd hk' (by omega)
  | succ n ih =>
    intro k hk b' h
    rw [List.range'_succ] at h
    simp only [List.map_cons, normaliseGo] at h
    obtain ⟨b2, hstep, hrest⟩ := py_bind_ok h
    obtain ⟨y, x, hked, hdy, hdx, hylt, hxlt⟩ :
        ∃ y x, k = 8 * y + x ∧ k / 8 = y ∧ k % 8 = x ∧ y < 8 ∧ x < 8 :=
      ⟨k / 8, k % 8, by omega, rfl, rfl, by omega, by omega⟩
    rw [hdy, hdx, show k = 8 * y + x from hked] at hstep
    obtain ⟨hb2, h7⟩ := normStep_expect ns st im t md hr hsw hw y x hylt hxlt b2 hstep
    subst hb2
    rw [show 8 * y + x + 1 = k + 1 by omega] at hrest
    obtain ⟨hb', hall⟩ := ih (k + 1) (by omega) b' hrest
    refine ⟨hb', ?_⟩
    intro x0 hx0 hle
    by_cases hcase : k + 1 ≤ 56 + x0
    · exact hall x0 hx0 hcase
    · have hx0x : x0 = x := by omega
      rw [hx0x]
      exact h7 (by omega)

/-- A successful construction run yields the fully mirrored grid, and
certifies that the input grid had no south flag in row 0. -/
lemma initBoard_expect (ns : List (List BoardNode)) (st : BoardState) (im : InitialMoves)
    (t : Int) (hr : rows8 ns) (hsw : onlySW ns) (hw : noBadW ns) (b : Board)
    (h : initBoard ns st im t = .ok b) :
    b = ⟨expectNodes ns 64, st, im, t, false⟩ ∧ ∀ x, sAt ns 0 x = false := by
  unfold initBoard Board.normalise_walls at h
  rw [cellsOf_eq ⟨ns, st, im, t, false⟩ hr, cells64_eq,
    show ns = expectNodes ns 0 from (expectNodes_zero hr).symm] at h
  obtain ⟨hb, hall⟩ := normaliseGo_expect ns st im t false hr hsw hw 64 0 (by omega) b h
  refine ⟨hb, ?_⟩
  intro x
  by_cases hx : x < 8
  · exact hall x hx (by omega)
  · exact sAt_oob ns hr 0 x (Or.inr (by omega))

/-! The mirror invariant on the final grid. -/

lemma nodeAt_lit (ms : List (List BoardNode)) (st : BoardState) (im : InitialMoves)
    (t : Int) (md : Bool) (hr : rows8 ms) (y x : Nat) (hy : y < 8) (hx : x < 8) :
    Board.nodeAt ⟨ms, st, im, t, md⟩ ⟨(x : Int), (y : Int)⟩ = nodeD ms y x := by
  have hylen : y < ms.length := by rw [hr.1]; exact hy
  have hge : ms.getD y [] = ms[y] := getD_lt hylen []
  have hxlen : x < (ms[y]).length := by rw [← hge, rows8_row hr y hy]; exact hx
  unfold Board.nodeAt
  dsimp only
  rw [pyGet_nat ms y hylen]
  dsimp only
  rw [pyGet_nat ms[y] x hxlen]
  dsimp only
  unfold nodeD
  rw [hge, getD_lt hxlen junkNode]

lemma mirrored_expect64 (ns : List (List BoardNode)) (st : BoardState) (im : InitialMoves)
    (t : Int) (md : Bool) (hr : rows8 ns) (hsw : onlySW ns) (hw : noBadW ns)
    (hs0 : ∀ x, sAt ns 0 x = false) :
    wallsMirroredB ⟨expectNodes ns 64, st, im, t, md⟩ = true := by
  have hrE : rows8 (expectNodes ns 64) := expectNodes_rows8 ns 64
  unfold wallsMirroredB
  rw [List.all_eq_true]
  intro y hy
  rw [List.all_eq_true]
  intro x hx
  have hy8 : y < 8 := List.mem_range.mp hy
  have hx8 : x < 8 := List.mem_range.mp hx
  dsimp only
  rw [Bool.and_eq_true, Bool.and_eq_true, Bool.and_eq_true]
  refine ⟨⟨⟨?_, ?_⟩, ?_⟩, ?_⟩
  · -- west implies east on the western neighbour
    rw [nodeAt_lit _ st im t md hrE y x hy8 hx8, nodeD_expect ns 64 y x hy8 hx8, expect_west]
    rcases (Bool.eq_false_or_eq_true (wAt ns y x)).symm with hWf | hWt
    · rw [hWf]
      simp
    · have hx1 : 1 ≤ x := by
        rcases Nat.eq_zero_or_pos x with h0 | h0
        · rw [h0, hw y] at hWt; cases hWt
        · exact h0
      rw [hWt, show ((x : Nat) : Int) - 1 = ((x - 1 : Nat) : Int) by omega,
        nodeAt_lit _ st im t md hrE y (x - 1) hy8 (by omega),
        nodeD_expect ns 64 y (x - 1) hy8 (by omega), expect_east,
        show (nodeD ns y (x - 1)).walls.east = eAt ns y (x - 1) from rfl, (hsw y (x - 1)).2,
        show x - 1 + 1 = x by omega, hWt,
        decide_eq_true (show 8 * y + (x - 1) + 1 < 64 by omega),
        decide_eq_true hx1]
      simp
  · -- east implies west on the eastern neighbour
    rw [nodeAt_lit _ st im t md hrE y x hy8 hx8, nodeD_expect ns 64 y x hy8 hx8, expect_east,
      show (nodeD ns y x).walls.east = eAt ns y x from rfl, (hsw y x).2]
    by_cases hx7 : x = 7
    · rw [hx7, wAt_oob ns hr y 8 (Or.inr (by omega))]
      simp
    · rw [decide_eq_true (show 8 * y + x + 1 < 64 by omega)]
      rcases (Bool.eq_false_or_eq_true (wAt ns y (x + 1))).symm with hWf | hWt
      · rw [hWf]
        simp
      · rw [hWt, show ((x : Nat) : Int) + 1 = ((x + 1 : Nat) : Int) by omega,
          nodeAt_lit _ st im t md hrE y (x + 1) hy8 (by omega),
          nodeD_expect ns 64 y (x + 1) hy8 (by omega), expect_west, hWt,
          decide_eq_true (show x ≤ 6 by omega)]
        simp
  · -- south implies north on the southern neighbour
    rw [nodeAt_lit _ st im t md hrE y x hy8 hx8, nodeD_expect ns 64 y x hy8 hx8, expect_south]
    rcases (Bool.eq_false_or_eq_true (sAt ns y x)).symm with hSf | hSt
    · rw [hSf]
      simp
    · have hy1 : 1 ≤ y := by
        rcases Nat.eq_zero_or_pos y with h0 | h0
        · rw [h0, hs0 x] at hSt; cases hSt
        · exact h0
      rw [hSt, show ((y : Nat) : Int) - 1 = ((y - 1 : Nat) : Int) by omega,
        nodeAt_lit _ st im t md hrE (y - 1) x (by omega) hx8,
        nodeD_expect ns 64 (y - 1) x (by omega) hx8, expect_north,
        show (nodeD ns (y - 1) x).walls.north = nAt ns (y - 1) x from rfl, (hsw (y - 1) x).1,
        show y - 1 + 1 = y by omega, hSt,
        decide_eq_true (show 8 * (y - 1) + x + 8 < 64 by omega),
        decide_eq_false (show ¬y - 1 = 7 by omega),
        decide_eq_true hy1]
      simp
  · -- north implies south on the northern neighbour
    rw [nodeAt_lit _ st im t md hrE y x hy8 hx8, nodeD_expect ns 64 y x hy8 hx8, expect_north,
      show (nodeD ns y x).walls.north = nAt ns y x from rfl, (hsw y x).1, hs0 x]
    by_cases hy7 : y = 7
    · rw [hy7, show (7 : Nat) + 1 = 8 from rfl, sAt_oob ns hr 8 x (Or.inl (by omega))]
      simp
    · rw [decide_eq_true (show 8 * y + x + 8 < 64 by omega), decide_eq_false hy7]
      rcases (Bool.eq_false_or_eq_true (sAt ns (y + 1) x)).symm with hSf | hSt
      · rw [hSf]
        simp
      · rw [hSt, show ((y : Nat) : Int) + 1 = ((y + 1 : Nat) : Int) by omega,
          nodeAt_lit _ st im t md hrE (y + 1) x (by omega) hx8,
          nodeD_expect ns 64 (y + 1) x (by omega) hx8, expect_south, hSt,
          decide_eq_true (show y ≤ 6 by omega)]
        simp

/-- Main normalisation result: any grid with only authoritative
south/west flags and no west flag in column 0 that survives board
construction is fully mirrored. -/
lemma initBoard_mirror (ns : List (List BoardNode)) (st : BoardState) (im : InitialMoves)
    (t : Int) (hr : rows8 ns) (hsw : onlySW ns) (hw : noBadW ns) (b : Board)
    (h : initBoard ns st im t = .ok b) : wallsMirroredB b = true := by
  obtain ⟨hb, hs0⟩ := initBoard_expect ns st im t hr hsw hw b h
  rw [hb]
  exact mirrored_expect64 ns st im t false hr hsw hw hs0
/-! Parser invariants: freshly parsed grids carry only authoritative
south/west flags, no west flag in column 0, no south flag in row 7,
and representable tiles. -/

lemma nAt_oob (ns : List (List BoardNode)) (hr : rows8 ns) (y x : Nat)
    (h : 8 ≤ y ∨ 8 ≤ x) : nAt ns y x = false := by
  unfold nAt
  rw [nodeD_oob8 ns hr y x h]
  rfl

lemma eAt_oob (ns : List (List BoardNode)) (hr : rows8 ns) (y x : Nat)
    (h : 8 ≤ y ∨ 8 ≤ x) : eAt ns y x = false := by
  unfold eAt
  rw [nodeD_oob8 ns hr y x h]
  rfl

lemma tileOk_junk : tileOk junkNode := by
  intro h
  exact Bool.noConfusion h.1

lemma tileOk_of_fields (a c : BoardNode) (h1 : a.contents = c.contents)
    (h2 : a.mined = c.mined) (h3 : a.trapdoor = c.trapdoor) (h : tileOk c) : tileOk a := by
  unfold tileOk at *
  rw [h1, h2, h3]
  exact h

lemma from_str_walls (c : Char) (node : BoardNode) (h : BoardNode.from_str c = some node) :
    node.walls = Walls.none0 ∧ tileOk node := by
  unfold BoardNode.from_str at h
  split_ifs at h
  · injection h with h2; subst h2; exact ⟨rfl, by simp [tileOk]⟩
  · injection h with h2; subst h2; exact ⟨rfl, by simp [tileOk]⟩
  · injection h with h2; subst h2; exact ⟨rfl, by simp [tileOk]⟩
  · injection h with h2; subst h2; exact ⟨rfl, by simp [tileOk]⟩
  · injection h with h2; subst h2; exact ⟨rfl, by simp [tileOk]⟩
  · rcases hp : Piece.from_str c with _ | p
    · rw [hp] at h; cases h
    · rw [hp] at h; injection h with h2; subst h2; exact ⟨rfl, ⟨rfl, rfl⟩⟩

lemma applyMods_walls : ∀ (mods : List Char) (pos : Position) (node node2 : BoardNode),
    applyNodeModifiers pos node mods = some node2 →
    node2.walls.north = node.walls.north ∧ node2.walls.east = node.walls.east ∧
      (pos.x = 0 → node2.walls.west = node.walls.west) ∧
      (pos.y = 7 → node2.walls.south = node.walls.south) ∧
      node2.contents = node.contents ∧ node2.mined = node.mined ∧
      node2.trapdoor = node.trapdoor := by
  intro mods
  induction mods with
  | nil =>
    intro pos node node2 h
    injection h with h2
    subst h2
    exact ⟨rfl, rfl, fun _ => rfl, fun _ => rfl, rfl, rfl, rfl⟩
  | cons c rest ih =>
    intro pos node node2 h
    unfold applyNodeModifiers at h
    by_cases hc : c = '|'
    · rw [if_pos hc] at h
      by_cases hx0 : pos.x = 0
      · rw [if_pos hx0] at h; cases h
      · rw [if_neg hx0] at h
        obtain ⟨h1, h2, h3, h4, h5, h6, h7⟩ := ih pos _ node2 h
        refine ⟨?_, ?_, ?_, ?_, ?_, ?_, ?_⟩
        · rw [h1]; rfl
        · rw [h2]; rfl
        · intro h0; exact absurd h0 hx0
        · intro h0; rw [h4 h0]; rfl
        · rw [h5]
        · rw [h6]
        · rw [h7]
    · rw [if_neg hc] at h
      by_cases hc2 : c = '_'
      · rw [if_pos hc2] at h
        by_cases hy7 : pos.y = 7
        · rw [if_pos hy7] at h; cases h
        · rw [if_neg hy7] at h
          obtain ⟨h1, h2, h3, h4, h5, h6, h7⟩ := ih pos _ node2 h
          refine ⟨?_, ?_, ?_, ?_, ?_, ?_, ?_⟩
          · rw [h1]; rfl
          · rw [h2]; rfl
          · intro h0; rw [h3 h0]; rfl
          · intro h0; exact absurd h0 hy7
          · rw [h5]
          · rw [h6]
          · rw [h7]
      · rw [if_neg hc2] at h; cases h

lemma parseRowGo_post (y rowLen : Int) : ∀ (toks : List (Char × List Char)) (x : Int)
    (acc row : List BoardNode), 8 < x →
    parseRowGo y rowLen toks x acc = .success row → row = acc := by
  intro toks
  induction toks with
  | nil =>
    intro x acc row hx h
    unfold parseRowGo at h
    exact (Result.success.inj h).symm
  | cons tk rest ih =>
    obtain ⟨c, mods⟩ := tk
    intro x acc row hx h
    unfold parseRowGo at h
    by_cases hc : c = '#'
    · rw [if_pos hc, if_pos (show x ≠ 8 by omega)] at h
      exact Result.noConfusion h
    · rw [if_neg hc, if_pos (show x > 7 by omega)] at h
      exact Result.noConfusion h

lemma rowTokensGo_hash : ∀ (cs : List Char) (mods : List Char), '#' ∈ cs →
    '#' ∈ (rowTokensGo cs mods).map Prod.fst := by
  intro cs
  induction cs with
  | nil => intro mods h; exact absurd h (by simp)
  | cons c rest ih =>
    intro mods h
    unfold rowTokensGo
    by_cases hc : c = '|' ∨ c = '_'
    · rw [if_pos hc]
      apply ih
      rcases List.mem_cons.mp h with h1 | h1
      · exfalso
        rcases hc with hc | hc <;> rw [hc] at h1 <;> exact absurd h1 (by decide)
      · exact h1
    · rw [if_neg hc]
      simp only [List.map_cons]
      rcases List.mem_cons.mp h with h1 | h1
      · subst h1; exact List.mem_cons_self _ _
      · exact List.mem_cons_of_mem _ (ih [] h1)

lemma rowTokens_hash (line : String) : '#' ∈ (rowTokens line).map Prod.fst := by
  unfold rowTokens
  exact rowTokensGo_hash _ [] (by simp)

lemma parseRowGo_spec (y rowLen : Int) :
    ∀ (toks : List (Char × List Char)) (acc row : List BoardNode),
    '#' ∈ toks.map Prod.fst →
    acc.length ≤ 8 →
    parseRowGo y rowLen toks ((acc.length : Nat) : Int) acc = .success row →
    row.length = 8 ∧
    (∀ i, i < acc.length → row.getD i junkNode = acc.getD i junkNode) ∧
    (∀ i, acc.length ≤ i → i < 8 → freshWalls y i (row.getD i junkNode)) := by
  intro toks
  induction toks with
  | nil =>
    intro acc row hmem
    exact absurd hmem (by simp)
  | cons tk rest ih =>
    obtain ⟨c, mods⟩ := tk
    intro acc row hmem hacc h
    unfold parseRowGo at h
    by_cases hc : c = '#'
    · rw [if_pos hc] at h
      by_cases h8 : ((acc.length : Nat) : Int) ≠ 8
      · rw [if_pos h8] at h
        exact Result.noConfusion h
      · rw [if_neg h8] at h
        have hacc8 : acc.length = 8 := by omega
        by_cases hm : mods.length > 0
        · rw [if_pos hm] at h
          exact Result.noConfusion h
        · rw [if_neg hm] at h
          have hrow := parseRowGo_post y rowLen rest (((acc.length : Nat) : Int) + 1)
            acc row (by omega) h
          subst hrow
          refine ⟨hacc8, fun i _ => rfl, ?_⟩
          intro i h1 h2
          rw [hacc8] at h1
          exact absurd h2 (by omega)
    · rw [if_neg hc] at h
      by_cases h7 : ((acc.length : Nat) : Int) > 7
      · rw [if_pos h7] at h
        exact Result.noConfusion h
      · rw [if_neg h7] at h
        have hlen7 : acc.length ≤ 7 := by omega
        rcases hbn : BoardNode.from_str c with _ | node
        · rw [hbn] at h
          dsimp only at h
          exact Result.noConfusion h
        · rw [hbn] at h
          dsimp only at h
          by_cases hmbad : mods.length > 2 ∨ (mods.length = 2 ∧ mods.get? 0 = mods.get? 1)
          · rw [if_pos hmbad] at h
            exact Result.noConfusion h
          · rw [if_neg hmbad] at h
            rcases ham : applyNodeModifiers ⟨((acc.length : Nat) : Int), y⟩ node mods
              with _ | node2
            · rw [ham] at h
              dsimp only at h
              exact Result.noConfusion h
            · rw [ham] at h
              dsimp only at h
              have hcast : ((acc.length : Nat) : Int) + 1 =
                  (((acc ++ [node2]).length : Nat) : Int) := by
                simp
              rw [hcast] at h
              have hmem' : '#' ∈ rest.map Prod.fst := by
                simp only [List.map_cons] at hmem
                rcases List.mem_cons.mp hmem with h1 | h1
                · exact absurd h1.symm hc
                · exact h1
              have hacclen : (acc ++ [node2]).length = acc.length + 1 := by simp
              obtain ⟨hl, hpre, hfresh⟩ := ih (acc ++ [node2]) row hmem'
                (by rw [hacclen]; omega) h
              refine ⟨hl, ?_, ?_⟩
              · intro i hi
                rw [hpre i (by rw [hacclen]; omega)]
                rw [List.getD_eq_getElem?_getD, List.getElem?_append, if_pos hi,
                  ← List.getD_eq_getElem?_getD]
              · intro i h1 h2
                by_cases hi : i = acc.length
                · rw [hpre i (by rw [hacclen]; omega)]
                  have hnode2 : (acc ++ [node2]).getD i junkNode = node2 := by
                    rw [hi, List.getD_eq_getElem?_getD,
                      List.getElem?_append_right (le_refl _)]
                    simp
                  rw [hnode2]
                  obtain ⟨hn, he, hw0, hs7, hct, hmi, htd⟩ :=
                    applyMods_walls mods ⟨((acc.length : Nat) : Int), y⟩ node node2 ham
                  obtain ⟨hwz, htok⟩ := from_str_walls c node hbn
                  refine ⟨?_, ?_, ?_, ?_, ?_⟩
                  · rw [hn, hwz]; rfl
                  · rw [he, hwz]; rfl
                  · intro hx0
                    rw [hw0 (show ((acc.length : Nat) : Int) = 0 by omega), hwz]; rfl
                  · intro hy7
                    rw [hs7 hy7, hwz]; rfl
                  · exact tileOk_of_fields node2 node hct hmi htd htok
                · exact hfresh i (by rw [hacclen]; omega) h2

lemma parseRowsGo_spec : ∀ (lines : List String) (y0 : Nat) (rows : List (List BoardNode)),
    parseRowsGo y0 lines = .success rows →
    rows.length = lines.length ∧
    ∀ i, i < rows.length →
      (rows.getD i []).length = 8 ∧
      ∀ x, x < 8 → freshWalls ((y0 + i : Nat) : Int) x ((rows.getD i []).getD x junkNode) := by
  intro lines
  induction lines with
  | nil =>
    intro y0 rows h
    unfold parseRowsGo at h
    have hr := Result.success.inj h
    subst hr
    refine ⟨rfl, ?_⟩
    intro i hi
    exact absurd hi (by simp)
  | cons line rest ih =>
    intro y0 rows h
    unfold parseRowsGo at h
    rcases hrow : parseRowGo (y0 : Int) ((rowTokens line).length : Int)
        (rowTokens line) 0 [] with row0 | msg
    · rw [hrow] at h
      dsimp only at h
      rcases hrest : parseRowsGo (y0 + 1) rest with rows' | msg
      · rw [hrest] at h
        dsimp only at h
        have hr := Result.success.inj h
        subst hr
        obtain ⟨hl', hall'⟩ := ih (y0 + 1) rows' hrest
        rw [show (0 : Int) = ((([] : List BoardNode).length : Nat) : Int) from rfl] at hrow
        obtain ⟨hl8, _, hfresh⟩ := parseRowGo_spec (y0 : Int)
          ((rowTokens line).length : Int) (rowTokens line) [] row0
          (rowTokens_hash line) (by simp) hrow
        refine ⟨by simp [hl'], ?_⟩
        intro i hi
        cases i with
        | zero =>
          refine ⟨hl8, ?_⟩
          intro x hx
          have hf := hfresh x (by simp) hx
          rw [show ((y0 + 0 : Nat) : Int) = (y0 : Int) by omega]
          exact hf
        | succ j =>
          have hj : j < rows'.length := by
            simp only [List.length_cons] at hi
            omega
          refine ⟨(hall' j hj).1, ?_⟩
          intro x hx
          have h2 := (hall' j hj).2 x hx
          rw [show ((y0 + (j + 1) : Nat) : Int) = ((y0 + 1 + j : Nat) : Int) by omega]
          exact h2
      · rw [hrest] at h
        dsimp only at h
        exact Result.noConfusion h
    · rw [hrow] at h
      dsimp only at h
      exact Result.noConfusion h

lemma parsed_gridOk (lines : List String) (rows : List (List BoardNode))
    (hlen : lines.length = 8) (h : parseRows lines = .success rows) :
    rows8 rows ∧ onlySW rows ∧ noBadW rows ∧ noS7 rows ∧ tilesOk rows := by
  unfold parseRows at h
  obtain ⟨hl, hall⟩ := parseRowsGo_spec lines 0 rows h
  have hr8 : rows.length = 8 := by rw [hl, hlen]
  have hrows8 : rows8 rows := by
    refine ⟨hr8, ?_⟩
    intro r hrm
    obtain ⟨i, hi, hri⟩ := List.getElem_of_mem hrm
    have hfact := (hall i (by omega)).1
    rw [getD_lt (by omega) []] at hfact
    rw [hri] at hfact
    exact hfact
  have hcell : ∀ y x, y < 8 → x < 8 →
      freshWalls ((0 + y : Nat) : Int) x (nodeD rows y x) := by
    intro y x hy hx
    exact (hall y (by omega)).2 x hx
  refine ⟨hrows8, ?_, ?_, ?_, ?_⟩
  · intro y x
    by_cases hy : y < 8
    · by_cases hx : x < 8
      · have hfw := hcell y x hy hx
        exact ⟨hfw.1, hfw.2.1⟩
      · exact ⟨nAt_oob rows hrows8 y x (Or.inr (by omega)),
          eAt_oob rows hrows8 y x (Or.inr (by omega))⟩
    · exact ⟨nAt_oob rows hrows8 y x (Or.inl (by omega)),
        eAt_oob rows hrows8 y x (Or.inl (by omega))⟩
  · intro y
    by_cases hy : y < 8
    · have hfw := hcell y 0 hy (by omega)
      exact hfw.2.2.1 rfl
    · exact wAt_oob rows hrows8 y 0 (Or.inl (by omega))
  · intro x
    by_cases hx : x < 8
    · have hfw := hcell 7 x (by omega) hx
      exact hfw.2.2.2.1 (by norm_num)
    · exact sAt_oob rows hrows8 7 x (Or.inr (by omega))
  · intro y x
    by_cases hy : y < 8
    · by_cases hx : x < 8
      · exact (hcell y x hy hx).2.2.2.2
      · rw [nodeD_oob8 rows hrows8 y x (Or.inr (by omega))]
        exact tileOk_junk
    · rw [nodeD_oob8 rows hrows8 y x (Or.inl (by omega))]
      exact tileOk_junk

lemma fromStrsMain_ok (init : Bool) (strings : List String) (b : Board)
    (h : fromStrsMain init strings = .ok (.success b)) :
    ∃ rows st statusLine,
      rows8 rows ∧ onlySW rows ∧ noBadW rows ∧ noS7 rows ∧ tilesOk rows ∧
      strings.get? 8 = some statusLine ∧
      BoardState.from_str statusLine = .ok (.success st) ∧
      initBoard rows st (InitialMoves.fromInit init) 1 = .ok b := by
  unfold fromStrsMain at h
  rcases hp : parseRows (strings.take 8) with rows | msg
  · rw [hp] at h
    dsimp only at h
    rcases hg : strings.get? 8 with _ | statusLine
    · rw [hg] at h
      dsimp only at h
      exact Py.noConfusion h
    · rw [hg] at h
      dsimp only at h
      obtain ⟨res, hres, h2⟩ := py_bind_ok h
      rcases res with state | msg
      · dsimp only at h2
        by_cases h9 : strings.length > 9
        · rw [if_pos h9] at h2
          exact Result.noConfusion (Py.ok.inj h2)
        · rw [if_neg h9] at h2
          obtain ⟨board, hib, hpb⟩ := py_bind_ok h2
          have hbb := Result.success.inj (Py.ok.inj hpb)
          have hlen8 : (strings.take 8).length = 8 := by
            obtain ⟨hlt, _⟩ := List.get?_eq_some.mp hg
            rw [List.length_take]
            omega
          obtain ⟨hr8, hsw, hw, hs7, htk⟩ := parsed_gridOk (strings.take 8) rows hlen8 hp
          refine ⟨rows, state, statusLine, hr8, hsw, hw, hs7, htk, rfl, hres, ?_⟩
          rw [hbb] at hib
          exact hib
      · dsimp only at h2
        exact Result.noConfusion (Py.ok.inj h2)
  · rw [hp] at h
    dsimp only at h
    exact Result.noConfusion (Py.ok.inj h)
/-- Claim C2 (confirmed): wall symmetry.  Every board that
Board.from_strs successfully constructs from text satisfies the
mirroring invariant (a WEST flag is accompanied by an EAST flag on the
western neighbour and a SOUTH flag by a NORTH flag on the paired
neighbour, and conversely): the parser only admits south/west flags
with no west wall in column 0, and a surviving normalise_walls pass
mirrors every flag (a grid it cannot mirror, a south wall in row 0,
raises IndexError so no board is returned).  The boards reached by
valid PlaceWall moves satisfy the invariant vacuously: validate_move
never returns Success for a PlaceWall move (reading the missing wall
attribute raises AttributeError first). -/
theorem c2_wall_symmetry :
    (∀ (strings : List String) (b : Board),
        Board.from_strs strings = .ok (.success b) → wallsMirroredB b = true) ∧
    (∀ (b : Board) (p : Player) (o d : Position) (m : Move),
        (b.validate_move (mkPlaceWall p o d)).1 ≠ .success m) := by
  constructor
  · intro strings b h
    unfold Board.from_strs at h
    by_cases hs : strings = stdStrs
    · rw [if_pos hs] at h
      obtain ⟨rows, st, sl, hr, hsw, hw, _, _, _, _, hib⟩ := fromStrsMain_ok true stdStrs b h
      exact initBoard_mirror rows st _ 1 hr hsw hw b hib
    · rw [if_neg hs] at h
      obtain ⟨rows, st, sl, hr, hsw, hw, _, _, _, _, hib⟩ := fromStrsMain_ok false strings b h
      exact initBoard_mirror rows st _ 1 hr hsw hw b hib
  · intro b p o d m
    unfold Board.validate_move mkPlaceWall
    dsimp only
    repeat' split
    all_goals simp

/-- Witness for claim C2: the modified fixture board (with a south and
a west wall in its third row) parses successfully and the parsed board
satisfies the mirroring invariant; the PlaceWall fixture move is never
validated successfully on the standard board. -/
theorem c2_wall_symmetry_witness :
    Board.from_strs modStrs = .ok (.success modB) ∧
      wallsMirroredB modB = true ∧
      (stdB.validate_move pwMove).1 ≠ .success pwMove :=
  ⟨by decide, c2_wall_symmetry.1 modStrs modB (by decide),
    c2_wall_symmetry.2 stdB .WHITE (P 1 6) (P 0 6) pwMove⟩
/-! Move.__eq__ is an equivalence on (player, origin, destination). -/

lemma moveEq_iff (a c : Move) :
    Move.eq a c = true ↔
      (a.player = c.player ∧ a.origin = c.origin ∧ a.destination = c.destination) := by
  unfold Move.eq
  simp [Bool.and_eq_true, and_assoc]

lemma moveEq_refl (m : Move) : Move.eq m m = true := by
  rw [moveEq_iff]
  exact ⟨rfl, rfl, rfl⟩

lemma moveEq_symm {a c : Move} (h : Move.eq a c = true) : Move.eq c a = true := by
  rw [moveEq_iff] at *
  obtain ⟨h1, h2, h3⟩ := h
  exact ⟨h1.symm, h2.symm, h3.symm⟩

lemma moveEq_trans {a c e : Move} (h1 : Move.eq a c = true) (h2 : Move.eq c e = true) :
    Move.eq a e = true := by
  rw [moveEq_iff] at *
  obtain ⟨p1, o1, d1⟩ := h1
  obtain ⟨p2, o2, d2⟩ := h2
  exact ⟨p1.trans p2, o1.trans o2, d1.trans d2⟩

/-! list.remove(move) under Move.__eq__: count bookkeeping. -/

lemma removeFirstEq_subset (m' : Move) :
    ∀ (l : List Move) (m : Move), m ∈ removeFirstEq l m' → m ∈ l := by
  intro l
  induction l with
  | nil => intro m hm; exact absurd hm (by simp [removeFirstEq])
  | cons a rest ih =>
    intro m hm
    unfold removeFirstEq at hm
    by_cases ha : Move.eq m' a = true
    · rw [if_pos ha] at hm
      exact List.mem_cons_of_mem _ hm
    · rw [if_neg ha] at hm
      rcases List.mem_cons.mp hm with h1 | h1
      · exact h1 ▸ List.mem_cons_self _ _
      · exact List.mem_cons_of_mem _ (ih m h1)

lemma removeFirstEq_countP_eq (m' : Move) :
    ∀ (l : List Move) (m : Move), Move.eq m m' = true →
    0 < l.countP (fun a => Move.eq m' a) →
    (removeFirstEq l m').countP (fun a => Move.eq m a) =
      l.countP (fun a => Move.eq m a) - 1 := by
  intro l
  induction l with
  | nil => intro m hm h0; simp at h0
  | cons a rest ih =>
    intro m hm h0
    unfold removeFirstEq
    by_cases ha : Move.eq m' a = true
    · rw [if_pos ha]
      have hma : Move.eq m a = true := moveEq_trans hm ha
      simp [List.countP_cons, hma]
    · rw [if_neg ha]
      have hma : Move.eq m a = false := by
        rcases (Bool.eq_false_or_eq_true (Move.eq m a)).symm with hf | ht
        · exact hf
        · exact absurd (moveEq_trans (moveEq_symm hm) ht) ha
      rw [List.countP_cons] at h0
      rw [List.countP_cons, List.countP_cons]
      simp only [hma, if_false, Bool.false_eq_true, Nat.add_zero]
      simp only [ha, if_false, Bool.false_eq_true, Nat.add_zero] at h0
      have hrest : 0 < rest.countP (fun a => Move.eq m' a) := h0
      have := ih m hm hrest
      omega

lemma removeFirstEq_countP_ne (m' : Move) :
    ∀ (l : List Move) (m : Move), Move.eq m m' = false →
    (removeFirstEq l m').countP (fun a => Move.eq m a) =
      l.countP (fun a => Move.eq m a) := by
  intro l
  induction l with
  | nil => intro m hm; rfl
  | cons a rest ih =>
    intro m hm
    unfold removeFirstEq
    by_cases ha : Move.eq m' a = true
    · rw [if_pos ha]
      have hma : Move.eq m a = false := by
        rcases (Bool.eq_false_or_eq_true (Move.eq m a)).symm with hf | ht
        · exact hf
        · have : Move.eq m m' = true := moveEq_trans ht (moveEq_symm ha)
          rw [this] at hm
          cases hm
      rw [List.countP_cons]
      simp [hma]
    · rw [if_neg ha]
      rw [List.countP_cons, List.countP_cons, ih m hm]

lemma popFirstAttacked_subset (popped : Board) (opp : Player) :
    ∀ (l : List Move) (m : Move), m ∈ popFirstAttacked popped opp l → m ∈ l := by
  intro l
  induction l with
  | nil => intro m hm; exact absurd hm (by simp [popFirstAttacked])
  | cons a rest ih =>
    intro m hm
    unfold popFirstAttacked at hm
    by_cases ha : (!(popped.being_attacked_at a.destination opp).isEmpty) = true
    · rw [if_pos ha] at hm
      exact List.mem_cons_of_mem _ hm
    · rw [if_neg ha] at hm
      rcases List.mem_cons.mp hm with h1 | h1
      · exact h1 ▸ List.mem_cons_self _ _
      · exact List.mem_cons_of_mem _ (ih m h1)

/-! The simulate-and-filter loop. -/

lemma simulateGo_sub (b : Board) (player : Player) :
    ∀ (rest acc res : List Move), simulateGo b player rest acc = .ok res →
    ∀ m ∈ res, m ∈ acc := by
  intro rest
  induction rest with
  | nil =>
    intro acc res h m hm
    unfold simulateGo at h
    rw [Py.ok.inj h]
    exact hm
  | cons m' rest' ih =>
    intro acc res h m hm
    unfold simulateGo at h
    rcases happ : b.apply_move m' with ⟨dummy, sa⟩ | ⟨e, sa⟩
    · rw [happ] at h
      dsimp only at h
      by_cases hchk : dummy.in_check player = true
      · rw [if_pos hchk] at h
        exact removeFirstEq_subset m' acc m (ih _ res h m hm)
      · rw [if_neg hchk] at h
        exact ih _ res h m hm
    · rw [happ] at h
      dsimp only at h
      exact Py.noConfusion h

lemma simulateGo_applied (b : Board) (player : Player) :
    ∀ (rest acc res : List Move), simulateGo b player rest acc = .ok res →
    ∀ m ∈ rest, ∃ dummy sa, b.apply_move m = .aok dummy sa := by
  intro rest
  induction rest with
  | nil => intro acc res _ m hm; exact absurd hm (by simp)
  | cons m' rest' ih =>
    intro acc res h m hm
    unfold simulateGo at h
    rcases happ : b.apply_move m' with ⟨dummy, sa⟩ | ⟨e, sa⟩
    · rw [happ] at h
      dsimp only at h
      rcases List.mem_cons.mp hm with h1 | h1
      · exact ⟨dummy, sa, h1 ▸ happ⟩
      · by_cases hchk : dummy.in_check player = true
        · rw [if_pos hchk] at h
          exact ih _ res h m h1
        · rw [if_neg hchk] at h
          exact ih _ res h m h1
    · rw [happ] at h
      dsimp only at h
      exact Py.noConfusion h

/-- Core filter property: with safety uniform across Move.__eq__
classes of the snapshot, every unsafe class keeps its acc-count equal
to its remaining-snapshot count, so no unsafe move survives. -/
lemma simulateGo_safe (b : Board) (player : Player) (pot : List Move)
    (huni : ∀ m m', m ∈ pot → m' ∈ pot → Move.eq m m' = true →
      (simSafe b player m ↔ simSafe b player m')) :
    ∀ (rest acc res : List Move),
      (∀ m ∈ rest, m ∈ pot) → (∀ m ∈ acc, m ∈ pot) →
      (∀ m, m ∈ pot → ¬simSafe b player m →
        acc.countP (fun a => Move.eq m a) = rest.countP (fun a => Move.eq m a)) →
      simulateGo b player rest acc = .ok res →
      ∀ m, m ∈ res → simSafe b player m := by
  intro rest
  induction rest with
  | nil =>
    intro acc res _ hacc hcnt h m hm
    unfold simulateGo at h
    have hra : acc = res := Py.ok.inj h
    by_contra hns
    have hmacc : m ∈ acc := by rw [hra]; exact hm
    have h0 := hcnt m (hacc m hmacc) hns
    have h1 : 0 < acc.countP (fun a => Move.eq m a) :=
      List.countP_pos_iff.mpr ⟨m, hmacc, moveEq_refl m⟩
    rw [h0] at h1
    simp at h1
  | cons m' rest' ih =>
    intro acc res hrest hacc hcnt h m hm
    unfold simulateGo at h
    have hm'pot : m' ∈ pot := hrest m' (List.mem_cons_self _ _)
    rcases happ : b.apply_move m' with ⟨dummy, sa⟩ | ⟨e, sa⟩
    · rw [happ] at h
      dsimp only at h
      by_cases hchk : dummy.in_check player = true
      · rw [if_pos hchk] at h
        have hns' : ¬simSafe b player m' := by
          intro hs
          rw [hs dummy sa happ] at hchk
          cases hchk
        have hposc : 0 < acc.countP (fun a => Move.eq m' a) := by
          rw [hcnt m' hm'pot hns', List.countP_cons]
          simp [moveEq_refl m']
        refine ih (removeFirstEq acc m') res
          (fun q hq => hrest q (List.mem_cons_of_mem _ hq))
          (fun q hq => hacc q (removeFirstEq_subset m' acc q hq)) ?_ h m hm
        intro q hq hqs
        by_cases heq : Move.eq q m' = true
        · rw [removeFirstEq_countP_eq m' acc q heq hposc]
          have h1 := hcnt q hq hqs
          rw [List.countP_cons] at h1
          simp only [heq, if_true] at h1
          omega
        · have heqf : Move.eq q m' = false := by
            rcases (Bool.eq_false_or_eq_true (Move.eq q m')).symm with hf | ht
            · exact hf
            · exact absurd ht heq
          rw [removeFirstEq_countP_ne m' acc q heqf]
          have h1 := hcnt q hq hqs
          rw [List.countP_cons] at h1
          simp only [heqf, if_false, Bool.false_eq_true, Nat.add_zero] at h1
          exact h1
      · rw [if_neg hchk] at h
        have hs' : simSafe b player m' := by
          intro dummy' sa' happ'
          rw [happ] at happ'
          injection happ' with e1 e2
          rcases (Bool.eq_false_or_eq_true (dummy.in_check player)).symm with hf | ht
          · rw [← e1]
            exact hf
          · exact absurd ht hchk
        refine ih acc res (fun q hq => hrest q (List.mem_cons_of_mem _ hq)) hacc ?_ h m hm
        intro q hq hqs
        have heqf : Move.eq q m' = false := by
          rcases (Bool.eq_false_or_eq_true (Move.eq q m')).symm with hf | ht
          · exact hf
          · exact absurd ((huni q m' hq hm'pot ht).mpr hs') hqs
        have h1 := hcnt q hq hqs
        rw [List.countP_cons] at h1
        simp only [heqf, if_false, Bool.false_eq_true, Nat.add_zero] at h1
        exact h1
    · rw [happ] at h
      dsimp only at h
      exact Py.noConfusion h
/-! Shapes of generated candidates. -/

lemma mem_ite_nil {α : Type} {c : Prop} [hdec : Decidable c] {l : List α} {m : α}
    (h : m ∈ (if c then l else [])) : m ∈ l := by
  split at h
  · exact h
  · exact absurd h (by simp)

lemma apply_semi_eq_move (b : Board) (p : Player) (o d : Position) :
    b.apply_move ⟨.semiPromotion, p, o, d⟩ = b.apply_move ⟨.move, p, o, d⟩ := by
  unfold Board.apply_move
  rcases hcopy : b.copy with nb0 | e
  · rfl
  · rfl

lemma apply_move_kind_swap (b : Board) (m : Move)
    (h1 : m.kind = .move ∨ m.kind = .semiPromotion) :
    b.apply_move m = b.apply_move ⟨.move, m.player, m.origin, m.destination⟩ := by
  obtain ⟨k, p, o, d⟩ := m
  rcases h1 with h1 | h1 <;> dsimp only at h1 <;> subst h1
  · rfl
  · exact apply_semi_eq_move b p o d

lemma pawnCandidates_shape (b : Board) (player : Player) (position : Position) (m : Move)
    (hm : m ∈ pawnCandidates b player position) :
    m.player = player ∧ m.origin = position ∧
      (m.kind = .move ∨ m.kind = .semiPromotion) := by
  unfold pawnCandidates at hm
  dsimp only at hm
  rcases List.mem_append.mp hm with h | hep
  · rcases List.mem_append.mp h with hf | hd
    · have hf2 := mem_ite_nil hf
      rcases List.mem_append.mp hf2 with h1 | h2
      · by_cases hpr : position.y = promoRank player
        · rw [if_pos hpr] at h1
          rw [List.mem_singleton] at h1
          subst h1
          exact ⟨rfl, rfl, Or.inr rfl⟩
        · rw [if_neg hpr] at h1
          rw [List.mem_singleton] at h1
          subst h1
          exact ⟨rfl, rfl, Or.inl rfl⟩
      · have h3 := mem_ite_nil h2
        rw [List.mem_singleton] at h3
        subst h3
        exact ⟨rfl, rfl, Or.inl rfl⟩
    · obtain ⟨xo, _, hbody⟩ := List.mem_flatMap.mp hd
      have hb2 := mem_ite_nil hbody
      rcases hc2 : (b.nodeAt (position + P 0 player.value + xo)).contents with _ | opp
      · rw [hc2] at hb2
        dsimp only at hb2
        exact absurd hb2 (by simp)
      · rw [hc2] at hb2
        dsimp only at hb2
        have hb3 := mem_ite_nil hb2
        by_cases hpr : position.y = promoRank player
        · rw [if_pos hpr] at hb3
          rw [List.mem_singleton] at hb3
          subst hb3
          exact ⟨rfl, rfl, Or.inr rfl⟩
        · rw [if_neg hpr] at hb3
          rw [List.mem_singleton] at hb3
          subst hb3
          exact ⟨rfl, rfl, Or.inl rfl⟩
  · rcases hen : b.state.enpassant with _ | t
    · rw [hen] at hep
      dsimp only at hep
      exact absurd hep (by simp)
    · rw [hen] at hep
      dsimp only at hep
      have h2 := mem_ite_nil hep
      obtain ⟨xo, _, hbody⟩ := List.mem_flatMap.mp h2
      have h3 := mem_ite_nil hbody
      rw [List.mem_singleton] at h3
      subst h3
      exact ⟨rfl, rfl, Or.inl rfl⟩

lemma flatMap_mkMove_shape (player : Player) (position : Position) (ns : List Position)
    (f : Position → Bool) (q : Move)
    (hq : q ∈ ns.flatMap (fun neighbour =>
      if f neighbour then [mkMove player position neighbour] else [])) :
    q.kind = .move ∧ q.player = player ∧ q.origin = position ∧ q.destination ∈ ns := by
  obtain ⟨n, hn, hbody⟩ := List.mem_flatMap.mp hq
  have h2 := mem_ite_nil hbody
  rw [List.mem_singleton] at h2
  subst h2
  exact ⟨rfl, rfl, rfl, hn⟩

lemma kingCandidates_shape (b : Board) (player : Player) (position : Position) (m : Move)
    (hm : m ∈ kingCandidates b player position) :
    (m.kind = .move ∧ m.player = player ∧ m.origin = position ∧
      m.destination ∈ b.get_neighbours position) ∨
    m = mkKingCastle player ∨ m = mkQueenCastle player := by
  unfold kingCandidates at hm
  dsimp only at hm
  have hbase : ∀ q : Move,
      q ∈ (b.get_neighbours position).flatMap (fun neighbour =>
        if (match (b.nodeAt neighbour).contents with
            | some target => decide (target.owner ≠ player)
            | none => true) && !b.wall_blocked position (neighbour - position)
        then [mkMove player position neighbour] else []) →
      q.kind = .move ∧ q.player = player ∧ q.origin = position ∧
        q.destination ∈ b.get_neighbours position := by
    intro q hq
    exact flatMap_mkMove_shape player position _ _ q hq
  by_cases hqc : b.state.queenCastle player ∧
      castlePathOk b player position
        [position + P (-1) 0, position + P (-2) 0, position + P (-3) 0] = true
  · rw [if_pos hqc] at hm
    rcases List.mem_append.mp hm with h1 | h2
    · by_cases hkc : b.state.kingCastle player ∧
          castlePathOk b player position [position + P 1 0, position + P 2 0] = true
      · rw [if_pos hkc] at h1
        rcases List.mem_append.mp h1 with h3 | h4
        · exact Or.inl (hbase m (popFirstAttacked_subset _ _ _ m h3))
        · rw [List.mem_singleton] at h4
          exact Or.inr (Or.inl h4)
      · rw [if_neg hkc] at h1
        exact Or.inl (hbase m (popFirstAttacked_subset _ _ _ m h1))
    · rw [List.mem_singleton] at h2
      exact Or.inr (Or.inr h2)
  · rw [if_neg hqc] at hm
    by_cases hkc : b.state.kingCastle player ∧
        castlePathOk b player position [position + P 1 0, position + P 2 0] = true
    · rw [if_pos hkc] at hm
      rcases List.mem_append.mp hm with h3 | h4
      · exact Or.inl (hbase m (popFirstAttacked_subset _ _ _ m h3))
      · rw [List.mem_singleton] at h4
        exact Or.inr (Or.inl h4)
    · rw [if_neg hkc] at hm
      exact Or.inl (hbase m (popFirstAttacked_subset _ _ _ m hm))

lemma mem_neighbours_dx (b : Board) (p q : Position) (h : q ∈ b.get_neighbours p) :
    q.x = p.x + 1 ∨ q.x = p.x - 1 ∨ q.x = p.x := by
  unfold Board.get_neighbours at h
  rw [List.mem_filter] at h
  obtain ⟨h1, _⟩ := h
  simp only [List.mem_cons, List.not_mem_nil, or_false] at h1
  rcases h1 with rfl | rfl | rfl | rfl | rfl | rfl | rfl | rfl <;> simp

lemma castleOrigin_x (p : Player) : (castleOrigin p).x = 4 := by
  cases p <;> rfl

lemma knightBranch_shape (b : Board) (player : Player) (position : Position) (m : Move)
    (hm : m ∈ knightOffsets.flatMap (fun offset =>
      let pot_pos := position + offset
      if Board.on_board pot_pos then
        match (b.nodeAt pot_pos).contents with
        | some opp => if opp.owner ≠ player then [mkMove player position pot_pos] else []
        | none => [mkMove player position pot_pos]
      else [])) :
    m.kind = .move ∧ m.player = player ∧ m.origin = position := by
  obtain ⟨off, _, hbody⟩ := List.mem_flatMap.mp hm
  dsimp only at hbody
  have hb2 := mem_ite_nil hbody
  rcases hc2 : (b.nodeAt (position + off)).contents with _ | opp
  · rw [hc2] at hb2
    dsimp only at hb2
    rw [List.mem_singleton] at hb2
    subst hb2
    exact ⟨rfl, rfl, rfl⟩
  · rw [hc2] at hb2
    dsimp only at hb2
    have hb3 := mem_ite_nil hb2
    rw [List.mem_singleton] at hb3
    subst hb3
    exact ⟨rfl, rfl, rfl⟩

/-- Uniformity: two generated candidates that Move.__eq__ identifies
have identical provisional applications (apply_move never reads the
kind difference the comparison is blind to within one piece's
candidate list). -/
lemma genCandidates_apply_eq (b : Board) (position : Position) (m m' : Move)
    (hm : m ∈ genCandidates b position) (hm' : m' ∈ genCandidates b position)
    (heq : Move.eq m m' = true) : b.apply_move m = b.apply_move m' := by
  unfold genCandidates at hm hm'
  rw [moveEq_iff] at heq
  obtain ⟨hp, ho, hd⟩ := heq
  have finisher : (m.kind = .move ∨ m.kind = .semiPromotion) →
      (m'.kind = .move ∨ m'.kind = .semiPromotion) →
      b.apply_move m = b.apply_move m' := by
    intro h1 h2
    rw [apply_move_kind_swap b m h1, apply_move_kind_swap b m' h2, hp, ho, hd]
  rcases hct : (b.nodeAt position).contents with _ | actor
  · rw [hct] at hm
    dsimp only at hm
    exact absurd hm (by simp)
  · rw [hct] at hm hm'
    dsimp only at hm hm'
    cases hak : actor.kind with
    | pawn =>
      rw [hak] at hm hm'
      dsimp only at hm hm'
      obtain ⟨_, _, hk1⟩ := pawnCandidates_shape b actor.owner position m hm
      obtain ⟨_, _, hk2⟩ := pawnCandidates_shape b actor.owner position m' hm'
      exact finisher hk1 hk2
    | knight =>
      rw [hak] at hm hm'
      dsimp only at hm hm'
      obtain ⟨hk1, _, _⟩ := knightBranch_shape b actor.owner position m hm
      obtain ⟨hk2, _, _⟩ := knightBranch_shape b actor.owner position m' hm'
      exact finisher (Or.inl hk1) (Or.inl hk2)
    | bishop =>
      rw [hak] at hm hm'
      dsimp only at hm hm'
      obtain ⟨q, _, hq⟩ := List.mem_map.mp hm
      obtain ⟨q', _, hq'⟩ := List.mem_map.mp hm'
      exact finisher (Or.inl (by rw [← hq]; rfl)) (Or.inl (by rw [← hq']; rfl))
    | rook =>
      rw [hak] at hm hm'
      dsimp only at hm hm'
      obtain ⟨q, _, hq⟩ := List.mem_map.mp hm
      obtain ⟨q', _, hq'⟩ := List.mem_map.mp hm'
      exact finisher (Or.inl (by rw [← hq]; rfl)) (Or.inl (by rw [← hq']; rfl))
    | queen =>
      rw [hak] at hm hm'
      dsimp only at hm hm'
      obtain ⟨q, _, hq⟩ := List.mem_map.mp hm
      obtain ⟨q', _, hq'⟩ := List.mem_map.mp hm'
      exact finisher (Or.inl (by rw [← hq]; rfl)) (Or.inl (by rw [← hq']; rfl))
    | king =>
      rw [hak] at hm hm'
      dsimp only at hm hm'
      rcases kingCandidates_shape b actor.owner position m hm with hb1 | hc1 | hc1 <;>
        rcases kingCandidates_shape b actor.owner position m' hm' with hb2 | hc2 | hc2
      · exact finisher (Or.inl hb1.1) (Or.inl hb2.1)
      · exfalso
        have hdx := mem_neighbours_dx b position m.destination hb1.2.2.2
        have h6 : m.destination.x = 6 := by rw [hd, hc2]; rfl
        have h4 : position.x = 4 := by
          rw [← hb1.2.2.1, ho, hc2]
          exact castleOrigin_x actor.owner
        omega
      · exfalso
        have hdx := mem_neighbours_dx b position m.destination hb1.2.2.2
        have h6 : m.destination.x = 2 := by rw [hd, hc2]; rfl
        have h4 : position.x = 4 := by
          rw [← hb1.2.2.1, ho, hc2]
          exact castleOrigin_x actor.owner
        omega
      · exfalso
        have hdx := mem_neighbours_dx b position m'.destination hb2.2.2.2
        have h6 : m'.destination.x = 6 := by rw [← hd, hc1]; rfl
        have h4 : position.x = 4 := by
          rw [← hb2.2.2.1, ← ho, hc1]
          exact castleOrigin_x actor.owner
        omega
      · rw [hc1, hc2]
      · exfalso
        rw [hc1, hc2] at hd
        have h62 := congrArg Position.x hd
        dsimp [mkKingCastle, mkQueenCastle] at h62
        exact absurd h62 (by decide)
      · exfalso
        have hdx := mem_neighbours_dx b position m'.destination hb2.2.2.2
        have h6 : m'.destination.x = 2 := by rw [← hd, hc1]; rfl
        have h4 : position.x = 4 := by
          rw [← hb2.2.2.1, ← ho, hc1]
          exact castleOrigin_x actor.owner
        omega
      · exfalso
        rw [hc1, hc2] at hd
        have h62 := congrArg Position.x hd
        dsimp [mkKingCastle, mkQueenCastle] at h62
        exact absurd h62 (by decide)
      · rw [hc1, hc2]

/-- Claim C3 (confirmed): the simulate-and-filter step of get_moves.
Every candidate surviving get_moves applies successfully and leaves
the moving piece owner's king out of check: within one piece's
candidate list the kind-blind Move.__eq__ used by list.remove only
identifies moves with identical provisional applications, so removing
the first __eq__-equal entry removes exactly one member of the same
equal-application class and no unsafe candidate survives the loop. -/
theorem c3_simulate_filter :
    ∀ (b : Board) (position : Position) (actor : Piece) (l : List Move),
      (b.nodeAt position).contents = some actor →
      b.get_moves position = .ok l →
      ∀ m ∈ l, (∃ dummy sa, b.apply_move m = .aok dummy sa) ∧
        (∀ dummy sa, b.apply_move m = .aok dummy sa →
          dummy.in_check actor.owner = false) := by
  intro b position actor l hct hgm m hm
  unfold Board.get_moves at hgm
  rw [hct] at hgm
  dsimp only at hgm
  have huni : ∀ q q', q ∈ genCandidates b position → q' ∈ genCandidates b position →
      Move.eq q q' = true → (simSafe b actor.owner q ↔ simSafe b actor.owner q') := by
    intro q q' hq hq' he
    unfold simSafe
    rw [genCandidates_apply_eq b position q q' hq hq' he]
  have hsafe := simulateGo_safe b actor.owner (genCandidates b position) huni
    (genCandidates b position) (genCandidates b position) l
    (fun q hq => hq) (fun q hq => hq) (fun q _ _ => rfl) hgm m hm
  have happ := simulateGo_applied b actor.owner (genCandidates b position)
    (genCandidates b position) l hgm m
    (simulateGo_sub b actor.owner _ _ l hgm m hm)
  exact ⟨happ, fun dummy sa h => hsafe dummy sa h⟩

/-- Witness for claim C3: on the standard board the knight on b1
generates exactly the moves to c3 and a3, and the surviving candidate
b1-a3 applies successfully to a position with White not in check. -/
theorem c3_simulate_filter_witness :
    (stdB.nodeAt (P 1 7)).contents = some ⟨PieceKind.knight, Player.WHITE⟩ ∧
    stdB.get_moves (P 1 7) =
      .ok [mkMove .WHITE (P 1 7) (P 2 5), mkMove .WHITE (P 1 7) (P 0 5)] ∧
    ((∃ dummy sa, stdB.apply_move (mkMove .WHITE (P 1 7) (P 0 5)) = .aok dummy sa) ∧
      (∀ dummy sa, stdB.apply_move (mkMove .WHITE (P 1 7) (P 0 5)) = .aok dummy sa →
        dummy.in_check Player.WHITE = false)) :=
  ⟨by decide, by decide,
    c3_simulate_filter stdB (P 1 7) ⟨PieceKind.knight, Player.WHITE⟩
      [mkMove .WHITE (P 1 7) (P 2 5), mkMove .WHITE (P 1 7) (P 0 5)]
      (by decide) (by decide) (mkMove .WHITE (P 1 7) (P 0 5)) (by decide)⟩
/-! str.split() evaluation. -/

lemma sgo_nil (cur : List Char) (acc : List String) :
    splitWsGo [] cur acc = if cur.isEmpty then acc else acc ++ [String.mk cur.reverse] := rfl

lemma sgo_ws (c : Char) (rest cur : List Char) (acc : List String)
    (h : c = ' ' ∨ c = '\t' ∨ c = '\n') :
    splitWsGo (c :: rest) cur acc =
      if cur.isEmpty then splitWsGo rest [] acc
      else splitWsGo rest [] (acc ++ [String.mk cur.reverse]) := by
  conv_lhs => unfold splitWsGo
  rw [if_pos h]

lemma sgo_nonws (c : Char) (rest cur : List Char) (acc : List String)
    (h : ¬(c = ' ' ∨ c = '\t' ∨ c = '\n')) :
    splitWsGo (c :: rest) cur acc = splitWsGo rest (c :: cur) acc := by
  conv_lhs => unfold splitWsGo
  rw [if_neg h]

lemma sgo_run : ∀ (tok rest cur : List Char) (acc : List String),
    (∀ c ∈ tok, ¬(c = ' ' ∨ c = '\t' ∨ c = '\n')) →
    splitWsGo (tok ++ rest) cur acc = splitWsGo rest (tok.reverse ++ cur) acc := by
  intro tok
  induction tok with
  | nil => intro rest cur acc _; rfl
  | cons c cs ih =>
    intro rest cur acc h
    rw [List.cons_append, sgo_nonws c _ cur acc (h c (by simp)),
      ih rest (c :: cur) acc (fun d hd => h d (by simp [hd]))]
    simp

lemma sgo_tok (t : String) (rest : List Char) (acc : List String)
    (hne : t.data ≠ [])
    (hws : ∀ c ∈ t.data, ¬(c = ' ' ∨ c = '\t' ∨ c = '\n')) :
    splitWsGo (t.data ++ ' ' :: rest) [] acc = splitWsGo rest [] (acc ++ [t]) := by
  rw [sgo_run t.data (' ' :: rest) [] acc hws, sgo_ws ' ' rest _ acc (Or.inl rfl)]
  have hie : (t.data.reverse ++ ([] : List Char)).isEmpty = false := by
    simp [hne]
  rw [if_neg (by rw [hie]; exact Bool.false_ne_true)]
  have hrr : String.mk (t.data.reverse ++ ([] : List Char)).reverse = t := by
    simp
  rw [hrr]

lemma sgo_last (t : String) (acc : List String)
    (hne : t.data ≠ [])
    (hws : ∀ c ∈ t.data, ¬(c = ' ' ∨ c = '\t' ∨ c = '\n')) :
    splitWsGo t.data [] acc = acc ++ [t] := by
  rw [show t.data = t.data ++ [] by simp, sgo_run t.data [] [] acc hws, sgo_nil]
  have hie : (t.data.reverse ++ ([] : List Char)).isEmpty = false := by
    simp [hne]
  rw [if_neg (by rw [hie]; exact Bool.false_ne_true)]
  have hrr : String.mk (t.data.reverse ++ ([] : List Char)).reverse = t := by
    simp
  rw [hrr]

lemma sgo_accTail : ∀ (cs cur : List Char) (acc : List String),
    ∃ tail, splitWsGo cs cur acc = acc ++ tail := by
  intro cs
  induction cs with
  | nil =>
    intro cur acc
    rw [sgo_nil]
    by_cases hc : cur.isEmpty = true
    · rw [if_pos hc]; exact ⟨[], by simp⟩
    · rw [if_neg hc]; exact ⟨[String.mk cur.reverse], rfl⟩
  | cons c rest ih =>
    intro cur acc
    by_cases hws : c = ' ' ∨ c = '\t' ∨ c = '\n'
    · rw [sgo_ws c rest cur acc hws]
      by_cases hc : cur.isEmpty = true
      · rw [if_pos hc]; exact ih [] acc
      · rw [if_neg hc]
        obtain ⟨tail, htail⟩ := ih [] (acc ++ [String.mk cur.reverse])
        exact ⟨String.mk cur.reverse :: tail, by rw [htail]; simp⟩
    · rw [sgo_nonws c rest cur acc hws]
      exact ih (c :: cur) acc

lemma sgo_first : ∀ (cs cur : List Char) (acc : List String), cur ≠ [] →
    ∃ tok tail, splitWsGo cs cur acc = acc ++ String.mk (cur.reverse ++ tok) :: tail := by
  intro cs
  induction cs with
  | nil =>
    intro cur acc hcur
    rw [sgo_nil, if_neg (by simp [hcur])]
    exact ⟨[], [], by simp⟩
  | cons c rest ih =>
    intro cur acc hcur
    by_cases hws : c = ' ' ∨ c = '\t' ∨ c = '\n'
    · rw [sgo_ws c rest cur acc hws, if_neg (by simp [hcur])]
      obtain ⟨tail, htail⟩ := sgo_accTail rest [] (acc ++ [String.mk cur.reverse])
      exact ⟨[], tail, by rw [htail]; simp⟩
    · rw [sgo_nonws c rest cur acc hws]
      obtain ⟨tok, tail, htail⟩ := ih (c :: cur) acc (by simp)
      refine ⟨c :: tok, tail, ?_⟩
      rw [htail]
      simp

/-! str() and int() round trip. -/

lemma natDigits_go_spec : ∀ (n : Nat), ∀ (fuel : Nat) (acc : List Char), n < fuel →
    natDigits.go fuel n acc = natDigits.go (n + 1) n [] ++ acc := by
  intro n
  induction n using Nat.strong_induction_on with
  | _ n ih =>
    intro fuel acc hf
    match fuel with
    | 0 => omega
    | fuel + 1 =>
      by_cases h10 : n < 10
      · unfold natDigits.go
        rw [if_pos h10, if_pos h10]
        rfl
      · have hdiv : n / 10 < n := Nat.div_lt_self (by omega) (by omega)
        unfold natDigits.go
        rw [if_neg h10, if_neg h10]
        rw [ih (n / 10) hdiv fuel _ (by omega), ih (n / 10) hdiv n _ (by omega)]
        simp

lemma natDigits_lt10 (n : Nat) (h : n < 10) :
    natDigits n = [Char.ofNat (48 + n % 10)] := by
  unfold natDigits natDigits.go
  rw [if_pos h]

lemma natDigits_ge10 (n : Nat) (h : 10 ≤ n) :
    natDigits n = natDigits (n / 10) ++ [Char.ofNat (48 + n % 10)] := by
  conv_lhs => unfold natDigits natDigits.go
  rw [if_neg (by omega)]
  rw [natDigits_go_spec (n / 10) n _ (by exact Nat.div_lt_self (by omega) (by omega))]
  rfl

lemma digit_char_facts (m : Nat) (h : m < 10) :
    (Char.ofNat (48 + m)).isDigit = true ∧ (Char.ofNat (48 + m)).toNat = 48 + m := by
  interval_cases m <;> exact ⟨rfl, rfl⟩

lemma natDigits_ne_nil : ∀ (n : Nat), natDigits n ≠ [] := by
  intro n
  by_cases h10 : n < 10
  · rw [natDigits_lt10 n h10]; simp
  · rw [natDigits_ge10 n (by omega)]; simp

lemma natDigits_all_digit : ∀ (n : Nat), ∀ c ∈ natDigits n, c.isDigit = true := by
  intro n
  induction n using Nat.strong_induction_on with
  | _ n ih =>
    intro c hc
    by_cases h10 : n < 10
    · rw [natDigits_lt10 n h10] at hc
      rcases List.mem_singleton.mp hc with rfl
      exact (digit_char_facts (n % 10) (by omega)).1
    · rw [natDigits_ge10 n (by omega)] at hc
      rcases List.mem_append.mp hc with h1 | h1
      · exact ih (n / 10) (Nat.div_lt_self (by omega) (by omega)) c h1
      · rcases List.mem_singleton.mp h1 with rfl
        exact (digit_char_facts (n % 10) (by omega)).1

lemma digitsVal_append_digit (l : List Char) (c : Char) (h : c.isDigit = true) :
    digitsVal (l ++ [c]) = digitsVal l * 10 + (c.toNat - 48) := by
  unfold digitsVal
  rw [List.foldl_append]
  simp [h]

lemma digitsVal_natDigits : ∀ (n : Nat), digitsVal (natDigits n) = n := by
  intro n
  induction n using Nat.strong_induction_on with
  | _ n ih =>
    by_cases h10 : n < 10
    · rw [natDigits_lt10 n h10]
      have hd := digit_char_facts (n % 10) (by omega)
      have h2 := hd.2
      unfold digitsVal
      simp only [List.foldl_cons, List.foldl_nil, hd.1, if_true]
      rw [h2]
      show 0 * 10 + (48 + n % 10 - 48) = n
      omega
    · rw [natDigits_ge10 n (by omega)]
      have hd := digit_char_facts (n % 10) (by omega)
      rw [digitsVal_append_digit _ _ hd.1, ih (n / 10) (Nat.div_lt_self (by omega) (by omega)),
        hd.2]
      omega

lemma pyIntDigits_all : ∀ (l : List Char), l ≠ [] → (∀ c ∈ l, c.isDigit = true) →
    pyIntDigits l = true := by
  intro l
  induction l with
  | nil => intro h; exact absurd rfl h
  | cons c rest ih =>
    intro _ hall
    match rest with
    | [] => exact hall c (by simp)
    | c2 :: rest2 =>
      unfold pyIntDigits
      rw [if_pos (hall c (by simp))]
      exact ih (by simp) (fun d hd => hall d (by simp [hd]))

lemma digit_ne_dash (c : Char) (h : c.isDigit = true) : c ≠ '-' := by
  intro hc
  rw [hc] at h
  exact Bool.noConfusion h

lemma digit_ne_plus (c : Char) (h : c.isDigit = true) : c ≠ '+' := by
  intro hc
  rw [hc] at h
  exact Bool.noConfusion h

lemma digit_ne_underscore (c : Char) (h : c.isDigit = true) : c ≠ '_' := by
  intro hc
  rw [hc] at h
  exact Bool.noConfusion h

lemma digit_not_ws (c : Char) (h : c.isDigit = true) :
    ¬(c = ' ' ∨ c = '\t' ∨ c = '\n') := by
  rintro (rfl | rfl | rfl) <;> exact Bool.noConfusion h

lemma pyInt_digit_list (l : List Char) (hne : l ≠ [])
    (hall : ∀ c ∈ l, c.isDigit = true) :
    pyInt (String.mk l) = .ok ((digitsVal l : Nat) : Int) := by
  unfold pyInt
  have hd : (String.mk l).data = l := rfl
  rw [hd]
  have hhead : l.headD '0' ≠ '_' := by
    match l with
    | [] => exact absurd rfl hne
    | c :: rest => exact digit_ne_underscore c (hall c (by simp))
  split
  · rename_i r1 r2
    exact absurd (hall '-' (by simp)) (by decide)
  · rename_i r1 r2
    exact absurd (hall '+' (by simp)) (by decide)
  · rw [if_pos (show (pyIntDigits l && decide (l.headD '0' ≠ '_')) = true by
      rw [Bool.and_eq_true]
      exact ⟨pyIntDigits_all l hne hall, by simpa using hhead⟩)]

lemma pyInt_natDigits (n : Nat) :
    pyInt (String.mk (natDigits n)) = .ok (n : Int) := by
  rw [pyInt_digit_list (natDigits n) (natDigits_ne_nil n) (natDigits_all_digit n),
    digitsVal_natDigits]

lemma intToStr_nonneg (i : Int) (h : 0 ≤ i) :
    intToStr i = String.mk (natDigits i.toNat) := by
  unfold intToStr
  rw [if_neg (by omega)]

lemma pyInt_intToStr (i : Int) (h : 0 ≤ i) : pyInt (intToStr i) = .ok i := by
  rw [intToStr_nonneg i h, pyInt_natDigits]
  congr 1
  omega

lemma intToStr_props (i : Int) (h : 0 ≤ i) :
    (intToStr i).data ≠ [] ∧ (∀ c ∈ (intToStr i).data, c.isDigit = true) := by
  rw [intToStr_nonneg i h]
  exact ⟨natDigits_ne_nil i.toNat, natDigits_all_digit i.toNat⟩
/-! Evaluating the status-line regex and BoardState.from_str. -/

lemma char_toNat_le {a b : Char} (h : a ≤ b) : a.toNat ≤ b.toNat := by
  have h3 := BitVec.le_def.mp (UInt32.le_def.mp (Char.le_def.mp h))
  unfold Char.toNat UInt32.toNat
  exact h3

lemma not_ws_of_toNat (c : Char) (h : 33 ≤ c.toNat) :
    ¬(c = ' ' ∨ c = '\t' ∨ c = '\n') := by
  rintro (rfl | rfl | rfl) <;> exact absurd h (by decide)

lemma sgo_single (c : Char) (rest : List Char) (acc : List String)
    (h : ¬(c = ' ' ∨ c = '\t' ∨ c = '\n')) :
    splitWsGo (c :: ' ' :: rest) [] acc = splitWsGo rest [] (acc ++ [String.mk [c]]) := by
  rw [sgo_nonws c _ _ _ h, sgo_ws ' ' rest [c] acc (Or.inl rfl),
    if_neg (by simp)]
  rfl

lemma sgo_pair (a r : Char) (rest : List Char) (acc : List String)
    (ha : ¬(a = ' ' ∨ a = '\t' ∨ a = '\n')) (hr : ¬(r = ' ' ∨ r = '\t' ∨ r = '\n')) :
    splitWsGo (a :: r :: ' ' :: rest) [] acc =
      splitWsGo rest [] (acc ++ [String.mk [a, r]]) := by
  rw [sgo_nonws a _ _ _ ha, sgo_nonws r _ _ _ hr, sgo_ws ' ' rest [r, a] acc (Or.inl rfl),
    if_neg (by simp)]
  rfl

lemma sgo_final (cs : List Char) (acc : List String) (hne : cs ≠ [])
    (hws : ∀ c ∈ cs, ¬(c = ' ' ∨ c = '\t' ∨ c = '\n')) :
    splitWsGo cs [] acc = acc ++ [String.mk cs] :=
  sgo_last ⟨cs⟩ acc hne hws

/-! Inversion of the status regex. -/

lemma statusReTail_inv (l : List Char) (h : statusReTail l = true) :
    (∃ n junk, l = '-' :: ' ' :: n :: junk ∧ n.isDigit = true) ∨
    (∃ a r n junk, l = a :: r :: ' ' :: n :: junk ∧
      ('a' ≤ a ∧ a ≤ 'g') ∧ ('1' ≤ r ∧ r ≤ '8') ∧ n.isDigit = true) := by
  unfold statusReTail at h
  split at h
  · exact Or.inl ⟨_, _, rfl, h⟩
  · have h2 := of_decide_eq_true h
    exact Or.inr ⟨_, _, _, _, rfl, h2.1, h2.2.1, h2.2.2⟩
  · exact Bool.noConfusion h

lemma statusReMatch_inv (l : List Char) (h : statusReMatch l = true) :
    ∃ c0 d1 d2 p1 p2 p3 p4 rest,
      l = c0 :: ' ' :: d1 :: ' ' :: d2 :: ' ' :: p1 :: ' ' :: p2 :: ' ' :: p3 :: ' ' ::
        p4 :: ' ' :: rest ∧
      (c0 = 'w' ∨ c0 = 'b') ∧ digit03 d1 = true ∧ digit03 d2 = true ∧
      plusMinus p1 = true ∧ plusMinus p2 = true ∧ plusMinus p3 = true ∧
      plusMinus p4 = true ∧ statusReTail rest = true := by
  unfold statusReMatch at h
  split at h
  · have h2 := of_decide_eq_true h
    exact ⟨_, _, _, _, _, _, _, _, rfl, h2.1, h2.2.1, h2.2.2.1, h2.2.2.2.1,
      h2.2.2.2.2.1, h2.2.2.2.2.2.1, h2.2.2.2.2.2.2.1, h2.2.2.2.2.2.2.2⟩
  · exact Bool.noConfusion h

/-! Building the status regex. -/

lemma statusReMatch_mk (c0 d1 d2 p1 p2 p3 p4 : Char) (rest : List Char)
    (h0 : c0 = 'w' ∨ c0 = 'b') (h1 : digit03 d1 = true) (h2 : digit03 d2 = true)
    (q1 : plusMinus p1 = true) (q2 : plusMinus p2 = true) (q3 : plusMinus p3 = true)
    (q4 : plusMinus p4 = true) (ht : statusReTail rest = true) :
    statusReMatch (c0 :: ' ' :: d1 :: ' ' :: d2 :: ' ' :: p1 :: ' ' :: p2 :: ' ' :: p3 ::
      ' ' :: p4 :: ' ' :: rest) = true := by
  simp only [statusReMatch]
  exact decide_eq_true ⟨h0, h1, h2, q1, q2, q3, q4, ht⟩

lemma statusReTail_mk_dash (n : Char) (junk : List Char) (h : n.isDigit = true) :
    statusReTail ('-' :: ' ' :: n :: junk) = true := by
  simp only [statusReTail]
  exact h

lemma statusReTail_mk_ep (a r n : Char) (junk : List Char)
    (ha : 'a' ≤ a ∧ a ≤ 'g') (hr : '1' ≤ r ∧ r ≤ '8') (hn : n.isDigit = true) :
    statusReTail (a :: r :: ' ' :: n :: junk) = true := by
  have hane : a ≠ '-' := by
    intro he
    exact absurd (he ▸ ha.1) (by decide)
  unfold statusReTail
  split
  · rename_i x0 n2 tail2 heq
    injection heq with e0 f0
    exact absurd e0 hane
  · rename_i x0 q0 q1 q2 q3 hdis heq
    injection heq with e0 f0
    injection f0 with e1 f1
    injection f1 with e2 f2
    injection f2 with e3 f3
    subst e0
    subst e1
    subst e3
    exact decide_eq_true ⟨ha, hr, hn⟩
  · rename_i h1 h2
    exact absurd rfl (h2 a r n junk)

/-! Token facts. -/

lemma digit03_pyInt (d : Char) (h : digit03 d = true) :
    ∃ v : Int, pyInt (String.mk [d]) = .ok v ∧ 0 ≤ v ∧ v ≤ 3 := by
  have h2 := of_decide_eq_true h
  rcases h2 with rfl | rfl | rfl | rfl
  · exact ⟨0, by decide, by decide, by decide⟩
  · exact ⟨1, by decide, by decide, by decide⟩
  · exact ⟨2, by decide, by decide, by decide⟩
  · exact ⟨3, by decide, by decide, by decide⟩

lemma pyInt_head_digit_nonneg (c : Char) (cs : List Char) (v : Int)
    (hdig : c.isDigit = true) (h : pyInt (String.mk (c :: cs)) = .ok v) : 0 ≤ v := by
  unfold pyInt at h
  split at h
  · rename_i r1 heq
    injection heq with e1 e2
    rw [e1] at hdig
    exact absurd hdig (by decide)
  · rename_i r1 heq
    injection heq with e1 e2
    rw [e1] at hdig
    exact absurd hdig (by decide)
  · split at h
    · have hv := Py.ok.inj h
      omega
    · exact Py.noConfusion h

lemma mk_two_ne_dash (a r : Char) : String.mk [a, r] ≠ "-" := by
  intro h
  have h2 := congrArg String.data h
  simp at h2

lemma posFromStr_pair (a r : Char) :
    Position.from_str (String.mk [a, r]) =
      ⟨(a.toNat : Int) - 97, 8 - ((r.toNat : Int) - 48)⟩ := rfl

/-! Parsing a matching status line: stateOk extraction. -/

lemma from_str_stateOk (sl : String) (st : BoardState)
    (h : BoardState.from_str sl = .ok (.success st)) : stateOk st := by
  unfold BoardState.from_str at h
  rcases hre : statusReMatch sl.data with hre0 | hre0
  · rw [hre, if_pos (by decide)] at h
    exact Result.noConfusion (Py.ok.inj h)
  · rw [hre, if_neg (by decide)] at h
    obtain ⟨c0, d1, d2, p1, p2, p3, p4, rest, hdata, hc0, hd1, hd2, hp1, hp2, hp3, hp4,
      htail⟩ := statusReMatch_inv sl.data hre
    have hnw0 : ¬(c0 = ' ' ∨ c0 = '\t' ∨ c0 = '\n') := by
      rcases hc0 with rfl | rfl <;> decide
    have hnwd1 : ¬(d1 = ' ' ∨ d1 = '\t' ∨ d1 = '\n') := by
      rcases of_decide_eq_true hd1 with rfl | rfl | rfl | rfl <;> decide
    have hnwd2 : ¬(d2 = ' ' ∨ d2 = '\t' ∨ d2 = '\n') := by
      rcases of_decide_eq_true hd2 with rfl | rfl | rfl | rfl <;> decide
    have hnwp1 : ¬(p1 = ' ' ∨ p1 = '\t' ∨ p1 = '\n') := by
      rcases of_decide_eq_true hp1 with rfl | rfl <;> decide
    have hnwp2 : ¬(p2 = ' ' ∨ p2 = '\t' ∨ p2 = '\n') := by
      rcases of_decide_eq_true hp2 with rfl | rfl <;> decide
    have hnwp3 : ¬(p3 = ' ' ∨ p3 = '\t' ∨ p3 = '\n') := by
      rcases of_decide_eq_true hp3 with rfl | rfl <;> decide
    have hnwp4 : ¬(p4 = ' ' ∨ p4 = '\t' ∨ p4 = '\n') := by
      rcases of_decide_eq_true hp4 with rfl | rfl <;> decide
    rcases statusReTail_inv rest htail with ⟨n, junk, hrest, hn⟩ |
      ⟨a, r, n, junk, hrest, hba, hbr, hn⟩
    · -- en-passant block "-"
      subst hrest
      have hsw : ∃ tok tail, splitWs sl =
          [String.mk [c0], String.mk [d1], String.mk [d2], String.mk [p1], String.mk [p2],
            String.mk [p3], String.mk [p4], String.mk ['-']] ++
            String.mk (n :: tok) :: tail := by
        unfold splitWs
        rw [hdata, sgo_single c0 _ _ hnw0, sgo_single d1 _ _ hnwd1, sgo_single d2 _ _ hnwd2,
          sgo_single p1 _ _ hnwp1, sgo_single p2 _ _ hnwp2, sgo_single p3 _ _ hnwp3,
          sgo_single p4 _ _ hnwp4, sgo_single '-' _ _ (by decide),
          sgo_nonws n junk _ _ (digit_not_ws n hn)]
        obtain ⟨tok, tail, hlast⟩ := sgo_first junk [n]
          ((((((((([] : List String) ++ [String.mk [c0]]) ++ [String.mk [d1]]) ++
            [String.mk [d2]]) ++ [String.mk [p1]]) ++ [String.mk [p2]]) ++
            [String.mk [p3]]) ++ [String.mk [p4]]) ++ [String.mk ['-']]) (by simp)
        refine ⟨tok, tail, ?_⟩
        rw [hlast]
        simp
      obtain ⟨tok, tail, hsw⟩ := hsw
      rw [hsw] at h
      simp only [List.cons_append, List.nil_append] at h
      rw [show (0 : Int) = ((0 : Nat) : Int) from rfl, pyGet_nat _ 0 (by simp)] at h
      simp only [List.getElem_cons_zero, List.getElem_cons_succ, ok_bind] at h
      rw [show (1 : Int) = ((1 : Nat) : Int) from rfl, pyGet_nat _ 1 (by simp)] at h
      simp only [List.getElem_cons_zero, List.getElem_cons_succ, ok_bind] at h
      rw [show (2 : Int) = ((2 : Nat) : Int) from rfl, pyGet_nat _ 2 (by simp)] at h
      simp only [List.getElem_cons_zero, List.getElem_cons_succ, ok_bind] at h
      obtain ⟨v1, hv1, hv1a, hv1b⟩ := digit03_pyInt d1 hd1
      obtain ⟨v2, hv2, hv2a, hv2b⟩ := digit03_pyInt d2 hd2
      rw [hv1] at h
      simp only [ok_bind] at h
      rw [hv2] at h
      simp only [ok_bind] at h
      rw [show (3 : Int) = ((3 : Nat) : Int) from rfl, pyGet_nat _ 3 (by simp)] at h
      simp only [List.getElem_cons_zero, List.getElem_cons_succ, ok_bind] at h
      rw [show (4 : Int) = ((4 : Nat) : Int) from rfl, pyGet_nat _ 4 (by simp)] at h
      simp only [List.getElem_cons_zero, List.getElem_cons_succ, ok_bind] at h
      rw [show (5 : Int) = ((5 : Nat) : Int) from rfl, pyGet_nat _ 5 (by simp)] at h
      simp only [List.getElem_cons_zero, List.getElem_cons_succ, ok_bind] at h
      rw [show (6 : Int) = ((6 : Nat) : Int) from rfl, pyGet_nat _ 6 (by simp)] at h
      simp only [List.getElem_cons_zero, List.getElem_cons_succ, ok_bind] at h
      rw [show (7 : Int) = ((7 : Nat) : Int) from rfl, pyGet_nat _ 7 (by simp)] at h
      simp only [List.getElem_cons_zero, List.getElem_cons_succ, ok_bind] at h
      rw [show (8 : Int) = ((8 : Nat) : Int) from rfl, pyGet_nat _ 8 (by simp)] at h
      simp only [List.getElem_cons_zero, List.getElem_cons_succ, ok_bind] at h
      rcases hclk : pyInt (String.mk (n :: tok)) with v8 | e8
      · rw [hclk] at h
        simp only [ok_bind] at h
        have hst := Result.success.inj (Py.ok.inj h)
        have hclk0 := pyInt_head_digit_nonneg n tok v8 hn hclk
        rw [← hst]
        refine ⟨⟨hv1a, hv1b⟩, ⟨hv2a, hv2b⟩, ?_, hclk0⟩
        intro p hp
        dsimp only at hp
        rw [if_pos (by decide)] at hp
        exact Option.noConfusion hp
      · rw [hclk] at h
        rw [error_bind] at h
        exact Py.noConfusion h
    · -- en-passant block [a, r]
      subst hrest
      have hta := char_toNat_le hba.1
      have htb := char_toNat_le hba.2
      have htc := char_toNat_le hbr.1
      have htd := char_toNat_le hbr.2
      have hnwa : ¬(a = ' ' ∨ a = '\t' ∨ a = '\n') := by
        refine not_ws_of_toNat a ?_
        have : ('a').toNat = 97 := rfl
        omega
      have hnwr : ¬(r = ' ' ∨ r = '\t' ∨ r = '\n') := by
        refine not_ws_of_toNat r ?_
        have : ('1').toNat = 49 := rfl
        omega
      have hsw : ∃ tok tail, splitWs sl =
          [String.mk [c0], String.mk [d1], String.mk [d2], String.mk [p1], String.mk [p2],
            String.mk [p3], String.mk [p4], String.mk [a, r]] ++
            String.mk (n :: tok) :: tail := by
        unfold splitWs
        rw [hdata, sgo_single c0 _ _ hnw0, sgo_single d1 _ _ hnwd1, sgo_single d2 _ _ hnwd2,
          sgo_single p1 _ _ hnwp1, sgo_single p2 _ _ hnwp2, sgo_single p3 _ _ hnwp3,
          sgo_single p4 _ _ hnwp4, sgo_pair a r _ _ hnwa hnwr,
          sgo_nonws n junk _ _ (digit_not_ws n hn)]
        obtain ⟨tok, tail, hlast⟩ := sgo_first junk [n]
          ((((((((([] : List String) ++ [String.mk [c0]]) ++ [String.mk [d1]]) ++
            [String.mk [d2]]) ++ [String.mk [p1]]) ++ [String.mk [p2]]) ++
            [String.mk [p3]]) ++ [String.mk [p4]]) ++ [String.mk [a, r]]) (by simp)
        refine ⟨tok, tail, ?_⟩
        rw [hlast]
        simp
      obtain ⟨tok, tail, hsw⟩ := hsw
      rw [hsw] at h
      simp only [List.cons_append, List.nil_append] at h
      rw [show (0 : Int) = ((0 : Nat) : Int) from rfl, pyGet_nat _ 0 (by simp)] at h
      simp only [List.getElem_cons_zero, List.getElem_cons_succ, ok_bind] at h
      rw [show (1 : Int) = ((1 : Nat) : Int) from rfl, pyGet_nat _ 1 (by simp)] at h
      simp only [List.getElem_cons_zero, List.getElem_cons_succ, ok_bind] at h
      rw [show (2 : Int) = ((2 : Nat) : Int) from rfl, pyGet_nat _ 2 (by simp)] at h
      simp only [List.getElem_cons_zero, List.getElem_cons_succ, ok_bind] at h
      obtain ⟨v1, hv1, hv1a, hv1b⟩ := digit03_pyInt d1 hd1
      obtain ⟨v2, hv2, hv2a, hv2b⟩ := digit03_pyInt d2 hd2
      rw [hv1] at h
      simp only [ok_bind] at h
      rw [hv2] at h
      simp only [ok_bind] at h
      rw [show (3 : Int) = ((3 : Nat) : Int) from rfl, pyGet_nat _ 3 (by simp)] at h
      simp only [List.getElem_cons_zero, List.getElem_cons_succ, ok_bind] at h
      rw [show (4 : Int) = ((4 : Nat) : Int) from rfl, pyGet_nat _ 4 (by simp)] at h
      simp only [List.getElem_cons_zero, List.getElem_cons_succ, ok_bind] at h
      rw [show (5 : Int) = ((5 : Nat) : Int) from rfl, pyGet_nat _ 5 (by simp)] at h
      simp only [List.getElem_cons_zero, List.getElem_cons_succ, ok_bind] at h
      rw [show (6 : Int) = ((6 : Nat) : Int) from rfl, pyGet_nat _ 6 (by simp)] at h
      simp only [List.getElem_cons_zero, List.getElem_cons_succ, ok_bind] at h
      rw [show (7 : Int) = ((7 : Nat) : Int) from rfl, pyGet_nat _ 7 (by simp)] at h
      simp only [List.getElem_cons_zero, List.getElem_cons_succ, ok_bind] at h
      rw [show (8 : Int) = ((8 : Nat) : Int) from rfl, pyGet_nat _ 8 (by simp)] at h
      simp only [List.getElem_cons_zero, List.getElem_cons_succ, ok_bind] at h
      rcases hclk : pyInt (String.mk (n :: tok)) with v8 | e8
      · rw [hclk] at h
        simp only [ok_bind] at h
        have hst := Result.success.inj (Py.ok.inj h)
        have hclk0 := pyInt_head_digit_nonneg n tok v8 hn hclk
        rw [← hst]
        refine ⟨⟨hv1a, hv1b⟩, ⟨hv2a, hv2b⟩, ?_, hclk0⟩
        intro p hp
        dsimp only at hp
        rw [if_neg (mk_two_ne_dash a r)] at hp
        have hp2 := Option.some.inj hp
        rw [← hp2, posFromStr_pair]
        dsimp only
        have e1 : ('a').toNat = 97 := rfl
        have e2 : ('g').toNat = 103 := rfl
        have e3 : ('1').toNat = 49 := rfl
        have e4 : ('8').toNat = 56 := rfl
        refine ⟨by omega, by omega, by omega, by omega⟩
      · rw [hclk] at h
        rw [error_bind] at h
        exact Py.noConfusion h
/-! Status-line print-parse round trip. -/

lemma player_tok (pl : Player) :
    ∃ c0, (Player.canonical pl).data = [c0] ∧ (c0 = 'w' ∨ c0 = 'b') ∧
      (if String.mk [c0] = "w" then Player.WHITE else Player.BLACK) = pl := by
  cases pl
  · exact ⟨'w', rfl, Or.inl rfl, by decide⟩
  · exact ⟨'b', rfl, Or.inr rfl, by decide⟩

lemma walls_tok (i : Int) (h0 : 0 ≤ i) (h3 : i ≤ 3) :
    ∃ d, (intToStr i).data = [d] ∧ digit03 d = true := by
  refine ⟨(intToStr i).data.getD 0 ' ', ?_⟩
  interval_cases i <;> exact ⟨by decide, by decide⟩

lemma castle_tok (b : Bool) :
    ∃ q, ((if b then "+" else "-") : String).data = [q] ∧ plusMinus q = true ∧
      decide (String.mk [q] = "+") = b := by
  cases b
  · exact ⟨'-', rfl, by decide, by decide⟩
  · exact ⟨'+', rfl, by decide, by decide⟩

lemma ep_roundtrip (p : Position) (hx0 : 0 ≤ p.x) (hx6 : p.x ≤ 6) (hy0 : 0 ≤ p.y)
    (hy7 : p.y ≤ 7) :
    ∃ a r, (Position.canonical p).data = [a, r] ∧ ('a' ≤ a ∧ a ≤ 'g') ∧
      ('1' ≤ r ∧ r ≤ '8') ∧ Position.from_str (String.mk [a, r]) = p := by
  obtain ⟨x, y⟩ := p
  dsimp only at hx0 hx6 hy0 hy7
  refine ⟨(Position.canonical ⟨x, y⟩).data.getD 0 ' ',
    (Position.canonical ⟨x, y⟩).data.getD 1 ' ', ?_⟩
  interval_cases x <;> interval_cases y <;> exact ⟨by decide, by decide, by decide, by decide⟩

lemma natDigits_head : ∀ (m : Nat), ∃ n ds, natDigits m = n :: ds ∧ n.isDigit = true := by
  intro m
  rcases hh : natDigits m with _ | ⟨n, ds⟩
  · exact absurd hh (natDigits_ne_nil m)
  · exact ⟨n, ds, rfl, natDigits_all_digit m n (by rw [hh]; simp)⟩

lemma state_roundtrip (st : BoardState) (hok : stateOk st) :
    BoardState.from_str st.canonical = .ok (.success st) := by
  obtain ⟨pl, ww, bw, k1, k2, k3, k4, ep, ck⟩ := st
  obtain ⟨⟨hw0, hw3⟩, ⟨hb0, hb3⟩, hep, hck⟩ := hok
  dsimp only at hw0 hw3 hb0 hb3 hep hck
  obtain ⟨c0, hc0d, hc0p, hc0if⟩ := player_tok pl
  obtain ⟨d1, hd1d, hd1p⟩ := walls_tok ww hw0 hw3
  obtain ⟨d2, hd2d, hd2p⟩ := walls_tok bw hb0 hb3
  obtain ⟨q1, hq1d, hq1p, hq1if⟩ := castle_tok k1
  obtain ⟨q2, hq2d, hq2p, hq2if⟩ := castle_tok k2
  obtain ⟨q3, hq3d, hq3p, hq3if⟩ := castle_tok k3
  obtain ⟨q4, hq4d, hq4p, hq4if⟩ := castle_tok k4
  obtain ⟨n, ds, hnds, hdig⟩ := natDigits_head ck.toNat
  have hclkd : (intToStr ck).data = n :: ds := by
    rw [intToStr_nonneg ck hck]
    exact hnds
  have hdigws : ∀ c ∈ n :: ds, c.isDigit = true := by
    rw [← hnds]
    exact natDigits_all_digit ck.toNat
  rcases ep with _ | p
  · -- no en-passant square
    have hdata : (BoardState.canonical ⟨pl, ww, bw, k1, k2, k3, k4, none, ck⟩).data =
        c0 :: ' ' :: d1 :: ' ' :: d2 :: ' ' :: q1 :: ' ' :: q2 :: ' ' :: q3 :: ' ' ::
          q4 :: ' ' :: '-' :: ' ' :: n :: ds := by
      unfold BoardState.canonical
      dsimp only
      simp only [String.intercalate, String.intercalate.go, String.data_append,
        hc0d, hd1d, hd2d, hq1d, hq2d, hq3d, hq4d, hclkd]
      rfl
    unfold BoardState.from_str
    rw [hdata, statusReMatch_mk c0 d1 d2 q1 q2 q3 q4 _ hc0p hd1p hd2p hq1p hq2p hq3p hq4p
      (statusReTail_mk_dash n ds hdig), if_neg (by decide)]
    have hnw0 : ¬(c0 = ' ' ∨ c0 = '\t' ∨ c0 = '\n') := by
      rcases hc0p with rfl | rfl <;> decide
    have hnwd1 : ¬(d1 = ' ' ∨ d1 = '\t' ∨ d1 = '\n') := by
      rcases of_decide_eq_true hd1p with rfl | rfl | rfl | rfl <;> decide
    have hnwd2 : ¬(d2 = ' ' ∨ d2 = '\t' ∨ d2 = '\n') := by
      rcases of_decide_eq_true hd2p with rfl | rfl | rfl | rfl <;> decide
    have hnwq1 : ¬(q1 = ' ' ∨ q1 = '\t' ∨ q1 = '\n') := by
      rcases of_decide_eq_true hq1p with rfl | rfl <;> decide
    have hnwq2 : ¬(q2 = ' ' ∨ q2 = '\t' ∨ q2 = '\n') := by
      rcases of_decide_eq_true hq2p with rfl | rfl <;> decide
    have hnwq3 : ¬(q3 = ' ' ∨ q3 = '\t' ∨ q3 = '\n') := by
      rcases of_decide_eq_true hq3p with rfl | rfl <;> decide
    have hnwq4 : ¬(q4 = ' ' ∨ q4 = '\t' ∨ q4 = '\n') := by
      rcases of_decide_eq_true hq4p with rfl | rfl <;> decide
    have hsplit : splitWs (BoardState.canonical ⟨pl, ww, bw, k1, k2, k3, k4, none, ck⟩) =
        [String.mk [c0], String.mk [d1], String.mk [d2], String.mk [q1], String.mk [q2],
          String.mk [q3], String.mk [q4], String.mk ['-'], String.mk (n :: ds)] := by
      unfold splitWs
      rw [hdata, sgo_single c0 _ _ hnw0, sgo_single d1 _ _ hnwd1, sgo_single d2 _ _ hnwd2,
        sgo_single q1 _ _ hnwq1, sgo_single q2 _ _ hnwq2, sgo_single q3 _ _ hnwq3,
        sgo_single q4 _ _ hnwq4, sgo_single '-' _ _ (by decide),
        sgo_final (n :: ds) _ (by simp) (fun c hc => digit_not_ws c (hdigws c hc))]
      simp
    rw [hsplit]
    unfold_let
    rw [show (0 : Int) = ((0 : Nat) : Int) from rfl, pyGet_nat _ 0 (by simp)]
    simp only [List.getElem_cons_zero, List.getElem_cons_succ, ok_bind]
    rw [show (1 : Int) = ((1 : Nat) : Int) from rfl, pyGet_nat _ 1 (by simp)]
    simp only [List.getElem_cons_zero, List.getElem_cons_succ, ok_bind]
    rw [show (2 : Int) = ((2 : Nat) : Int) from rfl, pyGet_nat _ 2 (by simp)]
    simp only [List.getElem_cons_zero, List.getElem_cons_succ, ok_bind]
    rw [show String.mk [d1] = intToStr ww by rw [← hd1d], pyInt_intToStr ww hw0]
    simp only [ok_bind]
    rw [show String.mk [d2] = intToStr bw by rw [← hd2d], pyInt_intToStr bw hb0]
    simp only [ok_bind]
    rw [show (3 : Int) = ((3 : Nat) : Int) from rfl, pyGet_nat _ 3 (by simp)]
    simp only [List.getElem_cons_zero, List.getElem_cons_succ, ok_bind]
    rw [show (4 : Int) = ((4 : Nat) : Int) from rfl, pyGet_nat _ 4 (by simp)]
    simp only [List.getElem_cons_zero, List.getElem_cons_succ, ok_bind]
    rw [show (5 : Int) = ((5 : Nat) : Int) from rfl, pyGet_nat _ 5 (by simp)]
    simp only [List.getElem_cons_zero, List.getElem_cons_succ, ok_bind]
    rw [show (6 : Int) = ((6 : Nat) : Int) from rfl, pyGet_nat _ 6 (by simp)]
    simp only [List.getElem_cons_zero, List.getElem_cons_succ, ok_bind]
    rw [show (7 : Int) = ((7 : Nat) : Int) from rfl, pyGet_nat _ 7 (by simp)]
    simp only [List.getElem_cons_zero, List.getElem_cons_succ, ok_bind]
    rw [show (8 : Int) = ((8 : Nat) : Int) from rfl, pyGet_nat _ 8 (by simp)]
    simp only [List.getElem_cons_zero, List.getElem_cons_succ, ok_bind]
    rw [show String.mk (n :: ds) = intToStr ck by rw [← hclkd], pyInt_intToStr ck hck]
    simp only [ok_bind]
    rw [hc0if, if_pos (by decide), hq1if, hq2if, hq3if, hq4if]
    rfl
  · -- en-passant square present
    obtain ⟨hx0, hx6, hy0, hy7⟩ := hep p rfl
    obtain ⟨a, r, hepd, hba, hbr, hfrom⟩ := ep_roundtrip p hx0 hx6 hy0 hy7
    have hta := char_toNat_le hba.1
    have htb := char_toNat_le hba.2
    have htc := char_toNat_le hbr.1
    have htd := char_toNat_le hbr.2
    have hnwa : ¬(a = ' ' ∨ a = '\t' ∨ a = '\n') := by
      refine not_ws_of_toNat a ?_
      have e1 : ('a').toNat = 97 := rfl
      omega
    have hnwr : ¬(r = ' ' ∨ r = '\t' ∨ r = '\n') := by
      refine not_ws_of_toNat r ?_
      have e1 : ('1').toNat = 49 := rfl
      omega
    have hdata : (BoardState.canonical ⟨pl, ww, bw, k1, k2, k3, k4, some p, ck⟩).data =
        c0 :: ' ' :: d1 :: ' ' :: d2 :: ' ' :: q1 :: ' ' :: q2 :: ' ' :: q3 :: ' ' ::
          q4 :: ' ' :: a :: r :: ' ' :: n :: ds := by
      unfold BoardState.canonical
      dsimp only
      simp only [String.intercalate, String.intercalate.go, String.data_append,
        hc0d, hd1d, hd2d, hq1d, hq2d, hq3d, hq4d, hclkd, hepd]
      rfl
    unfold BoardState.from_str
    rw [hdata, statusReMatch_mk c0 d1 d2 q1 q2 q3 q4 _ hc0p hd1p hd2p hq1p hq2p hq3p hq4p
      (statusReTail_mk_ep a r n ds hba hbr hdig), if_neg (by decide)]
    have hnw0 : ¬(c0 = ' ' ∨ c0 = '\t' ∨ c0 = '\n') := by
      rcases hc0p with rfl | rfl <;> decide
    have hnwd1 : ¬(d1 = ' ' ∨ d1 = '\t' ∨ d1 = '\n') := by
      rcases of_decide_eq_true hd1p with rfl | rfl | rfl | rfl <;> decide
    have hnwd2 : ¬(d2 = ' ' ∨ d2 = '\t' ∨ d2 = '\n') := by
      rcases of_decide_eq_true hd2p with rfl | rfl | rfl | rfl <;> decide
    have hnwq1 : ¬(q1 = ' ' ∨ q1 = '\t' ∨ q1 = '\n') := by
      rcases of_decide_eq_true hq1p with rfl | rfl <;> decide
    have hnwq2 : ¬(q2 = ' ' ∨ q2 = '\t' ∨ q2 = '\n') := by
      rcases of_decide_eq_true hq2p with rfl | rfl <;> decide
    have hnwq3 : ¬(q3 = ' ' ∨ q3 = '\t' ∨ q3 = '\n') := by
      rcases of_decide_eq_true hq3p with rfl | rfl <;> decide
    have hnwq4 : ¬(q4 = ' ' ∨ q4 = '\t' ∨ q4 = '\n') := by
      rcases of_decide_eq_true hq4p with rfl | rfl <;> decide
    have hsplit : splitWs (BoardState.canonical ⟨pl, ww, bw, k1, k2, k3, k4, some p, ck⟩) =
        [String.mk [c0], String.mk [d1], String.mk [d2], String.mk [q1], String.mk [q2],
          String.mk [q3], String.mk [q4], String.mk [a, r], String.mk (n :: ds)] := by
      unfold splitWs
      rw [hdata, sgo_single c0 _ _ hnw0, sgo_single d1 _ _ hnwd1, sgo_single d2 _ _ hnwd2,
        sgo_single q1 _ _ hnwq1, sgo_single q2 _ _ hnwq2, sgo_single q3 _ _ hnwq3,
        sgo_single q4 _ _ hnwq4, sgo_pair a r _ _ hnwa hnwr,
        sgo_final (n :: ds) _ (by simp) (fun c hc => digit_not_ws c (hdigws c hc))]
      simp
    rw [hsplit]
    unfold_let
    rw [show (0 : Int) = ((0 : Nat) : Int) from rfl, pyGet_nat _ 0 (by simp)]
    simp only [List.getElem_cons_zero, List.getElem_cons_succ, ok_bind]
    rw [show (1 : Int) = ((1 : Nat) : Int) from rfl, pyGet_nat _ 1 (by simp)]
    simp only [List.getElem_cons_zero, List.getElem_cons_succ, ok_bind]
    rw [show (2 : Int) = ((2 : Nat) : Int) from rfl, pyGet_nat _ 2 (by simp)]
    simp only [List.getElem_cons_zero, List.getElem_cons_succ, ok_bind]
    rw [show String.mk [d1] = intToStr ww by rw [← hd1d], pyInt_intToStr ww hw0]
    simp only [ok_bind]
    rw [show String.mk [d2] = intToStr bw by rw [← hd2d], pyInt_intToStr bw hb0]
    simp only [ok_bind]
    rw [show (3 : Int) = ((3 : Nat) : Int) from rfl, pyGet_nat _ 3 (by simp)]
    simp only [List.getElem_cons_zero, List.getElem_cons_succ, ok_bind]
    rw [show (4 : Int) = ((4 : Nat) : Int) from rfl, pyGet_nat _ 4 (by simp)]
    simp only [List.getElem_cons_zero, List.getElem_cons_succ, ok_bind]
    rw [show (5 : Int) = ((5 : Nat) : Int) from rfl, pyGet_nat _ 5 (by simp)]
    simp only [List.getElem_cons_zero, List.getElem_cons_succ, ok_bind]
    rw [show (6 : Int) = ((6 : Nat) : Int) from rfl, pyGet_nat _ 6 (by simp)]
    simp only [List.getElem_cons_zero, List.getElem_cons_succ, ok_bind]
    rw [show (7 : Int) = ((7 : Nat) : Int) from rfl, pyGet_nat _ 7 (by simp)]
    simp only [List.getElem_cons_zero, List.getElem_cons_succ, ok_bind]
    rw [show (8 : Int) = ((8 : Nat) : Int) from rfl, pyGet_nat _ 8 (by simp)]
    simp only [List.getElem_cons_zero, List.getElem_cons_succ, ok_bind]
    rw [show String.mk (n :: ds) = intToStr ck by rw [← hclkd], pyInt_intToStr ck hck]
    simp only [ok_bind]
    rw [hc0if, if_neg (mk_two_ne_dash a r), hfrom, hq1if, hq2if, hq3if, hq4if]
    rfl
/-! Forward evaluation of the normalise_walls pass on a good grid. -/

lemma normStep_fwd (ns : List (List BoardNode)) (st : BoardState) (im : InitialMoves)
    (t : Int) (md : Bool) (hr : rows8 ns) (hsw : onlySW ns) (hw : noBadW ns)
    (hS0 : noBadS ns) (y x : Nat) (hy : y < 8) (hx : x < 8) :
    normStep ⟨expectNodes ns (8 * y + x), st, im, t, md⟩ y x =
      .ok ⟨expectNodes ns (8 * y + x + 1), st, im, t, md⟩ := by
  have hrE : rows8 (expectNodes ns (8 * y + x)) := expectNodes_rows8 _ _
  have hg := stepGrid_expect ns hr hw y x hy hx
  have h7 : y = 7 → sAt ns 0 x = false := fun _ => hS0 x
  rw [normStep_eq_tail, readWalls_lit _ st im t md hrE y x hy hx]
  simp only [ok_bind]
  rw [nodeD_expect ns (8 * y + x) y x hy hx, expect_west]
  rcases (Bool.eq_false_or_eq_true (wAt ns y x)).symm with hW | hW
  · have hWne : ¬wAt ns y x = true := by rw [hW]; exact Bool.false_ne_true
    rw [hW, if_neg Bool.false_ne_true]
    simp only [py_pure_bind]
    rw [readWalls_lit _ st im t md hrE y x hy hx]
    simp only [ok_bind]
    rw [nodeD_expect ns (8 * y + x) y x hy hx, expect_south]
    rw [if_neg hWne] at hg
    rcases (Bool.eq_false_or_eq_true (sAt ns y x)).symm with hS | hS
    · have hSne : ¬sAt ns y x = true := by rw [hS]; exact Bool.false_ne_true
      rw [hS, if_neg Bool.false_ne_true]
      simp only [py_pure_bind]
      rw [if_neg hSne] at hg
      rw [hg]
      exact normStep34_ok ns st im t md hr hsw y x hy hx h7
    · rw [hS, if_pos rfl]
      rw [if_pos hS] at hg
      by_cases hy0 : y = 0
      · subst hy0
        rw [show ((0 : Nat) : Int) - 1 = (-1 : Int) by decide,
          addFlag_lit_neg _ st im t md hrE x hx _]
        simp only [ok_bind]
        rw [if_pos rfl] at hg
        rw [hg]
        exact normStep34_ok ns st im t md hr hsw 0 x (by omega) hx h7
      · rw [show ((y : Nat) : Int) - 1 = ((y - 1 : Nat) : Int) by omega,
          addFlag_lit_nat _ st im t md hrE (y - 1) x (by omega) hx _]
        simp only [ok_bind]
        rw [if_neg hy0] at hg
        rw [hg]
        exact normStep34_ok ns st im t md hr hsw y x hy hx h7
  · have hx1 : 1 ≤ x := by
      rcases Nat.eq_zero_or_pos x with h0 | h0
      · rw [h0, hw y] at hW; cases hW
      · exact h0
    have hrE1 : rows8 (setW (expectNodes ns (8 * y + x)) y (x - 1) Walls.addEast) :=
      setW_rows8 hrE y (x - 1) hy _
    rw [hW, if_pos rfl,
      show ((x : Nat) : Int) - 1 = ((x - 1 : Nat) : Int) by omega,
      addFlag_lit_nat _ st im t md hrE y (x - 1) hy (by omega) _]
    simp only [ok_bind]
    rw [readWalls_lit _ st im t md hrE1 y x hy hx]
    simp only [ok_bind]
    rw [nodeD_setW_other y (x - 1) y x (by omega) _,
      nodeD_expect ns (8 * y + x) y x hy hx, expect_south]
    rw [if_pos hW] at hg
    rcases (Bool.eq_false_or_eq_true (sAt ns y x)).symm with hS | hS
    · have hSne : ¬sAt ns y x = true := by rw [hS]; exact Bool.false_ne_true
      rw [hS, if_neg Bool.false_ne_true]
      simp only [py_pure_bind]
      rw [if_neg hSne] at hg
      rw [hg]
      exact normStep34_ok ns st im t md hr hsw y x hy hx h7
    · rw [hS, if_pos rfl]
      rw [if_pos hS] at hg
      by_cases hy0 : y = 0
      · subst hy0
        rw [show ((0 : Nat) : Int) - 1 = (-1 : Int) by decide,
          addFlag_lit_neg _ st im t md hrE1 x hx _]
        simp only [ok_bind]
        rw [if_pos rfl] at hg
        rw [hg]
        exact normStep34_ok ns st im t md hr hsw 0 x (by omega) hx h7
      · rw [show ((y : Nat) : Int) - 1 = ((y - 1 : Nat) : Int) by omega,
          addFlag_lit_nat _ st im t md hrE1 (y - 1) x (by omega) hx _]
        simp only [ok_bind]
        rw [if_neg hy0] at hg
        rw [hg]
        exact normStep34_ok ns st im t md hr hsw y x hy hx h7

lemma normaliseGo_fwd (ns : List (List BoardNode)) (st : BoardState) (im : InitialMoves)
    (t : Int) (md : Bool) (hr : rows8 ns) (hsw : onlySW ns) (hw : noBadW ns)
    (hS0 : noBadS ns) :
    ∀ (n k : Nat), k + n = 64 →
      normaliseGo ⟨expectNodes ns k, st, im, t, md⟩
        ((List.range' k n).map (fun j => (j / 8, j % 8))) =
        .ok ⟨expectNodes ns 64, st, im, t, md⟩ := by
  intro n
  induction n with
  | zero =>
    intro k hk
    have hk64 : k = 64 := by omega
    subst hk64
    rw [show List.range' 64 0 = ([] : List Nat) from rfl]
    simp only [List.map_nil, normaliseGo]
    rfl
  | succ n ih =>
    intro k hk
    rw [List.range'_succ]
    simp only [List.map_cons, normaliseGo]
    obtain ⟨y, x, hked, hdy, hdx, hylt, hxlt⟩ :
        ∃ y x, k = 8 * y + x ∧ k / 8 = y ∧ k % 8 = x ∧ y < 8 ∧ x < 8 :=
      ⟨k / 8, k % 8, by omega, rfl, rfl, by omega, by omega⟩
    rw [hdy, hdx, show k = 8 * y + x from hked,
      normStep_fwd ns st im t md hr hsw hw hS0 y x hylt hxlt]
    simp only [ok_bind]
    rw [show 8 * y + x + 1 = k + 1 by omega]
    exact ih (k + 1) (by omega)

/-- Forward board construction: a good grid normalises successfully to
the fully mirrored grid. -/
lemma initBoard_fwd (ns : List (List BoardNode)) (st : BoardState) (im : InitialMoves)
    (t : Int) (hr : rows8 ns) (hsw : onlySW ns) (hw : noBadW ns) (hS0 : noBadS ns) :
    initBoard ns st im t = .ok ⟨expectNodes ns 64, st, im, t, false⟩ := by
  have hrun := normaliseGo_fwd ns st im t false hr hsw hw hS0 64 0 (by omega)
  rw [expectNodes_zero hr] at hrun
  unfold initBoard Board.normalise_walls
  rw [cellsOf_eq ⟨ns, st, im, t, false⟩ hr, cells64_eq]
  exact hrun
/-! Re-parsing a printed board row. -/

lemma join_data_foldl : ∀ (l : List String) (s : String),
    (l.foldl (fun r t => r ++ t) s).data = s.data ++ (l.map String.data).flatten := by
  intro l
  induction l with
  | nil => intro s; simp
  | cons a as ih =>
    intro s
    simp only [List.foldl_cons, List.map_cons, List.flatten_cons]
    rw [ih (s ++ a), String.data_append]
    simp

lemma join_data (l : List String) :
    (String.join l).data = (l.map String.data).flatten := by
  unfold String.join
  rw [join_data_foldl l ""]
  rfl

lemma pieceTile (p : Piece) :
    ∃ tc, (Piece.canonical p).data = [tc] ∧ ¬(tc = '|' ∨ tc = '_') ∧ tc ≠ '#' ∧
      BoardNode.from_str tc = some ⟨some p, false, .NONE, .none0⟩ := by
  obtain ⟨k, o⟩ := p
  cases k <;> cases o <;> exact ⟨_, rfl, by decide, by decide, by decide⟩

lemma canonical_data (nd : BoardNode) :
    (BoardNode.canonical nd).data =
      (if nd.walls.west then ['|'] else []) ++
        (if nd.walls.south then ['_'] else []) ++ (tileStr nd).data := by
  unfold BoardNode.canonical tileStr
  rcases (Bool.eq_false_or_eq_true nd.walls.west).symm with hW | hW <;>
    rcases (Bool.eq_false_or_eq_true nd.walls.south).symm with hS | hS <;>
      rw [hW, hS] <;> simp [String.data_append]

lemma tileStr_spec (nd : BoardNode) (h : tileOk nd) :
    ∃ tc, (tileStr nd).data = [tc] ∧ ¬(tc = '|' ∨ tc = '_') ∧ tc ≠ '#' ∧
      BoardNode.from_str tc = some ⟨nd.contents, nd.mined, nd.trapdoor, Walls.none0⟩ := by
  obtain ⟨ct, mn, td, wl⟩ := nd
  unfold tileOk at h
  dsimp only at h ⊢
  rcases ct with _ | p
  · rcases mn.eq_false_or_eq_true.symm with hm | hm <;> subst hm <;>
      rcases td with _ | _ | _
    · exact ⟨'.', rfl, by decide, by decide, by decide⟩
    · exact ⟨'D', rfl, by decide, by decide, by decide⟩
    · exact ⟨'O', rfl, by decide, by decide, by decide⟩
    · exact ⟨'M', rfl, by decide, by decide, by decide⟩
    · exact ⟨'X', rfl, by decide, by decide, by decide⟩
    · exact absurd ⟨rfl, rfl⟩ h
  · obtain ⟨hm, ht⟩ := h
    subst hm
    subst ht
    obtain ⟨tc, h1, h2, h3, h4⟩ := pieceTile p
    exact ⟨tc, h1, h2, h3, h4⟩

lemma canonical_decomp (nd : BoardNode) (h : tileOk nd) :
    ∃ tc, (BoardNode.canonical nd).data =
      ((if nd.walls.west then ['|'] else []) ++ (if nd.walls.south then ['_'] else [])) ++
        [tc] ∧
      ¬(tc = '|' ∨ tc = '_') ∧ tc ≠ '#' ∧
      BoardNode.from_str tc = some ⟨nd.contents, nd.mined, nd.trapdoor, Walls.none0⟩ := by
  obtain ⟨tc, h1, h2, h3, h4⟩ := tileStr_spec nd h
  refine ⟨tc, ?_, h2, h3, h4⟩
  rw [canonical_data nd, h1, List.append_assoc]

lemma rowTokensGo_mods : ∀ (ms : List Char) (c : Char) (rest acc : List Char),
    (∀ m ∈ ms, m = '|' ∨ m = '_') → ¬(c = '|' ∨ c = '_') →
    rowTokensGo (ms ++ c :: rest) acc = (c, acc ++ ms) :: rowTokensGo rest [] := by
  intro ms
  induction ms with
  | nil =>
    intro c rest acc _ hc
    rw [List.nil_append]
    conv_lhs => unfold rowTokensGo
    rw [if_neg hc, List.append_nil]
  | cons m ms ih =>
    intro c rest acc hms hc
    rw [List.cons_append]
    conv_lhs => unfold rowTokensGo
    rw [if_pos (hms m (by simp)), ih c rest (acc ++ [m]) (fun q hq => hms q (by simp [hq])) hc]
    simp

lemma rowTokensGo_opt2 (w s : Bool) (tc : Char) (rest acc : List Char)
    (hne : ¬(tc = '|' ∨ tc = '_')) :
    rowTokensGo ((if w then ['|'] else []) ++ ((if s then ['_'] else []) ++ (tc :: rest)))
        acc =
      (tc, acc ++ ((if w then ['|'] else []) ++ (if s then ['_'] else []))) ::
        rowTokensGo rest [] := by
  cases w <;> cases s
  · exact rowTokensGo_mods [] tc rest acc (by simp) hne
  · exact rowTokensGo_mods ['_'] tc rest acc (by simp) hne
  · exact rowTokensGo_mods ['|'] tc rest acc (by simp) hne
  · exact rowTokensGo_mods ['|', '_'] tc rest acc (by simp) hne

lemma modsOk (w s : Bool) :
    ¬(((if w then ['|'] else []) ++ (if s then ['_'] else [])).length > 2 ∨
      (((if w then ['|'] else []) ++ (if s then ['_'] else [])).length = 2 ∧
        ((if w then ['|'] else []) ++ (if s then ['_'] else [])).get? 0 =
          ((if w then ['|'] else []) ++ (if s then ['_'] else [])).get? 1)) := by
  cases w <;> cases s <;> decide

lemma applyMods_flags (x0 y : Int) (ct : Option Piece) (mn : Bool) (td : TrapdoorState)
    (w s : Bool) (hw : w = true → x0 ≠ 0) (hs : s = true → y ≠ 7) :
    applyNodeModifiers ⟨x0, y⟩ ⟨ct, mn, td, Walls.none0⟩
        ((if w then ['|'] else []) ++ (if s then ['_'] else [])) =
      some ⟨ct, mn, td, ⟨false, s, false, w⟩⟩ := by
  cases w <;> cases s
  · rfl
  · show applyNodeModifiers ⟨x0, y⟩ ⟨ct, mn, td, Walls.none0⟩ ['_'] = _
    unfold applyNodeModifiers
    rw [if_neg (by decide), if_pos rfl,
      if_neg (show ¬(Position.mk x0 y).y = 7 from hs rfl)]
    rfl
  · show applyNodeModifiers ⟨x0, y⟩ ⟨ct, mn, td, Walls.none0⟩ ['|'] = _
    unfold applyNodeModifiers
    rw [if_pos rfl, if_neg (show ¬(Position.mk x0 y).x = 0 from hw rfl)]
    rfl
  · show applyNodeModifiers ⟨x0, y⟩ ⟨ct, mn, td, Walls.none0⟩ ['|', '_'] = _
    unfold applyNodeModifiers
    rw [if_pos rfl, if_neg (show ¬(Position.mk x0 y).x = 0 from hw rfl)]
    show applyNodeModifiers ⟨x0, y⟩ ⟨ct, mn, td, Walls.none0.addWest⟩ ['_'] = _
    unfold applyNodeModifiers
    rw [if_neg (by decide), if_pos rfl,
      if_neg (show ¬(Position.mk x0 y).y = 7 from hs rfl)]
    rfl

/-- Parsing the tokens of a printed row of representable tiles whose
flags respect the column-0 and row-7 restrictions reconstructs the
south/west data of the nodes. -/
lemma parseRow_printed (y rowLen : Int) : ∀ (nds acc : List BoardNode),
    (∀ nd ∈ nds, tileOk nd) →
    (acc.length = 0 → 0 < nds.length → (nds.getD 0 junkNode).walls.west = false) →
    (y = 7 → ∀ nd ∈ nds, nd.walls.south = false) →
    acc.length + nds.length = 8 →
    parseRowGo y rowLen
      (rowTokensGo ((nds.map (fun nd => (BoardNode.canonical nd).data)).flatten ++ ['#']) [])
      ((acc.length : Nat) : Int) acc = .success (acc ++ nds.map swNode) := by
  intro nds
  induction nds with
  | nil =>
    intro acc _ _ _ hlen
    have hacc8 : acc.length = 8 := by simpa using hlen
    simp only [List.map_nil, List.flatten_nil, List.nil_append]
    rw [show rowTokensGo ['#'] [] = [('#', ([] : List Char))] from rfl]
    conv_lhs => unfold parseRowGo
    rw [if_pos rfl, if_neg (show ¬((acc.length : Nat) : Int) ≠ 8 by omega),
      if_neg (by simp)]
    conv_lhs => unfold parseRowGo
    simp
  | cons nd nds ih =>
    intro acc htile hw0 hs7 hlen
    have hndlt : acc.length ≤ 7 := by
      simp only [List.length_cons] at hlen
      omega
    obtain ⟨tc, hdec, hne, hnh, hfs⟩ := canonical_decomp nd (htile nd (by simp))
    simp only [List.map_cons, List.flatten_cons]
    rw [hdec]
    simp only [List.append_assoc, List.singleton_append, List.cons_append, List.nil_append]
    rw [rowTokensGo_opt2 nd.walls.west nd.walls.south tc _ [] hne, List.nil_append]
    have hstep : ∀ node2 : BoardNode, node2 = swNode nd →
        parseRowGo y rowLen
          (rowTokensGo ((nds.map (fun nd => (BoardNode.canonical nd).data)).flatten ++ ['#'])
            [])
          (((acc.length : Nat) : Int) + 1) (acc ++ [node2]) =
          .success (acc ++ (nd :: nds).map swNode) := by
      intro node2 hnode2
      rw [show (((acc.length : Nat) : Int) + 1) = (((acc ++ [node2]).length : Nat) : Int)
        by simp]
      rw [ih (acc ++ [node2]) (fun q hq => htile q (by simp [hq]))
        (by intro habs; simp at habs)
        (fun h7 q hq => hs7 h7 q (by simp [hq]))
        (by simp only [List.length_append, List.length_cons, List.length_nil] at hlen ⊢
            omega)]
      rw [hnode2]
      simp
    conv_lhs => unfold parseRowGo
    rw [if_neg hnh, if_neg (show ¬((acc.length : Nat) : Int) > 7 by omega), hfs]
    dsimp only
    rw [if_neg (modsOk nd.walls.west nd.walls.south)]
    have hwcond : nd.walls.west = true → ((acc.length : Nat) : Int) ≠ 0 := by
      intro hWt hc0
      have h0 : acc.length = 0 := by omega
      have hww := hw0 h0 (by simp)
      simp only [List.getD_cons_zero] at hww
      rw [hWt] at hww
      exact Bool.noConfusion hww
    have hscond : nd.walls.south = true → y ≠ 7 := by
      intro hSt h7
      have hss := hs7 h7 nd (by simp)
      rw [hSt] at hss
      exact Bool.noConfusion hss
    rw [applyMods_flags ((acc.length : Nat) : Int) y nd.contents nd.mined nd.trapdoor
      nd.walls.west nd.walls.south hwcond hscond]
    dsimp only
    exact hstep _ rfl
/-! Re-parsing a printed board. -/

lemma getD_map_range {α : Type} (n : Nat) (f : Nat → α) (i : Nat) (d : α) (h : i < n) :
    ((List.range n).map f).getD i d = f i := by
  rw [getD_lt (by simpa using h) d, List.getElem_map, List.getElem_range]

lemma swNode_nodeD (rows : List (List BoardNode)) (hsw : onlySW rows) (y x : Nat) :
    swNode (expectNode rows 64 y x) = nodeD rows y x := by
  unfold swNode
  refine nodeExt _ _ (expect_contents rows 64 y x) (expect_mined rows 64 y x)
    (expect_trapdoor rows 64 y x) (wallsExt _ _ ?_ ?_ ?_ ?_)
  · exact ((hsw y x).1).symm
  · exact expect_south rows 64 y x
  · exact ((hsw y x).2).symm
  · exact expect_west rows 64 y x

lemma parseRows_printed (rows : List (List BoardNode)) (hr : rows8 rows)
    (hsw : onlySW rows) (hw : noBadW rows) (hs7 : noS7 rows) (htk : tilesOk rows) :
    ∀ (n k : Nat), k + n = 8 →
    parseRowsGo k ((List.range' k n).map (fun y =>
        String.join (((List.range 8).map (expectNode rows 64 y)).map BoardNode.canonical))) =
      .success ((List.range' k n).map (fun y => (List.range 8).map (fun x => nodeD rows y x)))
    := by
  intro n
  induction n with
  | zero =>
    intro k _
    rw [show List.range' k 0 = ([] : List Nat) from rfl]
    simp only [List.map_nil]
    rfl
  | succ n ih =>
    intro k hk
    rw [List.range'_succ]
    simp only [List.map_cons]
    have hline : (String.join (((List.range 8).map (expectNode rows 64 k)).map
        BoardNode.canonical)).data =
        ((((List.range 8).map (expectNode rows 64 k))).map
          (fun nd => (BoardNode.canonical nd).data)).flatten := by
      rw [join_data, List.map_map]
      rfl
    have htok : rowTokens (String.join (((List.range 8).map (expectNode rows 64 k)).map
        BoardNode.canonical)) =
        rowTokensGo (((((List.range 8).map (expectNode rows 64 k))).map
          (fun nd => (BoardNode.canonical nd).data)).flatten ++ ['#']) [] := by
      unfold rowTokens
      rw [hline]
    have hmrow : ((List.range 8).map (expectNode rows 64 k)).map swNode =
        (List.range 8).map (fun x => nodeD rows k x) := by
      rw [List.map_map]
      exact List.map_congr_left (fun x _ => swNode_nodeD rows hsw k x)
    conv_lhs => unfold parseRowsGo
    rw [htok, show (0 : Int) = ((([] : List BoardNode).length : Nat) : Int) from rfl,
      parseRow_printed (k : Nat) _ ((List.range 8).map (expectNode rows 64 k)) []
        (by
          intro q hq
          obtain ⟨x, hx, rfl⟩ := List.mem_map.mp hq
          exact tileOk_of_fields _ (nodeD rows k x) (expect_contents rows 64 k x)
            (expect_mined rows 64 k x) (expect_trapdoor rows 64 k x) (htk k x))
        (by
          intro _ h0
          rw [getD_map_range 8 _ 0 junkNode (by omega), expect_west]
          exact hw k)
        (by
          intro h7 q hq
          obtain ⟨x, hx, rfl⟩ := List.mem_map.mp hq
          have hk7 : k = 7 := by exact_mod_cast h7
          rw [expect_south, hk7]
          exact hs7 x)
        (by simp)]
    dsimp only
    rw [ih (k + 1) (by omega)]
    dsimp only
    rw [List.nil_append, hmrow]

lemma canonicalRows_expect (rows : List (List BoardNode)) (st : BoardState)
    (im : InitialMoves) (t : Int) (md : Bool) :
    Board.canonicalRows ⟨expectNodes rows 64, st, im, t, md⟩ =
      (List.range' 0 8).map (fun y =>
        String.join (((List.range 8).map (expectNode rows 64 y)).map BoardNode.canonical))
    := by
  unfold Board.canonicalRows expectNodes
  dsimp only
  rw [List.map_map, List.range_eq_range']
  rfl

lemma printed_grid_eq (rows : List (List BoardNode)) (hr : rows8 rows) :
    (List.range' 0 8).map (fun y => (List.range 8).map (fun x => nodeD rows y x)) = rows := by
  rw [← List.range_eq_range']
  refine grid_ext ?_ hr ?_
  · constructor
    · simp
    · intro r hrm
      obtain ⟨y, hy, rfl⟩ := List.mem_map.mp hrm
      simp
  · intro y x hy hx
    unfold nodeD
    rw [getD_map_range 8 _ y [] hy, getD_map_range 8 _ x junkNode hx]

lemma canonicalLines_congr (b1 b2 : Board) (hn : b1.nodes = b2.nodes)
    (hs : b1.state = b2.state) : b1.canonicalLines = b2.canonicalLines := by
  unfold Board.canonicalLines Board.canonicalRows
  rw [hn, hs]

/-- Round trip of the text format at the fromStrsMain level: reparsing
the canonical lines listing of a constructed board rebuilds the same
grid and state (the initial-moves dict is rebuilt from the _init flag
of the second parse). -/
lemma fromStrsMain_roundtrip (init init2 : Bool) (strings : List String) (b : Board)
    (h : fromStrsMain init strings = .ok (.success b)) :
    fromStrsMain init2 b.canonicalLines =
      .ok (.success ⟨b.nodes, b.state, InitialMoves.fromInit init2, 1, false⟩) := by
  obtain ⟨rows, st, sl, hr, hsw, hw, hs7, htk, hg8, hst, hib⟩ :=
    fromStrsMain_ok init strings b h
  obtain ⟨hb, hs0⟩ := initBoard_expect rows st _ 1 hr hsw hw b hib
  subst hb
  have hok := from_str_stateOk sl st hst
  have hrt := state_roundtrip st hok
  have hclines : Board.canonicalLines ⟨expectNodes rows 64, st, InitialMoves.fromInit init,
      1, false⟩ =
      ((List.range' 0 8).map (fun y =>
        String.join (((List.range 8).map (expectNode rows 64 y)).map BoardNode.canonical)))
        ++ [st.canonical] := by
    unfold Board.canonicalLines
    rw [canonicalRows_expect rows st _ 1 false]
  rw [hclines]
  have hparse : parseRows ((((List.range' 0 8).map (fun y =>
      String.join (((List.range 8).map (expectNode rows 64 y)).map BoardNode.canonical)))
        ++ [st.canonical]).take 8) = .success rows := by
    rw [List.take_left' (by simp)]
    unfold parseRows
    rw [parseRows_printed rows hr hsw hw hs7 htk 8 0 (by omega),
      printed_grid_eq rows hr]
  unfold fromStrsMain
  rw [hparse]
  dsimp only
  have hget : ((((List.range' 0 8).map (fun y =>
      String.join (((List.range 8).map (expectNode rows 64 y)).map BoardNode.canonical)))
        ++ [st.canonical]).get? 8) = some st.canonical := by
    rw [List.get?_eq_getElem?, List.getElem?_append_right (by simp)]
    simp
  rw [hget]
  dsimp only
  rw [hrt]
  simp only [ok_bind]
  rw [if_neg (by simp)]
  rw [initBoard_fwd rows st (InitialMoves.fromInit init2) 1 hr hsw hw hs0]
  simp only [ok_bind]
  rfl
/-- Claim C9 (corrected), counterexample: the round trip is not
byte-identical and the format is not fully accepted.  The fixture text
modStrs writes the south modifier before the west modifier ("_|"); the
parser accepts it, but BoardNode.canonical always prints "|" before
"_", so serializing the parsed board back does not reproduce the input
bytes.  The fixture h3Strs is a section-6 board text whose en-passant
square is h3, but the status regex of BoardState.from_str only admits
files a-g, so the parser rejects it. -/
theorem c9_counterexample :
    (Board.from_strs modStrs = .ok (.success modB) ∧ modB.canonicalLines ≠ modStrs) ∧
    Board.from_strs h3Strs = .ok (.failure illegalStatusMsg) :=
  ⟨⟨by decide, by decide⟩, by decide⟩

/-- Claim C9 (amended): the canonical form is a fixed point of the
round trip.  For every text that Board.from_strs accepts, the
canonical line listing of the parsed board is itself accepted, and the
board parsed from it serializes to the very same canonical lines
(byte-identity holds from the first reserialization onwards, though
not necessarily with respect to the original input). -/
theorem c9_amended (strings : List String) (b : Board)
    (h : Board.from_strs strings = .ok (.success b)) :
    ∃ b2, Board.from_strs b.canonicalLines = .ok (.success b2) ∧
      b2.canonicalLines = b.canonicalLines := by
  unfold Board.from_strs at h ⊢
  have hmain : ∃ init, fromStrsMain init strings = .ok (.success b) := by
    by_cases hstd : strings = stdStrs
    · subst hstd
      rw [if_pos rfl] at h
      exact ⟨true, h⟩
    · rw [if_neg hstd] at h
      exact ⟨false, h⟩
  obtain ⟨init, hm⟩ := hmain
  by_cases hcl : b.canonicalLines = stdStrs
  · rw [if_pos hcl]
    refine ⟨⟨b.nodes, b.state, InitialMoves.fromInit true, 1, false⟩, ?_,
      canonicalLines_congr _ _ rfl rfl⟩
    rw [← hcl]
    exact fromStrsMain_roundtrip init true strings b hm
  · rw [if_neg hcl]
    exact ⟨⟨b.nodes, b.state, InitialMoves.fromInit false, 1, false⟩,
      fromStrsMain_roundtrip init false strings b hm, canonicalLines_congr _ _ rfl rfl⟩

/-- Witness for claim C9: the amended round trip applied to the
modified fixture board. -/
theorem c9_amended_witness :
    Board.from_strs modStrs = .ok (.success modB) ∧
      ∃ b2, Board.from_strs modB.canonicalLines = .ok (.success b2) ∧
        b2.canonicalLines = modB.canonicalLines :=
  ⟨by decide, c9_amended modStrs modB (by decide)⟩
end OC
